import Mathlib

/-!
# ANSI SGR escape parser and render pipeline of `src/main.js`

A shallow embedding of the `Theme`, `EscapeCSS` and `Terminal` classes of
`src/main.js` and theorems about what the parser accepts and produces and
about what the terminal prints, and when.

Modelling conventions.

* A JavaScript string is a `List Char`.  JavaScript indexes strings by UTF-16
  code unit, so `jsLength` counts two units for a character outside the basic
  plane; every character the parser compares against (`ESC`, `[`, `m`, `;`,
  the digits) is a single unit, hence taking the head of the list and dropping
  characters agree with `seq[0]` and `seq.slice`.
* A theme field holds `undefined`, `null` or a string (`JSValue`).  A key that
  is absent from an object reads as `undefined`, and every reader in the
  source (`mergeThemes`, `applyTheme`) only tests `=== undefined` or
  `=== null`, so an absent key is represented by `JSValue.undefined`.
* `Number(last)` on a run of decimal digits is the natural number it denotes.
  JavaScript rounds it to a double; rounding is monotone and exact below
  `2 ^ 53`, so every comparison the parser makes (all against constants below
  256) has the same outcome.
* A `throw` is the `Except.error` result; `JSError` keeps the messages of the
  four `TypeError`s of the source apart.
* The two loops of the constructor are defined with a bound on the number of
  iterations, which makes them computable on concrete inputs.  The bound is
  never reached: `scan_unfold` and `applyCodes_cons` prove the loop equations
  of the source for every input.
* The constructor is modelled on string arguments, so the test
  `typeof seq !== 'string'` is always false.
* The terminal cuts the strings of its queue with `slice`, modelled by `take`
  and `drop`; the two agree on characters of the basic plane, where a
  character is one unit.  The functions of `addTextHooks` are recorded by a
  number each and only observe: they neither call the terminal nor throw.
-/

/-- A JavaScript string. -/
abbrev JSString := List Char

/-- The escape character `0x1B`. -/
def ESC : Char := Char.ofNat 27

/-- The `length` of a JavaScript string: the number of UTF-16 code units. -/
def jsLength (s : JSString) : Nat :=
  (s.map (fun c => if c.toNat < 65536 then 1 else 2)).sum

/-- The value of a theme field: `undefined`, `null` or a string. -/
inductive JSValue where
  | undefined : JSValue
  | null : JSValue
  | str (s : JSString) : JSValue
  deriving DecidableEq

/-- The errors thrown by the source, all of them `TypeError`s, by message. -/
inductive JSError where
  /-- The error `Unsupported escape sequence`, thrown by `EscapeCSS.__err`. -/
  | unsupportedSequence : JSError
  /-- The error `Invalid palette color (k)` of `paletteToCSSColor`. -/
  | invalidPaletteColor (k : JSString) : JSError
  /-- The error `Invalid ANSI color (c)` of `ansiToCSSColor`. -/
  | invalidAnsiColor (c : Int) : JSError
  /-- The error `Invalid ANSI cube color (c)` of `ansiCubeToCSSColor`. -/
  | invalidAnsiCubeColor (c : Int) : JSError
  deriving DecidableEq

/-- The `ElementTheme` objects of the source.  `styles` is the key that
`Theme.default` writes next to the `style` key of the typedef. -/
structure ElementTheme where
  bg : JSValue
  fg : JSValue
  font : JSValue
  style : JSValue
  styles : JSValue
  deriving DecidableEq

/-- ANSI colour names in order of definition X0 to X7. -/
def COLORS : List JSString :=
  ["Black".toList, "Red".toList, "Green".toList, "Yellow".toList,
   "Blue".toList, "Magenta".toList, "Cyan".toList, "White".toList]

/-- The constant `Theme.BG_CLASS_PREFIX`. -/
def Theme.BG_CLASS_PREFIX : JSString := "term-bg-".toList

/-- The constant `Theme.FG_CLASS_PREFIX`. -/
def Theme.FG_CLASS_PREFIX : JSString := "term-fg-".toList

/-- The constant `Theme.CUBE_CLASS_PREFIX`. -/
def Theme.CUBE_CLASS_PREFIX : JSString := "cube-".toList

/-- The default class for background, `Theme.defaultBg()`. -/
def Theme.defaultBg : JSString := Theme.BG_CLASS_PREFIX ++ "black".toList

/-- The default class for foreground, `Theme.defaultFg()`. -/
def Theme.defaultFg : JSString := Theme.FG_CLASS_PREFIX ++ "white".toList

/-- The default class for font theme, `Theme.defaultFont()`. -/
def Theme.defaultFont : JSString := "term-font".toList

/-- The result of `Theme.default()`: the object `{bg, fg, font, styles: undefined}`; it has no
`style` key, which therefore reads as `undefined`. -/
def Theme.default : ElementTheme :=
  { bg := .str Theme.defaultBg
    fg := .str Theme.defaultFg
    font := .str Theme.defaultFont
    style := .undefined
    styles := .undefined }

/-- The function `Theme.paletteToCSSColor(k)`.  `toLowerCase` is only reached for the sixteen
palette keys, which are ASCII. -/
def Theme.paletteToCSSColor (k : JSString) : Except JSError JSString :=
  let isBright := "Bright".toList.isPrefixOf k
  let found := if isBright then COLORS.contains (k.drop 6) else COLORS.contains k
  if !found then .error (.invalidPaletteColor k)
  else
    let k2 := if isBright then k.take 6 ++ '-' :: k.drop 6 else k
    .ok (k2.map Char.toLower)

/-- Whether the code is a dark ANSI foreground. -/
def Theme.isAnsiDarkFg (c : Int) : Bool := 30 ≤ c && c ≤ 37

/-- Whether the code is a bright ANSI foreground. -/
def Theme.isAnsiBrightFg (c : Int) : Bool := 90 ≤ c && c ≤ 97

/-- Whether the code is an ANSI foreground. -/
def Theme.isAnsiFg (c : Int) : Bool := Theme.isAnsiDarkFg c || Theme.isAnsiBrightFg c

/-- Whether the code is a dark ANSI background. -/
def Theme.isAnsiDarkBg (c : Int) : Bool := 40 ≤ c && c ≤ 47

/-- Whether the code is a bright ANSI background. -/
def Theme.isAnsiBrightBg (c : Int) : Bool := 100 ≤ c && c ≤ 107

/-- Whether the code is an ANSI background. -/
def Theme.isAnsiBg (c : Int) : Bool := Theme.isAnsiDarkBg c || Theme.isAnsiBrightBg c

/-- The entry `COLORS[i]` for an index that the range tests have put inside `0..7`. -/
def colorAt (i : Int) : JSString := COLORS.getD i.toNat []

/-- The function `Theme.ansiToCSSColor(c)`. -/
def Theme.ansiToCSSColor (c : Int) : Except JSError JSString :=
  if Theme.isAnsiDarkFg c then Theme.paletteToCSSColor (colorAt (c - 30))
  else if Theme.isAnsiDarkBg c then Theme.paletteToCSSColor (colorAt (c - 40))
  else if Theme.isAnsiBrightFg c then
    Theme.paletteToCSSColor ("Bright".toList ++ colorAt (c - 90))
  else if Theme.isAnsiBrightBg c then
    Theme.paletteToCSSColor ("Bright".toList ++ colorAt (c - 100))
  else .error (.invalidAnsiColor c)

/-- The decimal text of a number, as the template literal of the source
prints an integer. -/
def numberToString (c : Int) : JSString :=
  if c < 0 then '-' :: Nat.toDigits 10 c.natAbs else Nat.toDigits 10 c.toNat

/-- The function `Theme.ansiCubeToCSSColor(c)`. -/
def Theme.ansiCubeToCSSColor (c : Int) : Except JSError JSString :=
  if 16 ≤ c ∧ c ≤ 255 then .ok (Theme.CUBE_CLASS_PREFIX ++ numberToString c)
  else .error (.invalidAnsiCubeColor c)

/-- The function `Theme.ansiToCSSClass(c)`; `pre` is the `prefix` constant of the source. -/
def Theme.ansiToCSSClass (c : Int) : Except JSError JSString :=
  let pre := if Theme.isAnsiBg c then Theme.BG_CLASS_PREFIX else Theme.FG_CLASS_PREFIX
  match Theme.ansiToCSSColor c with
  | .error e => .error e
  | .ok color => .ok (pre ++ color)

/-- The function `Theme.mergeThemes(old, other)`: every key of `other` whose value is not
`undefined` is written into `old`, which is returned. -/
def Theme.mergeThemes (old other : ElementTheme) : ElementTheme :=
  { bg := if other.bg ≠ .undefined then other.bg else old.bg
    fg := if other.fg ≠ .undefined then other.fg else old.fg
    font := if other.font ≠ .undefined then other.font else old.font
    style := if other.style ≠ .undefined then other.style else old.style
    styles := if other.styles ≠ .undefined then other.styles else old.styles }

/-- The function `EscapeCSS.__err()`, which always throws. -/
def EscapeCSS.__err {α : Type} : Except JSError α := .error .unsupportedSequence

/-- The function `EscapeCSS.endOfDigits(s)`: the index of the first character whose code is
below 48 or above 57, or the length when there is none. -/
def EscapeCSS.endOfDigits : JSString → Nat
  | [] => 0
  | c :: cs => if c.toNat < 48 ∨ c.toNat > 57 then 0 else EscapeCSS.endOfDigits cs + 1

/-- The value of `Number(last)` for a run of decimal digits. -/
def jsNumber (last : JSString) : Nat :=
  last.foldl (fun acc c => acc * 10 + (c.toNat - 48)) 0

/-- The scanning loop of the constructor (`while (seq[0] !== 'm')`) with a
bound on the number of iterations; the loop body is that of the source.  It is
entered with the text after `ESC[` and the codes pushed so far and returns the
codes and the text after the terminating `m`. -/
def EscapeCSS.scanFuel : Nat → JSString → List Nat → Except JSError (List Nat × JSString)
  | 0, _, _ => EscapeCSS.__err
  | fuel + 1, seq, codes =>
    if seq.head? = some 'm' then .ok (codes, seq.drop 1)
    else
      let eod := EscapeCSS.endOfDigits seq
      if eod = 0 then EscapeCSS.__err
      else
        let last := seq.take eod
        if eod = jsLength seq then EscapeCSS.__err
        else
          let eod2 := if seq.get? eod = some ';' then eod + 1 else eod
          EscapeCSS.scanFuel fuel (seq.drop eod2) (codes ++ [jsNumber last])

/-- The scanning loop.  Every iteration removes at least one character, so one
more iteration than the text has characters is enough: `scan_unfold` proves
that `scan` satisfies the loop equation itself, on every input. -/
def EscapeCSS.scan (seq : JSString) (codes : List Nat) : Except JSError (List Nat × JSString) :=
  EscapeCSS.scanFuel (seq.length + 1) seq codes

/-- The fields of the object under construction that the validation loop
writes: `this.theme` and `this.style` (the latter starts absent). -/
structure EscapeState where
  theme : ElementTheme
  style : JSValue
  deriving DecidableEq

/-- The assignment `this.theme[key] = v`, where `key` is `'bg'` when `isBg` and
`'fg'` otherwise. -/
def EscapeState.setKey (st : EscapeState) (isBg : Bool) (v : JSString) : EscapeState :=
  if isBg then { st with theme := { st.theme with bg := .str v } }
  else { st with theme := { st.theme with fg := .str v } }

/-- The text that `+=` reads from `this.style`: string concatenation turns
`undefined` and `null` into their names. -/
def JSValue.toText : JSValue → JSString
  | .undefined => "undefined".toList
  | .null => "null".toList
  | .str s => s

/-- The text of a code inside the template literal of the RGB declaration;
exact below `2 ^ 53`, where `Number` is exact. -/
def codeToString (n : Nat) : JSString := Nat.toDigits 10 n

/-- One iteration of the validation loop of the constructor, at the code `cmd`
with `rest` the codes after it: the state after the iteration and the number
of times `++seg` ran.  `this.codes[++seg]` past the end is `undefined`
(`none`), which fails every test made on it. -/
def EscapeCSS.applyCode (cmd : Nat) (rest : List Nat) (st : EscapeState) :
    Except JSError (EscapeState × Nat) :=
  if cmd = 0 then .ok ({ st with theme := Theme.default }, 0)
  else if cmd = 39 then
    .ok ({ st with theme := { st.theme with fg := .str Theme.defaultFg } }, 0)
  else if cmd = 49 then
    .ok ({ st with theme := { st.theme with bg := .str Theme.defaultBg } }, 0)
  else
    let isBg : Bool := cmd = 48
    if cmd = 38 ∨ isBg then
      let arg := rest.get? 0
      if arg = some 5 then
        match rest.get? 1 with
        | none => EscapeCSS.__err
        | some n =>
          if n ≤ 7 then
            match Theme.ansiToCSSClass ((cmd : Int) - 8 + n) with
            | .error e => .error e
            | .ok cls => .ok (st.setKey isBg cls, 2)
          else if 8 ≤ n ∧ n ≤ 15 then
            match Theme.ansiToCSSClass ((cmd : Int) + 52 + n) with
            | .error e => .error e
            | .ok cls => .ok (st.setKey isBg cls, 2)
          else if 16 ≤ n ∧ n ≤ 255 then
            let pre := if isBg then Theme.BG_CLASS_PREFIX else Theme.FG_CLASS_PREFIX
            match Theme.ansiCubeToCSSColor n with
            | .error e => .error e
            | .ok cube => .ok (st.setKey isBg (pre ++ cube), 2)
          else EscapeCSS.__err
      else if arg = some 2 then
        match rest.get? 1, rest.get? 2, rest.get? 3 with
        | some r, some g, some b =>
          if r = 0 ∨ g = 0 ∨ b = 0 then EscapeCSS.__err
          else
            let pre := if isBg then "background-".toList else []
            let decl := pre ++ "color: rgb(".toList ++ codeToString r ++ ", ".toList
              ++ codeToString g ++ ", ".toList ++ codeToString b ++ ");".toList
            .ok ({ st with style := .str (st.style.toText ++ decl) }, 4)
        | _, _, _ => EscapeCSS.__err
      else EscapeCSS.__err
    else
      match Theme.ansiToCSSClass cmd with
      | .ok cls => .ok (st.setKey isBg cls, 0)
      | .error _ => EscapeCSS.__err

/-- The validation loop (`for (let seg = 0; seg <= lastSeg; seg++)`) on the
codes from index `seg` on, with a bound on the number of iterations. -/
def EscapeCSS.applyCodesFuel : Nat → List Nat → EscapeState → Except JSError EscapeState
  | _, [], st => .ok st
  | 0, _ :: _, _ => EscapeCSS.__err
  | fuel + 1, cmd :: rest, st =>
    match EscapeCSS.applyCode cmd rest st with
    | .error e => .error e
    | .ok (st2, k) => EscapeCSS.applyCodesFuel fuel (rest.drop k) st2

/-- The validation loop.  Every iteration reads at least one code, so as many
iterations as there are codes are enough: `applyCodes_cons` proves that
`applyCodes` satisfies the loop equation itself. -/
def EscapeCSS.applyCodes (codes : List Nat) (st : EscapeState) : Except JSError EscapeState :=
  EscapeCSS.applyCodesFuel codes.length codes st

/-- The object built by `new EscapeCSS(seq)`. -/
structure EscapeCSS where
  codes : List Nat
  theme : ElementTheme
  style : JSValue
  seq : JSString
  deriving DecidableEq

/-- The theme the constructor starts from: all four keys `undefined`. -/
def EscapeCSS.initialTheme : ElementTheme :=
  { bg := .undefined, fg := .undefined, font := .undefined, style := .undefined,
    styles := .undefined }

/-- The constructor `new EscapeCSS(seq)` on a string argument: the object, or
the error it throws. -/
def EscapeCSS.new (seq : JSString) : Except JSError EscapeCSS :=
  if jsLength seq < 4 ∨ seq.head? ≠ some ESC ∨ seq.get? 1 ≠ some '[' then EscapeCSS.__err
  else
    match EscapeCSS.scan (seq.drop 2) [] with
    | .error e => .error e
    | .ok (codes, rest) =>
      match EscapeCSS.applyCodes codes { theme := EscapeCSS.initialTheme, style := .undefined } with
      | .error e => .error e
      | .ok st => .ok { codes := codes, theme := st.theme, style := st.style, seq := rest }

/-- The sequence `ESC [ body m`. -/
def sgr (body : JSString) : JSString := ESC :: '[' :: (body ++ ['m'])

/-- A number written in decimal. -/
def decimal (n : Nat) : JSString := Nat.toDigits 10 n

/-- The body of a sequence that lists the codes `cs` in decimal, separated by
`;`. -/
def sgrBody : List Nat → JSString
  | [] => []
  | [c] => decimal c
  | c :: d :: cs => decimal c ++ ';' :: sgrBody (d :: cs)

/-- A character whose code is one of `48..57`, as `endOfDigits` tests it. -/
def IsDigit (c : Char) : Prop := 48 ≤ c.toNat ∧ c.toNat ≤ 57

instance : DecidablePred IsDigit := fun c => by unfold IsDigit; infer_instance

/-- The text of `s` up to and including its first `m`. -/
def uptoFirstM (s : JSString) : JSString := s.takeWhile (fun c => c ≠ 'm') ++ ['m']

/-- The shape of a terminated sequence: `s` starts with `ESC` followed by `[`,
contains an `m`, and has only digits and `;` between the `[` and the first
`m`. -/
def SGRShape (s : JSString) : Prop :=
  s.head? = some ESC ∧ s.get? 1 = some '[' ∧ 'm' ∈ s ∧
    ∀ c ∈ (s.drop 2).takeWhile (fun c => c ≠ 'm'), IsDigit c ∨ c = ';'

instance : DecidablePred SGRShape := fun s => by unfold SGRShape; infer_instance

/-! ## The output surface and the render pipeline

The buffer element of a `Terminal` is modelled by its child nodes in document
order and by the theme object `this.buffer.terminalTheme`.

* `innerHTML += next` is recorded as the HTML text appended; how the browser
  parses and re-serialises that text is outside the source and not modelled.
  At the buffer root the text `<br/>` makes an element (`BufferNode.br`, which
  `children` lists), every other appended text makes character data.
* `Theme.mergeThemes` mutates and returns its first argument, and
  `__addTextForce` stores that very object in the span it opens.  The first
  argument is the object of the last span or that of the buffer, and the
  constructor of `Terminal` is the only caller of `Terminal.applyTheme`, so
  every span that holds a theme holds the object of the buffer: whichever
  branch computes `lastTheme`, it is that one object, `Surface.terminalTheme`.
  What a span keeps of it is the class list it was given when it was opened.
* The classes are class tokens (the `Theme` functions produce nothing else),
  on which `classList.add` does not throw.
* A character outside the basic plane takes two iterations in the source, one
  for each of its code units; the model appends it in one.
-/

/-- A child node of the buffer element. -/
inductive BufferNode where
  /-- Character data at the buffer root, by the HTML text that was appended. -/
  | text (html : JSString) : BufferNode
  /-- The element made by `<br/>` appended at the buffer root. -/
  | br : BufferNode
  /-- A `span` element made by `createElement`, with its class list and the
  HTML text appended to its `innerHTML`. -/
  | span (classList : List JSString) (innerHTML : JSString) : BufferNode
  deriving DecidableEq

/-- Whether the node is an element, that is, listed in `children`. -/
def BufferNode.isElement : BufferNode → Bool
  | .text _ => false
  | .br => true
  | .span _ _ => true

/-- The buffer element: the object `this.buffer.terminalTheme` and the child
nodes in document order. -/
structure Surface where
  terminalTheme : ElementTheme
  nodes : List BufferNode
  deriving DecidableEq

/-- The buffer of a newly constructed `Terminal`: no child, and the default
theme that `Theme.applyTheme(this.buffer)` stored in it. -/
def Surface.initial : Surface := { terminalTheme := Theme.default, nodes := [] }

/-- The value of `this.buffer.children[this.buffer.children.length - 1]`. -/
def lastChild (nodes : List BufferNode) : Option BufferNode :=
  (nodes.filter BufferNode.isElement).getLast?

/-- The value of `lastChild && lastChild.tagName === 'SPAN'`. -/
def hasLastChild (nodes : List BufferNode) : Bool :=
  match lastChild nodes with
  | some (.span _ _) => true
  | _ => false

/-- The statement `el.innerHTML += next` on a node that is a span. -/
def BufferNode.appendHTML (next : JSString) : BufferNode → BufferNode
  | .span classList innerHTML => .span classList (innerHTML ++ next)
  | other => other

/-- The statement `lastChild.innerHTML += next`, for a last child that is a
span: the last element among the nodes gets `next` appended. -/
def appendToLastChild (next : JSString) : List BufferNode → List BufferNode
  | [] => []
  | n :: rest =>
    if rest.any BufferNode.isElement then n :: appendToLastChild next rest
    else n.appendHTML next :: rest

/-- The statement `this.buffer.innerHTML += next`. -/
def appendToBuffer (next : JSString) (nodes : List BufferNode) : List BufferNode :=
  nodes ++ [if next = "<br/>".toList then .br else .text next]

/-- The end of the loop body of `__addTextForce`: `next` goes to the last span
when `hasLastChild`, to the buffer root otherwise. -/
def addNext (hasLast : Bool) (next : JSString) (nodes : List BufferNode) : List BufferNode :=
  if hasLast then appendToLastChild next nodes else appendToBuffer next nodes

/-- The call `classList.add(token)` on a class token. -/
def classListAdd (classList : List JSString) (token : JSString) : List JSString :=
  if token ∈ classList then classList else classList ++ [token]

/-- The function `Theme.applyTheme(el, theme)` on an element `el` without
`terminalTheme` (a span just created): every value of `theme` that is not
`undefined` is added to the class list, in the order of the keys of a theme
made by `Theme.default()` (`bg`, `fg`, `font`, `styles`) and then `style`. -/
def Theme.applyTheme (classList : List JSString) (theme : ElementTheme) : List JSString :=
  [theme.bg, theme.fg, theme.font, theme.styles, theme.style].foldl
    (fun cl v => if v ≠ .undefined then classListAdd cl v.toText else cl) classList

/-- The replacement of a character in `__addTextForce`: line break, tab and
space become HTML, any other character stands for itself. -/
def renderChar (c : Char) : JSString :=
  if c = '\n' then "<br/>".toList
  else if c = '\t' then "&nbsp;&nbsp;&nbsp;&nbsp;&nbsp;&nbsp;&nbsp;&nbsp;".toList
  else if c = ' ' then "&nbsp;".toList
  else [c]

/-- The loop of `__addTextForce` on the text from index `i` on, with a bound on
the number of iterations.  An `ESC` first appends a new span to the buffer;
when the constructor succeeds the span gets the merged theme and the loop
restarts on the remainder, when it throws (`catch (e) {}`) the `ESC` is added
as text like any other character, `lastChild` being the one read before the
span was created. -/
def addTextLoopFuel : Nat → JSString → Surface → Surface
  | 0, _, s => s
  | _ + 1, [], s => s
  | fuel + 1, c :: rest, s =>
    let hasLast := hasLastChild s.nodes
    let lastTheme := s.terminalTheme
    if c = ESC then
      match EscapeCSS.new (c :: rest) with
      | .ok escape =>
        let merge := Theme.mergeThemes lastTheme escape.theme
        addTextLoopFuel fuel escape.seq
          { terminalTheme := merge
            nodes := s.nodes ++ [.span (Theme.applyTheme [] merge) []] }
      | .error _ =>
        addTextLoopFuel fuel rest
          { s with nodes :=
              if hasLast then appendToLastChild [c] s.nodes ++ [.span [] []]
              else appendToBuffer [c] (s.nodes ++ [.span [] []]) }
    else
      addTextLoopFuel fuel rest { s with nodes := addNext hasLast (renderChar c) s.nodes }

/-- The loop of `__addTextForce`.  Every iteration leaves a shorter text, so as
many iterations as the text has characters are enough: `addTextLoop_cons`
proves that `addTextLoop` satisfies the loop equation itself. -/
def addTextLoop (text : JSString) (s : Surface) : Surface :=
  addTextLoopFuel text.length text s

/-- An item of the queue `__toPrint` as `stream` receives it: a string to
animate, or the pair `[s, true]` that skips the animation. -/
inductive OutputUnit where
  | plain (s : JSString) : OutputUnit
  | skip (s : JSString) : OutputUnit
  deriving DecidableEq

/-- The delay handed to `setTimeout`: `this.characterDelay` or
`this.lineDelay`. -/
inductive Delay where
  | character : Delay
  | line : Delay
  deriving DecidableEq

/-- A call made by the render pipeline, as recorded in the trace. -/
inductive Effect where
  /-- The call `this.__addTextForce(text)`. -/
  | addText (text : JSString) : Effect
  /-- The call `setTimeout(() => this.__animateToPrint(), delay)`. -/
  | setTimeout (delay : Delay) : Effect
  deriving DecidableEq

/-- The state of a `Terminal`.  An exhausted unit of `__toPrint` is the entry
`undefined` (`none`).  `timers` are the pending `setTimeout` callbacks, all of
them calls of `__animateToPrint`; `hookCalls` are the calls made to the
observers of `addTextHooks`, by observer and `textChange`; `trace` records the
calls of `__addTextForce` and `setTimeout` in the order they are made. -/
structure Terminal where
  characterDelay : Nat
  lineDelay : Nat
  __toPrint : List (Option OutputUnit)
  __animating : Bool
  addTextHooks : List Nat
  buffer : Surface
  timers : List Delay
  hookCalls : List (Nat × JSString)
  trace : List Effect

/-- A newly constructed `Terminal`, with the delays of the class. -/
def Terminal.initial : Terminal :=
  { characterDelay := 1, lineDelay := 100, __toPrint := [], __animating := false,
    addTextHooks := [], buffer := Surface.initial, timers := [], hookCalls := [], trace := [] }

/-- The method `__addTextForce(text)`: the loop, then one call of every observer
with the text as it was passed. -/
def Terminal.__addTextForce (t : Terminal) (text : JSString) : Terminal :=
  { t with
    buffer := addTextLoop text t.buffer
    hookCalls := t.hookCalls ++ t.addTextHooks.map (fun h => (h, text))
    trace := t.trace ++ [.addText text] }

/-- The method `animationDisabled()`. -/
def Terminal.animationDisabled (t : Terminal) : Bool :=
  t.lineDelay = 0 && t.characterDelay = 0

/-- The length `end` of the piece that a tick prints from a string: up to and
including the first `m` when the string starts with `ESC` and has an `m`, one
character otherwise. -/
def visualUnitEnd (next : JSString) : Nat :=
  if next.head? = some ESC then
    let index := next.indexOf 'm'
    if index < next.length then index + 1 else 1
  else 1

/-- The method `__animateToPrint()`, with a bound on the depth of its
synchronous self-call. -/
def Terminal.animateToPrintFuel : Nat → Terminal → Terminal
  | 0, t => t
  | fuel + 1, t =>
    match t.__toPrint with
    | [] => { t with __animating := false }
    | front :: rest =>
      let t1 := { t with __animating := true }
      let shift : Terminal :=
        { t1 with __toPrint := rest, timers := t1.timers ++ [.line],
                  trace := t1.trace ++ [.setTimeout .line] }
      match front with
      | none => shift
      | some (.skip s) =>
        let t2 := t1.__addTextForce s
        Terminal.animateToPrintFuel fuel { t2 with __toPrint := none :: rest }
      | some (.plain next) =>
        if next = [] then shift
        else
          let stop := visualUnitEnd next
          let t2 := t1.__addTextForce (next.take stop)
          let r := next.drop stop
          { t2 with
            __toPrint := (if r = [] then none else some (.plain r)) :: rest
            timers := t2.timers ++ [.character]
            trace := t2.trace ++ [.setTimeout .character] }

/-- The method `__animateToPrint()`.  Its self-call finds the entry `undefined`
it has just written, so it does not call itself again:
`animateToPrint_skip` proves the equation with the self-call. -/
def Terminal.__animateToPrint (t : Terminal) : Terminal :=
  Terminal.animateToPrintFuel 2 t

/-- The entry of `__toPrint` that `push` stores for a unit. -/
def OutputUnit.text : OutputUnit → JSString
  | .plain s => s
  | .skip s => s

/-- The method `stream(lines)`. -/
def Terminal.stream (t : Terminal) (lines : List OutputUnit) : Terminal :=
  if t.animationDisabled then
    lines.foldl (fun t i => t.__addTextForce i.text) t
  else
    let t1 := { t with __toPrint := t.__toPrint ++ lines.map some }
    if !t1.__animating then t1.__animateToPrint else t1

/-- The method `addText(text)`. -/
def Terminal.addText (t : Terminal) (text : JSString) : Terminal :=
  t.stream [.skip text]

/-- The firing of the pending timer number `i`: it leaves the pending timers
and `__animateToPrint` runs. -/
def Terminal.tick (t : Terminal) (i : Nat) : Terminal :=
  if i < t.timers.length then
    Terminal.__animateToPrint { t with timers := t.timers.eraseIdx i }
  else t

/-- What happens to a terminal: a call of `stream`, a call of `addText`, or a
pending timer firing. -/
inductive TerminalAction where
  | stream (lines : List OutputUnit) : TerminalAction
  | addText (text : JSString) : TerminalAction
  | tick (i : Nat) : TerminalAction

/-- The terminal after an action. -/
def Terminal.act (t : Terminal) : TerminalAction → Terminal
  | .stream lines => t.stream lines
  | .addText text => t.addText text
  | .tick i => t.tick i

/-- The terminal after a sequence of actions. -/
def Terminal.run (t : Terminal) (actions : List TerminalAction) : Terminal :=
  actions.foldl Terminal.act t

/-- The text of the calls of `__addTextForce` in a trace, in order. -/
def emittedText : List Effect → JSString
  | [] => []
  | .addText text :: rest => text ++ emittedText rest
  | .setTimeout _ :: rest => emittedText rest

/-- The text still in the queue, in order. -/
def queueText : List (Option OutputUnit) → JSString
  | [] => []
  | none :: rest => queueText rest
  | some u :: rest => u.text ++ queueText rest

/-- The text of the units, in order. -/
def unitsText : List OutputUnit → JSString
  | [] => []
  | u :: rest => u.text ++ unitsText rest

/-- The text handed to `stream` and `addText` by a sequence of actions, in call
order. -/
def enqueuedText : List TerminalAction → JSString
  | [] => []
  | .stream lines :: rest => unitsText lines ++ enqueuedText rest
  | .addText text :: rest => text ++ enqueuedText rest
  | .tick _ :: rest => enqueuedText rest

/-- The number of spans among the nodes. -/
def spanCount : List BufferNode → Nat
  | [] => 0
  | .span _ _ :: rest => spanCount rest + 1
  | _ :: rest => spanCount rest

/-- The HTML text of the nodes, read in document order (the tags of the spans
left out). -/
def documentText : List BufferNode → JSString
  | [] => []
  | .text html :: rest => html ++ documentText rest
  | .br :: rest => "<br/>".toList ++ documentText rest
  | .span _ innerHTML :: rest => innerHTML ++ documentText rest

/-- The text that `__addTextForce` appends for a text without `ESC`: the
replacements of its characters, in order. -/
def renderText : JSString → JSString
  | [] => []
  | c :: rest => renderChar c ++ renderText rest

/-- The node that `this.buffer.innerHTML += next` adds at the buffer root. -/
def rootNode (next : JSString) : BufferNode :=
  if next = "<br/>".toList then .br else .text next

/-- The closed form of the loop of `__addTextForce` on a text without `ESC`:
the replacements of its characters go to the last span when it is the last
element child, and are appended one by one at the buffer root otherwise. -/
def Surface.addPlain (s : Surface) (text : JSString) : Surface :=
  if hasLastChild s.nodes then
    { s with nodes := appendToLastChild (renderText text) s.nodes }
  else
    { s with nodes := s.nodes ++ text.map (fun c => rootNode (renderChar c)) }

/-- The relation between the theme `a` reached by a code list from a theme
`base` and the theme `b` reached by the same list from the initial theme: on
`bg`, `fg` and `font`, `a` is `b` merged onto `base`, and no `style` is set. -/
def MergedOnto (base a b : ElementTheme) : Prop :=
  a.bg = (Theme.mergeThemes base b).bg ∧ a.fg = (Theme.mergeThemes base b).fg ∧
  a.font = (Theme.mergeThemes base b).font ∧
  a.style = .undefined ∧ b.style = .undefined ∧ base.style = .undefined

/-- The invariant of the buffer of a terminal: when it has a span, its last
element child is a span.  It holds of `Surface.initial` and
`spanIsLast_addTextLoop` proves that `__addTextForce` keeps it. -/
def SpanIsLast (nodes : List BufferNode) : Prop :=
  0 < spanCount nodes → hasLastChild nodes = true

/-! ## The loops, iteration by iteration -/

/-- What an iteration of a loop leaves: the state for the next iteration, or
the end of the loop with its result. -/
inductive Iteration (σ ρ : Type) where
  | again (state : σ) : Iteration σ ρ
  | stop (result : ρ) : Iteration σ ρ

/-- One test of the condition of the scanning loop of the constructor
(`while (seq[0] !== 'm')`) followed, when it holds, by one run of the loop
body, from the text `seq` and the codes pushed so far: the loop ends with the
codes and the text after the `m`, or with a `throw`, or goes on with a new text
and one more code. -/
def EscapeCSS.scanStep (seq : JSString) (codes : List Nat) :
    Iteration (JSString × List Nat) (Except JSError (List Nat × JSString)) :=
  if seq.head? = some 'm' then .stop (.ok (codes, seq.drop 1))
  else
    let eod := EscapeCSS.endOfDigits seq
    if eod = 0 then .stop EscapeCSS.__err
    else
      let last := seq.take eod
      if eod = jsLength seq then .stop EscapeCSS.__err
      else
        let eod2 := if seq.get? eod = some ';' then eod + 1 else eod
        .again (seq.drop eod2, codes ++ [jsNumber last])

/-- The scanning loop run for at most `n` tests of its condition: `none` when
it has not ended by then. -/
def EscapeCSS.scanRun : Nat → JSString → List Nat → Option (Except JSError (List Nat × JSString))
  | 0, _, _ => none
  | n + 1, seq, codes =>
    match EscapeCSS.scanStep seq codes with
    | .stop result => some result
    | .again (seq2, codes2) => EscapeCSS.scanRun n seq2 codes2

/-- The validation loop of the constructor run for at most `n` tests of its
condition (`seg <= lastSeg`), on the codes from index `seg` on: `none` when it
has not ended by then. -/
def EscapeCSS.applyCodesRun : Nat → List Nat → EscapeState → Option (Except JSError EscapeState)
  | 0, _, _ => none
  | _ + 1, [], st => some (.ok st)
  | n + 1, cmd :: rest, st =>
    match EscapeCSS.applyCode cmd rest st with
    | .error e => some (.error e)
    | .ok (st2, k) => EscapeCSS.applyCodesRun n (rest.drop k) st2

/-- One test of the condition of the loop of `__addTextForce`
(`i < text.length`) followed, when it holds, by one run of the loop body, on
the working text from index `i` on: `none` when the loop ends, otherwise the
text from the next index on (the remainder of the parser, read from index 0,
after a successful parse) and the buffer. -/
def addTextStep (text : JSString) (s : Surface) : Option (JSString × Surface) :=
  match text with
  | [] => none
  | c :: rest =>
    let hasLast := hasLastChild s.nodes
    let lastTheme := s.terminalTheme
    if c = ESC then
      match EscapeCSS.new (c :: rest) with
      | .ok escape =>
        let merge := Theme.mergeThemes lastTheme escape.theme
        some (escape.seq,
          { terminalTheme := merge
            nodes := s.nodes ++ [.span (Theme.applyTheme [] merge) []] })
      | .error _ =>
        some (rest,
          { s with nodes :=
              if hasLast then appendToLastChild [c] s.nodes ++ [.span [] []]
              else appendToBuffer [c] (s.nodes ++ [.span [] []]) })
    else
      some (rest, { s with nodes := addNext hasLast (renderChar c) s.nodes })

/-- The loop of `__addTextForce` run for at most `n` tests of its condition:
`none` when it has not ended by then. -/
def addTextRun : Nat → JSString → Surface → Option Surface
  | 0, _, _ => none
  | n + 1, text, s =>
    match addTextStep text s with
    | none => some s
    | some (text2, s2) => addTextRun n text2 s2

/-! ## Lemmas on the scanning loop -/

theorem length_le_jsLength (s : JSString) : s.length ≤ jsLength s := by
  induction s with
  | nil => simp [jsLength]
  | cons c cs ih =>
    simp only [jsLength, List.map_cons, List.sum_cons, List.length_cons] at ih ⊢
    split <;> omega

theorem endOfDigits_le (s : JSString) : EscapeCSS.endOfDigits s ≤ s.length := by
  induction s with
  | nil => simp [EscapeCSS.endOfDigits]
  | cons c cs ih =>
    simp only [EscapeCSS.endOfDigits, List.length_cons]
    split <;> omega

theorem endOfDigits_append (ds rest : JSString) (h : ∀ c ∈ ds, IsDigit c) :
    EscapeCSS.endOfDigits (ds ++ rest) = ds.length + EscapeCSS.endOfDigits rest := by
  induction ds with
  | nil => simp
  | cons c cs ih =>
    have hc := h c (List.mem_cons_self _ _)
    have ih2 := ih (fun d hd => h d (List.mem_cons_of_mem _ hd))
    rw [List.cons_append]
    simp only [EscapeCSS.endOfDigits, List.length_cons]
    rw [if_neg (by unfold IsDigit at hc; omega), ih2]
    omega

theorem endOfDigits_cons_of_not_digit (c : Char) (rest : JSString) (h : ¬ IsDigit c) :
    EscapeCSS.endOfDigits (c :: rest) = 0 := by
  simp only [EscapeCSS.endOfDigits]
  rw [if_pos (by unfold IsDigit at h; omega)]

theorem take_endOfDigits_digits (s : JSString) :
    ∀ c ∈ s.take (EscapeCSS.endOfDigits s), IsDigit c := by
  induction s with
  | nil => simp
  | cons a as ih =>
    simp only [EscapeCSS.endOfDigits]
    split
    · simp
    · rename_i h
      intro c hc
      simp only [List.take_succ_cons, List.mem_cons] at hc
      rcases hc with rfl | hc
      · unfold IsDigit; omega
      · exact ih c hc

theorem scanFuel_fuel (f1 : Nat) : ∀ (f2 : Nat) (seq : JSString) (codes : List Nat),
    seq.length < f1 → seq.length < f2 →
    EscapeCSS.scanFuel f1 seq codes = EscapeCSS.scanFuel f2 seq codes := by
  induction f1 with
  | zero => intro f2 seq codes h1; omega
  | succ f1 ih =>
    intro f2 seq codes h1 h2
    cases f2 with
    | zero => omega
    | succ f2 =>
      simp only [EscapeCSS.scanFuel]
      split
      · rfl
      · split
        · rfl
        · split
          · rfl
          · have hle := endOfDigits_le seq
            apply ih
            · simp only [List.length_drop]; split <;> omega
            · simp only [List.length_drop]; split <;> omega

/-- The loop equation of the scanning loop. -/
theorem scan_unfold (seq : JSString) (codes : List Nat) :
    EscapeCSS.scan seq codes =
      if seq.head? = some 'm' then .ok (codes, seq.drop 1)
      else if EscapeCSS.endOfDigits seq = 0 then EscapeCSS.__err
      else if EscapeCSS.endOfDigits seq = jsLength seq then EscapeCSS.__err
      else EscapeCSS.scan
        (seq.drop (if seq.get? (EscapeCSS.endOfDigits seq) = some ';'
          then EscapeCSS.endOfDigits seq + 1 else EscapeCSS.endOfDigits seq))
        (codes ++ [jsNumber (seq.take (EscapeCSS.endOfDigits seq))]) := by
  have hstep : EscapeCSS.scan seq codes =
      if seq.head? = some 'm' then .ok (codes, seq.drop 1)
      else if EscapeCSS.endOfDigits seq = 0 then EscapeCSS.__err
      else if EscapeCSS.endOfDigits seq = jsLength seq then EscapeCSS.__err
      else EscapeCSS.scanFuel seq.length
        (seq.drop (if seq.get? (EscapeCSS.endOfDigits seq) = some ';'
          then EscapeCSS.endOfDigits seq + 1 else EscapeCSS.endOfDigits seq))
        (codes ++ [jsNumber (seq.take (EscapeCSS.endOfDigits seq))]) := rfl
  rw [hstep]
  split
  · rfl
  · split
    · rfl
    · split
      · rfl
      · have hle := endOfDigits_le seq
        unfold EscapeCSS.scan
        apply scanFuel_fuel
        · simp only [List.length_drop]; split <;> omega
        · simp only [List.length_drop]; omega

theorem applyCodesFuel_fuel (f1 : Nat) : ∀ (f2 : Nat) (codes : List Nat) (st : EscapeState),
    codes.length ≤ f1 → codes.length ≤ f2 →
    EscapeCSS.applyCodesFuel f1 codes st = EscapeCSS.applyCodesFuel f2 codes st := by
  induction f1 with
  | zero =>
    intro f2 codes st h1 h2
    have hnil : codes = [] := List.length_eq_zero.mp (by omega)
    subst hnil
    cases f2 <;> rfl
  | succ f1 ih =>
    intro f2 codes st h1 h2
    cases codes with
    | nil => cases f2 <;> rfl
    | cons cmd rest =>
      cases f2 with
      | zero => simp at h2
      | succ f2 =>
        simp only [EscapeCSS.applyCodesFuel]
        split
        · rfl
        · simp only [List.length_cons] at h1 h2
          apply ih
          · simp only [List.length_drop]; omega
          · simp only [List.length_drop]; omega

theorem applyCodes_nil (st : EscapeState) : EscapeCSS.applyCodes [] st = .ok st := rfl

/-- The loop equation of the validation loop. -/
theorem applyCodes_cons (cmd : Nat) (rest : List Nat) (st : EscapeState) :
    EscapeCSS.applyCodes (cmd :: rest) st =
      match EscapeCSS.applyCode cmd rest st with
      | .error e => .error e
      | .ok (st2, k) => EscapeCSS.applyCodes (rest.drop k) st2 := by
  have hstep : EscapeCSS.applyCodes (cmd :: rest) st =
      match EscapeCSS.applyCode cmd rest st with
      | .error e => .error e
      | .ok (st2, k) => EscapeCSS.applyCodesFuel rest.length (rest.drop k) st2 := rfl
  rw [hstep]
  split
  · rfl
  · unfold EscapeCSS.applyCodes
    apply applyCodesFuel_fuel
    · simp only [List.length_drop]; omega
    · exact le_refl _

theorem scan_m (rest : JSString) (codes : List Nat) :
    EscapeCSS.scan ('m' :: rest) codes = .ok (codes, rest) := by
  rw [scan_unfold]; simp

theorem head_append_ne_m (ds rest : JSString) (hne : ds ≠ []) (h : ∀ c ∈ ds, IsDigit c) :
    (ds ++ rest).head? ≠ some 'm' := by
  obtain ⟨d, ds2, rfl⟩ := List.exists_cons_of_ne_nil hne
  have hd := h d (List.mem_cons_self _ _)
  rw [List.cons_append]
  intro hm
  simp only [List.head?_cons, Option.some.injEq] at hm
  subst hm
  exact absurd hd (by unfold IsDigit; decide)

theorem scan_digits_semi (ds more : JSString) (codes : List Nat) (hne : ds ≠ [])
    (h : ∀ c ∈ ds, IsDigit c) :
    EscapeCSS.scan (ds ++ ';' :: more) codes = EscapeCSS.scan more (codes ++ [jsNumber ds]) := by
  have heod : EscapeCSS.endOfDigits (ds ++ ';' :: more) = ds.length := by
    rw [endOfDigits_append _ _ h, endOfDigits_cons_of_not_digit _ _ (by unfold IsDigit; decide)]
    rfl
  have hlen : 0 < ds.length := List.length_pos.mpr hne
  have hjs := length_le_jsLength (ds ++ ';' :: more)
  have hget : (ds ++ ';' :: more).get? ds.length = some ';' := by
    rw [List.get?_eq_getElem?, List.getElem?_append_right (le_refl _)]; simp
  have hdrop : (ds ++ ';' :: more).drop (ds.length + 1) = more := by
    rw [← List.drop_drop, List.drop_left]; rfl
  rw [scan_unfold, if_neg (head_append_ne_m ds _ hne h)]
  simp only [heod]
  rw [if_neg (by omega),
    if_neg (by simp only [List.length_append, List.length_cons] at hjs; omega),
    if_pos hget, hdrop, List.take_left]

theorem scan_digits_m (ds rest : JSString) (codes : List Nat) (hne : ds ≠ [])
    (h : ∀ c ∈ ds, IsDigit c) :
    EscapeCSS.scan (ds ++ 'm' :: rest) codes = .ok (codes ++ [jsNumber ds], rest) := by
  have heod : EscapeCSS.endOfDigits (ds ++ 'm' :: rest) = ds.length := by
    rw [endOfDigits_append _ _ h, endOfDigits_cons_of_not_digit _ _ (by unfold IsDigit; decide)]
    rfl
  have hlen : 0 < ds.length := List.length_pos.mpr hne
  have hjs := length_le_jsLength (ds ++ 'm' :: rest)
  have hget : (ds ++ 'm' :: rest).get? ds.length = some 'm' := by
    rw [List.get?_eq_getElem?, List.getElem?_append_right (le_refl _)]; simp
  rw [scan_unfold, if_neg (head_append_ne_m ds _ hne h)]
  simp only [heod]
  rw [if_neg (by omega),
    if_neg (by simp only [List.length_append, List.length_cons] at hjs; omega),
    hget, if_neg (by decide), List.drop_left, List.take_left, scan_m]

/-! ## Decimal numerals -/

theorem digitChar_toNat (k : Nat) (h : k < 10) : (Nat.digitChar k).toNat = 48 + k := by
  interval_cases k <;> rfl

theorem foldl_digits_append (l : JSString) (d : Char) (acc : Nat) :
    (l ++ [d]).foldl (fun acc c => acc * 10 + (c.toNat - 48)) acc
      = l.foldl (fun acc c => acc * 10 + (c.toNat - 48)) acc * 10 + (d.toNat - 48) := by
  simp [List.foldl_append]

theorem toDigitsCore_spec (fuel : Nat) : ∀ (n : Nat) (ds : JSString), n < fuel →
    ∃ l : JSString, Nat.toDigitsCore 10 fuel n ds = l ++ ds ∧ l ≠ [] ∧ (∀ c ∈ l, IsDigit c) ∧
      ∀ acc, l.foldl (fun acc c => acc * 10 + (c.toNat - 48)) acc = acc * 10 ^ l.length + n := by
  induction fuel with
  | zero => intro n ds h; omega
  | succ fuel ih =>
    intro n ds h
    have hd := digitChar_toNat (n % 10) (Nat.mod_lt _ (by decide))
    simp only [Nat.toDigitsCore]
    split
    · rename_i h0
      refine ⟨[Nat.digitChar (n % 10)], rfl, by simp, ?_, ?_⟩
      · intro c hc
        simp only [List.mem_singleton] at hc
        subst hc
        unfold IsDigit
        omega
      · intro acc
        simp only [List.foldl_cons, List.foldl_nil, List.length_singleton, pow_one]
        omega
    · rename_i h0
      obtain ⟨l, hl, _, hdig, hval⟩ := ih (n / 10) (Nat.digitChar (n % 10) :: ds) (by omega)
      refine ⟨l ++ [Nat.digitChar (n % 10)], by rw [hl]; simp, by simp, ?_, ?_⟩
      · intro c hc
        simp only [List.mem_append, List.mem_singleton] at hc
        rcases hc with hc | rfl
        · exact hdig c hc
        · unfold IsDigit; omega
      · intro acc
        rw [foldl_digits_append, hval acc, List.length_append, List.length_singleton, pow_succ]
        have : n / 10 * 10 + n % 10 = n := by omega
        rw [hd]
        simp only [Nat.add_sub_cancel_left]
        linarith [this]

theorem decimal_ne_nil (n : Nat) : decimal n ≠ [] := by
  obtain ⟨l, hl, hne, _, _⟩ := toDigitsCore_spec (n + 1) n [] (by omega)
  unfold decimal Nat.toDigits
  rw [hl]; simpa using hne

theorem decimal_digits (n : Nat) : ∀ c ∈ decimal n, IsDigit c := by
  obtain ⟨l, hl, _, hdig, _⟩ := toDigitsCore_spec (n + 1) n [] (by omega)
  unfold decimal Nat.toDigits
  rw [hl]; simpa using hdig

theorem jsNumber_decimal (n : Nat) : jsNumber (decimal n) = n := by
  obtain ⟨l, hl, _, _, hval⟩ := toDigitsCore_spec (n + 1) n [] (by omega)
  unfold jsNumber decimal Nat.toDigits
  rw [hl, List.append_nil, hval 0]; simp

/-- Scanning the decimal codes `cs` (at least one) up to the terminator pushes
exactly these codes and leaves the text after the `m`. -/
theorem scan_sgrBody (cs : List Nat) (hne : cs ≠ []) (rest : JSString) (codes : List Nat) :
    EscapeCSS.scan (sgrBody cs ++ 'm' :: rest) codes = .ok (codes ++ cs, rest) := by
  induction cs generalizing codes with
  | nil => exact absurd rfl hne
  | cons c cs ih =>
    cases cs with
    | nil =>
      simp only [sgrBody]
      rw [scan_digits_m _ _ _ (decimal_ne_nil c) (decimal_digits c), jsNumber_decimal]
    | cons d cs =>
      simp only [sgrBody, List.append_assoc, List.cons_append]
      rw [scan_digits_semi _ _ _ (decimal_ne_nil c) (decimal_digits c), jsNumber_decimal,
        ih (by simp)]
      simp

theorem sgrBody_ne_nil (cs : List Nat) (hne : cs ≠ []) : sgrBody cs ≠ [] := by
  cases cs with
  | nil => exact absurd rfl hne
  | cons c cs =>
    cases cs with
    | nil => exact decimal_ne_nil c
    | cons d cs =>
      have := decimal_ne_nil c
      simp only [sgrBody]
      intro h
      exact this (List.append_eq_nil.mp h).1

/-- Past the introducer test the constructor is the scan followed by the
validation loop. -/
theorem new_of_introducer (t : JSString) (hlen : 4 ≤ jsLength (ESC :: '[' :: t)) :
    EscapeCSS.new (ESC :: '[' :: t) =
      match EscapeCSS.scan t [] with
      | .error e => .error e
      | .ok (codes, rest) =>
        match EscapeCSS.applyCodes codes
            { theme := EscapeCSS.initialTheme, style := .undefined } with
        | .error e => .error e
        | .ok st => .ok { codes := codes, theme := st.theme, style := st.style, seq := rest } := by
  unfold EscapeCSS.new
  rw [if_neg (by
    simp only [List.head?_cons, List.get?_cons_succ, List.get?_cons_zero, ne_eq,
      not_true_eq_false, or_false, not_lt]
    exact hlen)]
  simp only [List.drop_succ_cons, List.drop_zero]

/-- A string that fails the introducer test is rejected by `__err`. -/
theorem new_of_not_introducer (s : JSString)
    (h : jsLength s < 4 ∨ s.head? ≠ some ESC ∨ s.get? 1 ≠ some '[') :
    EscapeCSS.new s = .error .unsupportedSequence := by
  unfold EscapeCSS.new
  rw [if_pos h]; rfl

/-- A string that passes the introducer test starts with `ESC[`. -/
theorem introducer_shape (s : JSString)
    (h : ¬ (jsLength s < 4 ∨ s.head? ≠ some ESC ∨ s.get? 1 ≠ some '[')) :
    ∃ t, s = ESC :: '[' :: t ∧ 4 ≤ jsLength (ESC :: '[' :: t) := by
  simp only [not_or, not_lt, ne_eq, not_not] at h
  obtain ⟨h4, h0, h1⟩ := h
  match s, h4, h0, h1 with
  | a :: b :: t, h4, h0, h1 =>
    simp only [List.head?_cons, Option.some.injEq, List.get?_cons_succ,
      List.get?_cons_zero] at h0 h1
    subst h0 h1
    exact ⟨t, rfl, h4⟩

/-- The constructor on the sequence `ESC[c1;...;cn m` followed by `rest`: the
scan yields the codes and the validation loop decides the result. -/
theorem new_sgrBody (cs : List Nat) (hne : cs ≠ []) (rest : JSString) :
    EscapeCSS.new (ESC :: '[' :: (sgrBody cs ++ 'm' :: rest)) =
      match EscapeCSS.applyCodes cs { theme := EscapeCSS.initialTheme, style := .undefined } with
      | .error e => .error e
      | .ok st => .ok { codes := cs, theme := st.theme, style := st.style, seq := rest } := by
  have hlen : 4 ≤ jsLength (ESC :: '[' :: (sgrBody cs ++ 'm' :: rest)) := by
    have h1 := length_le_jsLength (ESC :: '[' :: (sgrBody cs ++ 'm' :: rest))
    have h2 : 0 < (sgrBody cs).length := List.length_pos.mpr (sgrBody_ne_nil cs hne)
    simp only [List.length_cons, List.length_append] at h1
    omega
  rw [new_of_introducer _ hlen, scan_sgrBody cs hne rest []]
  simp

/-! ## What a successful scan has read -/

theorem take_succ_of_get? (s : JSString) (n : Nat) (c : Char) (h : s.get? n = some c) :
    s.take (n + 1) = s.take n ++ [c] := by
  rw [List.get?_eq_getElem?] at h
  rw [List.take_succ, h]; rfl

/-- The scan only succeeds on digits and `;` followed by an `m`, and returns
the text after that `m`. -/
theorem scan_ok_shape (n : Nat) : ∀ (seq : JSString) (codes codes2 : List Nat) (rest : JSString),
    seq.length ≤ n → EscapeCSS.scan seq codes = .ok (codes2, rest) →
    ∃ body, seq = body ++ 'm' :: rest ∧ ∀ c ∈ body, IsDigit c ∨ c = ';' := by
  induction n with
  | zero =>
    intro seq codes codes2 rest hlen h
    have hnil : seq = [] := List.length_eq_zero.mp (by omega)
    subst hnil
    rw [scan_unfold] at h
    simp [EscapeCSS.endOfDigits, EscapeCSS.__err] at h
  | succ n ih =>
    intro seq codes codes2 rest hlen h
    rw [scan_unfold] at h
    split at h
    · rename_i hm
      cases seq with
      | nil => simp at hm
      | cons a tl =>
        simp only [List.head?_cons, Option.some.injEq] at hm
        subst hm
        simp only [List.drop_succ_cons, List.drop_zero, Except.ok.injEq, Prod.mk.injEq] at h
        exact ⟨[], by simp [h.2], by simp⟩
    · split at h
      · simp [EscapeCSS.__err] at h
      · rename_i h0
        split at h
        · simp [EscapeCSS.__err] at h
        · have hle := endOfDigits_le seq
          have hdig := take_endOfDigits_digits seq
          split at h
          · rename_i hsemi
            obtain ⟨body, hb, hbd⟩ := ih _ _ _ _ (by simp only [List.length_drop]; omega) h
            refine ⟨seq.take (EscapeCSS.endOfDigits seq + 1) ++ body, ?_, ?_⟩
            · rw [List.append_assoc, ← hb, List.take_append_drop]
            · intro c hc
              rw [take_succ_of_get? _ _ _ hsemi] at hc
              simp only [List.mem_append, List.mem_singleton] at hc
              rcases hc with (hc | hc) | hc
              · exact Or.inl (hdig c hc)
              · exact Or.inr hc
              · exact hbd c hc
          · obtain ⟨body, hb, hbd⟩ := ih _ _ _ _ (by simp only [List.length_drop]; omega) h
            refine ⟨seq.take (EscapeCSS.endOfDigits seq) ++ body, ?_, ?_⟩
            · rw [List.append_assoc, ← hb, List.take_append_drop]
            · intro c hc
              simp only [List.mem_append] at hc
              rcases hc with hc | hc
              · exact Or.inl (hdig c hc)
              · exact hbd c hc

/-- The scan throws nothing but `Unsupported escape sequence`. -/
theorem scan_error_kind (n : Nat) : ∀ (seq : JSString) (codes : List Nat) (e : JSError),
    seq.length ≤ n → EscapeCSS.scan seq codes = .error e → e = .unsupportedSequence := by
  induction n with
  | zero =>
    intro seq codes e hlen h
    have hnil : seq = [] := List.length_eq_zero.mp (by omega)
    subst hnil
    rw [scan_unfold] at h
    simp [EscapeCSS.endOfDigits, EscapeCSS.__err] at h
    exact h.symm
  | succ n ih =>
    intro seq codes e hlen h
    rw [scan_unfold] at h
    split at h
    · simp at h
    · split at h
      · simp only [EscapeCSS.__err, Except.error.injEq] at h
        exact h.symm
      · rename_i h0
        split at h
        · simp only [EscapeCSS.__err, Except.error.injEq] at h
          exact h.symm
        · have hle := endOfDigits_le seq
          refine ih _ _ e ?_ h
          simp only [List.length_drop]
          split <;> omega

theorem takeWhile_ne_m (body rest : JSString) (h : ∀ c ∈ body, c ≠ 'm') :
    (body ++ 'm' :: rest).takeWhile (fun c => c ≠ 'm') = body := by
  induction body with
  | nil => simp
  | cons a tl ih =>
    have ha := h a (List.mem_cons_self _ _)
    rw [List.cons_append, List.takeWhile_cons]
    simp only [ne_eq, ha, not_false_eq_true, decide_True, if_true]
    rw [ih (fun c hc => h c (List.mem_cons_of_mem _ hc))]

theorem ne_m_of_digit_or_semi (c : Char) (h : IsDigit c ∨ c = ';') : c ≠ 'm' := by
  rintro rfl
  rcases h with h | h
  · exact absurd h (by decide)
  · exact absurd h (by decide)

/-- What is known of a string on which the constructor succeeds. -/
theorem new_ok_shape (s : JSString) (r : EscapeCSS) (h : EscapeCSS.new s = .ok r) :
    ∃ body, s = ESC :: '[' :: (body ++ 'm' :: r.seq) ∧ (∀ c ∈ body, IsDigit c ∨ c = ';') ∧
      EscapeCSS.scan (body ++ 'm' :: r.seq) [] = .ok (r.codes, r.seq) ∧
      EscapeCSS.applyCodes r.codes { theme := EscapeCSS.initialTheme, style := .undefined }
        = .ok { theme := r.theme, style := r.style } := by
  by_cases hi : jsLength s < 4 ∨ s.head? ≠ some ESC ∨ s.get? 1 ≠ some '['
  · rw [new_of_not_introducer s hi] at h
    cases h
  · obtain ⟨t, rfl, hlen⟩ := introducer_shape s hi
    rw [new_of_introducer t hlen] at h
    split at h
    · cases h
    · rename_i codes rest hscan
      split at h
      · cases h
      · rename_i st happ
        simp only [Except.ok.injEq] at h
        subst h
        obtain ⟨body, hb, hbd⟩ := scan_ok_shape _ _ _ _ _ (le_refl _) hscan
        subst hb
        exact ⟨body, rfl, hbd, hscan, happ⟩

/-! ## The colour tables -/

/-- The class of every code in the four colour ranges, read off the tables. -/
theorem ansiToCSSClass_ranges (c : Nat) :
    (30 ≤ c ∧ c ≤ 37 → Theme.ansiToCSSClass c =
      .ok ("term-fg-".toList ++ (COLORS.getD (c - 30) []).map Char.toLower)) ∧
    (40 ≤ c ∧ c ≤ 47 → Theme.ansiToCSSClass c =
      .ok ("term-bg-".toList ++ (COLORS.getD (c - 40) []).map Char.toLower)) ∧
    (90 ≤ c ∧ c ≤ 97 → Theme.ansiToCSSClass c =
      .ok ("term-fg-bright-".toList ++ (COLORS.getD (c - 90) []).map Char.toLower)) ∧
    (100 ≤ c ∧ c ≤ 107 → Theme.ansiToCSSClass c =
      .ok ("term-bg-bright-".toList ++ (COLORS.getD (c - 100) []).map Char.toLower)) := by
  refine ⟨?_, ?_, ?_, ?_⟩ <;> rintro ⟨h1, h2⟩ <;> interval_cases c <;> rfl

/-- Outside the four colour ranges `ansiToCSSClass` throws. -/
theorem ansiToCSSClass_outside (c : Nat)
    (h : ¬ ((30 ≤ c ∧ c ≤ 37) ∨ (40 ≤ c ∧ c ≤ 47) ∨ (90 ≤ c ∧ c ≤ 97) ∨ (100 ≤ c ∧ c ≤ 107))) :
    Theme.ansiToCSSClass c = .error (.invalidAnsiColor c) := by
  have h1 : Theme.isAnsiDarkFg (c : Int) = false := by
    simp only [Theme.isAnsiDarkFg, Bool.and_eq_false_iff, decide_eq_false_iff_not]; omega
  have h2 : Theme.isAnsiDarkBg (c : Int) = false := by
    simp only [Theme.isAnsiDarkBg, Bool.and_eq_false_iff, decide_eq_false_iff_not]; omega
  have h3 : Theme.isAnsiBrightFg (c : Int) = false := by
    simp only [Theme.isAnsiBrightFg, Bool.and_eq_false_iff, decide_eq_false_iff_not]; omega
  have h4 : Theme.isAnsiBrightBg (c : Int) = false := by
    simp only [Theme.isAnsiBrightBg, Bool.and_eq_false_iff, decide_eq_false_iff_not]; omega
  simp [Theme.ansiToCSSClass, Theme.ansiToCSSColor, h1, h2, h3, h4]

/-- The sequence with a single code is the code-list sequence of that code. -/
theorem sgr_decimal (c : Nat) : sgr (decimal c) = ESC :: '[' :: (sgrBody [c] ++ 'm' :: []) := rfl

/-! ## Lemmas on the validation loop -/

theorem ansiCubeToCSSColor_ok (n : Nat) (h1 : 16 ≤ n) (h2 : n ≤ 255) :
    Theme.ansiCubeToCSSColor (n : Int) = .ok ("cube-".toList ++ decimal n) := by
  unfold Theme.ansiCubeToCSSColor numberToString
  rw [if_pos (by omega), if_neg (by omega), Int.toNat_ofNat]
  rfl

theorem applyCode_cube_fg (n : Nat) (h1 : 16 ≤ n) (h2 : n ≤ 255) (rest : List Nat)
    (st : EscapeState) :
    EscapeCSS.applyCode 38 (5 :: n :: rest) st =
      .ok (st.setKey false ("term-fg-cube-".toList ++ decimal n), 2) := by
  have h7 : ¬ n ≤ 7 := by omega
  have h15 : ¬ (8 ≤ n ∧ n ≤ 15) := by omega
  simp [EscapeCSS.applyCode, h7, h15, h1, h2, ansiCubeToCSSColor_ok n h1 h2, Theme.FG_CLASS_PREFIX]

theorem applyCode_cube_bg (n : Nat) (h1 : 16 ≤ n) (h2 : n ≤ 255) (rest : List Nat)
    (st : EscapeState) :
    EscapeCSS.applyCode 48 (5 :: n :: rest) st =
      .ok (st.setKey true ("term-bg-cube-".toList ++ decimal n), 2) := by
  have h7 : ¬ n ≤ 7 := by omega
  have h15 : ¬ (8 ≤ n ∧ n ≤ 15) := by omega
  simp [EscapeCSS.applyCode, h7, h15, h1, h2, ansiCubeToCSSColor_ok n h1 h2, Theme.BG_CLASS_PREFIX]

theorem applyCode_index_too_large (cmd n : Nat) (hcmd : cmd = 38 ∨ cmd = 48) (h : 256 ≤ n)
    (rest : List Nat) (st : EscapeState) :
    EscapeCSS.applyCode cmd (5 :: n :: rest) st = .error .unsupportedSequence := by
  have h7 : ¬ n ≤ 7 := by omega
  have h15 : ¬ (8 ≤ n ∧ n ≤ 15) := by omega
  have h255 : ¬ (16 ≤ n ∧ n ≤ 255) := by omega
  rcases hcmd with rfl | rfl <;>
    simp [EscapeCSS.applyCode, h7, h15, h255, EscapeCSS.__err]

theorem applyCode_other_argument (cmd a : Nat) (hcmd : cmd = 38 ∨ cmd = 48) (h5 : a ≠ 5)
    (h2 : a ≠ 2) (rest : List Nat) (st : EscapeState) :
    EscapeCSS.applyCode cmd (a :: rest) st = .error .unsupportedSequence := by
  rcases hcmd with rfl | rfl <;>
    simp [EscapeCSS.applyCode, h5, h2, EscapeCSS.__err]

theorem applyCodes_single (c : Nat) (st : EscapeState) :
    EscapeCSS.applyCodes [c] st =
      if c = 0 then .ok { st with theme := Theme.default }
      else if c = 39 then .ok { st with theme := { st.theme with fg := .str Theme.defaultFg } }
      else if c = 49 then .ok { st with theme := { st.theme with bg := .str Theme.defaultBg } }
      else if c = 38 ∨ c = 48 then .error .unsupportedSequence
      else
        match Theme.ansiToCSSClass c with
        | .ok cls => .ok (st.setKey false cls)
        | .error _ => .error .unsupportedSequence := by
  rw [applyCodes_cons]
  unfold EscapeCSS.applyCode
  by_cases h0 : c = 0
  · simp [h0, applyCodes_nil]
  by_cases h39 : c = 39
  · simp [h39, applyCodes_nil]
  by_cases h49 : c = 49
  · simp [h49, applyCodes_nil]
  by_cases h38 : c = 38
  · simp [h38, EscapeCSS.__err]
  by_cases h48 : c = 48
  · simp [h48, EscapeCSS.__err]
  simp only [h0, h39, h49, h38, h48, if_false, decide_False, or_self, Bool.false_eq_true]
  cases Theme.ansiToCSSClass (c : Int) with
  | error e => rfl
  | ok cls => simp [applyCodes_nil]

/-! ## The claims -/

/-- C1: for every code `c` in 30..37 (resp. 90..97) the constructor succeeds on
`ESC[c m`, the foreground of its theme is the class `term-fg-<name>` (resp.
`term-fg-bright-<name>`) of the colour `COLORS[c-30]` (resp. `COLORS[c-90]`),
and background, font and style stay `undefined`. -/
theorem C1_foreground_codes (c : Nat) :
    (30 ≤ c ∧ c ≤ 37 → ∃ r, EscapeCSS.new (sgr (decimal c)) = .ok r ∧
      r.theme.fg = .str ("term-fg-".toList ++ (COLORS.getD (c - 30) []).map Char.toLower) ∧
      r.theme.bg = .undefined ∧ r.theme.font = .undefined ∧ r.theme.style = .undefined) ∧
    (90 ≤ c ∧ c ≤ 97 → ∃ r, EscapeCSS.new (sgr (decimal c)) = .ok r ∧
      r.theme.fg = .str ("term-fg-bright-".toList ++ (COLORS.getD (c - 90) []).map Char.toLower) ∧
      r.theme.bg = .undefined ∧ r.theme.font = .undefined ∧ r.theme.style = .undefined) := by
  rw [sgr_decimal, new_sgrBody [c] (by simp) []]
  constructor <;> rintro ⟨h1, h2⟩ <;> interval_cases c <;>
    exact ⟨_, rfl, rfl, rfl, rfl, rfl⟩

/-- C1 at the codes 31 and 91: the foreground classes are `term-fg-red` and
`term-fg-bright-red`. -/
theorem C1_foreground_codes_witness :
    (∃ r, EscapeCSS.new (sgr "31".toList) = .ok r ∧ r.theme.fg = .str "term-fg-red".toList ∧
      r.theme.bg = .undefined ∧ r.theme.font = .undefined ∧ r.theme.style = .undefined) ∧
    (∃ r, EscapeCSS.new (sgr "91".toList) = .ok r ∧
      r.theme.fg = .str "term-fg-bright-red".toList ∧
      r.theme.bg = .undefined ∧ r.theme.font = .undefined ∧ r.theme.style = .undefined) :=
  ⟨(C1_foreground_codes 31).1 ⟨by decide, by decide⟩,
   (C1_foreground_codes 91).2 ⟨by decide, by decide⟩⟩

/-- C2 (the code differs): on `ESC[41m` and `ESC[100m` the constructor succeeds,
but the background class (`term-bg-red`, `term-bg-bright-black`) is written to
the `fg` key (the key is `'bg'` only for the code 48) and `bg` stays
`undefined`. -/
theorem C2_background_code_written_to_fg :
    (∃ r, EscapeCSS.new (sgr "41".toList) = .ok r ∧ r.theme.bg = .undefined ∧
      r.theme.fg = .str "term-bg-red".toList) ∧
    (∃ r, EscapeCSS.new (sgr "100".toList) = .ok r ∧ r.theme.bg = .undefined ∧
      r.theme.fg = .str "term-bg-bright-black".toList) := by
  constructor
  · rw [show sgr "41".toList = ESC :: '[' :: (sgrBody [41] ++ 'm' :: []) from rfl,
      new_sgrBody [41] (by simp) []]
    exact ⟨_, rfl, rfl, rfl⟩
  · rw [show sgr "100".toList = ESC :: '[' :: (sgrBody [100] ++ 'm' :: []) from rfl,
      new_sgrBody [100] (by simp) []]
    exact ⟨_, rfl, rfl, rfl⟩

/-- C3: when the constructor succeeds on `s`, `s` contains an `m` and is the
text up to and including its first `m` followed by the stored remainder
`this.seq`; for `s = ESC[c m` the remainder is empty and the consumed prefix is
all of `s`. -/
theorem C3_consumed_up_to_first_m (s : JSString) (r : EscapeCSS) (h : EscapeCSS.new s = .ok r) :
    'm' ∈ s ∧ s = uptoFirstM s ++ r.seq ∧
      (∀ c : Nat, s = sgr (decimal c) → r.seq = [] ∧ jsLength (uptoFirstM s) = jsLength s) := by
  obtain ⟨body, hs, hbody, -, -⟩ := new_ok_shape s r h
  have hupto : uptoFirstM s = ESC :: '[' :: (body ++ ['m']) := by
    have hne : ∀ c ∈ ESC :: '[' :: body, c ≠ 'm' := by
      intro c hc
      simp only [List.mem_cons] at hc
      rcases hc with rfl | rfl | hc
      · decide
      · decide
      · exact ne_m_of_digit_or_semi c (hbody c hc)
    have := takeWhile_ne_m (ESC :: '[' :: body) r.seq hne
    unfold uptoFirstM
    rw [hs]
    simp only [List.cons_append] at this ⊢
    rw [this]
    rfl
  have hsplit : s = uptoFirstM s ++ r.seq := by
    rw [hupto]; simp [hs]
  refine ⟨by rw [hs]; simp, hsplit, ?_⟩
  intro c hc
  have hdec : ∀ x ∈ ESC :: '[' :: decimal c, x ≠ 'm' := by
    intro x hx
    simp only [List.mem_cons] at hx
    rcases hx with rfl | rfl | hx
    · decide
    · decide
    · exact ne_m_of_digit_or_semi x (Or.inl (decimal_digits c x hx))
  have hfull : uptoFirstM s = s := by
    have := takeWhile_ne_m (ESC :: '[' :: decimal c) [] hdec
    unfold uptoFirstM
    rw [hc]
    simp only [sgr, List.cons_append] at this ⊢
    rw [this]
    rfl
  have hnil : r.seq = [] := by
    have h2 := hsplit
    rw [hfull] at h2
    exact List.self_eq_append_right.mp h2
  exact ⟨hnil, by rw [hfull]⟩

/-- C3 on `ESC[31mHi`, whose remainder is `Hi`, and on `ESC[31m`, consumed
whole. -/
theorem C3_consumed_up_to_first_m_witness :
    ('m' ∈ "\x1b[31mHi".toList ∧
      "\x1b[31mHi".toList = uptoFirstM "\x1b[31mHi".toList ++ "Hi".toList) ∧
    jsLength (uptoFirstM (sgr "31".toList)) = jsLength (sgr "31".toList) :=
  ⟨⟨(C3_consumed_up_to_first_m "\x1b[31mHi".toList
        { codes := [31]
          theme := { EscapeCSS.initialTheme with fg := .str "term-fg-red".toList }
          style := .undefined
          seq := "Hi".toList }
        (by rw [show "\x1b[31mHi".toList = ESC :: '[' :: (sgrBody [31] ++ 'm' :: "Hi".toList)
              from rfl, new_sgrBody [31] (by simp)]; rfl)).1,
    (C3_consumed_up_to_first_m "\x1b[31mHi".toList
        { codes := [31]
          theme := { EscapeCSS.initialTheme with fg := .str "term-fg-red".toList }
          style := .undefined
          seq := "Hi".toList }
        (by rw [show "\x1b[31mHi".toList = ESC :: '[' :: (sgrBody [31] ++ 'm' :: "Hi".toList)
              from rfl, new_sgrBody [31] (by simp)]; rfl)).2.1⟩,
   ((C3_consumed_up_to_first_m (sgr "31".toList)
        { codes := [31]
          theme := { EscapeCSS.initialTheme with fg := .str "term-fg-red".toList }
          style := .undefined
          seq := [] }
        (by rw [show sgr "31".toList = ESC :: '[' :: (sgrBody [31] ++ 'm' :: [])
              from rfl, new_sgrBody [31] (by simp)]; rfl)).2.2 31 rfl).2⟩

/-- C4 (the code differs): the bright branch computes `cmd + 52 + n` instead of
`cmd + 52 + (n - 8)`.  `ESC[38;5;8m` and `ESC[48;5;8m` throw
`Invalid ANSI color` (98 and 108), `ESC[48;5;15m` throws it too (115), and
`ESC[38;5;10m` stores the background class `term-bg-bright-black` of the code
100 in `fg`; the code 90 gives `term-fg-bright-black`. -/
theorem C4_bright_index_off_by_eight :
    EscapeCSS.new (sgr "38;5;8".toList) = .error (.invalidAnsiColor 98) ∧
    EscapeCSS.new (sgr "48;5;8".toList) = .error (.invalidAnsiColor 108) ∧
    EscapeCSS.new (sgr "48;5;15".toList) = .error (.invalidAnsiColor 115) ∧
    (∃ r, EscapeCSS.new (sgr "38;5;10".toList) = .ok r ∧
      r.theme.fg = .str "term-bg-bright-black".toList ∧ r.theme.bg = .undefined) ∧
    (∃ r, EscapeCSS.new (sgr "90".toList) = .ok r ∧
      r.theme.fg = .str "term-fg-bright-black".toList) := by
  refine ⟨?_, ?_, ?_, ?_, ?_⟩
  · rw [show sgr "38;5;8".toList = ESC :: '[' :: (sgrBody [38, 5, 8] ++ 'm' :: []) from rfl,
      new_sgrBody [38, 5, 8] (by simp) []]
    rfl
  · rw [show sgr "48;5;8".toList = ESC :: '[' :: (sgrBody [48, 5, 8] ++ 'm' :: []) from rfl,
      new_sgrBody [48, 5, 8] (by simp) []]
    rfl
  · rw [show sgr "48;5;15".toList = ESC :: '[' :: (sgrBody [48, 5, 15] ++ 'm' :: []) from rfl,
      new_sgrBody [48, 5, 15] (by simp) []]
    rfl
  · rw [show sgr "38;5;10".toList = ESC :: '[' :: (sgrBody [38, 5, 10] ++ 'm' :: []) from rfl,
      new_sgrBody [38, 5, 10] (by simp) []]
    exact ⟨_, rfl, rfl, rfl⟩
  · rw [show sgr "90".toList = ESC :: '[' :: (sgrBody [90] ++ 'm' :: []) from rfl,
      new_sgrBody [90] (by simp) []]
    exact ⟨_, rfl, rfl⟩

/-- C5: for every `n` in 16..255, `ESC[38;5;n m` sets the foreground to
`term-fg-cube-n` and `ESC[48;5;n m` sets the background to `term-bg-cube-n`,
the other fields staying `undefined`; for every `n ≥ 256`, and when the index
after `5` is missing, the constructor throws `Unsupported escape sequence`. -/
theorem C5_cube_colours (n : Nat) :
    (16 ≤ n ∧ n ≤ 255 →
      (∃ r, EscapeCSS.new (sgr ("38;5;".toList ++ decimal n)) = .ok r ∧
        r.theme.fg = .str ("term-fg-cube-".toList ++ decimal n) ∧
        r.theme.bg = .undefined ∧ r.theme.font = .undefined ∧ r.theme.style = .undefined) ∧
      (∃ r, EscapeCSS.new (sgr ("48;5;".toList ++ decimal n)) = .ok r ∧
        r.theme.bg = .str ("term-bg-cube-".toList ++ decimal n) ∧
        r.theme.fg = .undefined ∧ r.theme.font = .undefined ∧ r.theme.style = .undefined)) ∧
    (256 ≤ n →
      EscapeCSS.new (sgr ("38;5;".toList ++ decimal n)) = .error .unsupportedSequence ∧
      EscapeCSS.new (sgr ("48;5;".toList ++ decimal n)) = .error .unsupportedSequence) ∧
    EscapeCSS.new (sgr "38;5".toList) = .error .unsupportedSequence ∧
    EscapeCSS.new (sgr "48;5".toList) = .error .unsupportedSequence ∧
    EscapeCSS.new (sgr "38;5;".toList) = .error .unsupportedSequence ∧
    EscapeCSS.new (sgr "48;5;".toList) = .error .unsupportedSequence := by
  have e38 : sgr ("38;5;".toList ++ decimal n)
      = ESC :: '[' :: (sgrBody [38, 5, n] ++ 'm' :: []) := rfl
  have e48 : sgr ("48;5;".toList ++ decimal n)
      = ESC :: '[' :: (sgrBody [48, 5, n] ++ 'm' :: []) := rfl
  rw [e38, e48, new_sgrBody [38, 5, n] (by simp) [], new_sgrBody [48, 5, n] (by simp) []]
  refine ⟨?_, ?_, rfl, rfl, rfl, rfl⟩
  · rintro ⟨h1, h2⟩
    rw [applyCodes_cons, applyCodes_cons, applyCode_cube_fg n h1 h2, applyCode_cube_bg n h1 h2]
    exact ⟨⟨_, rfl, rfl, rfl, rfl, rfl⟩, ⟨_, rfl, rfl, rfl, rfl, rfl⟩⟩
  · intro h
    rw [applyCodes_cons, applyCodes_cons, applyCode_index_too_large 38 n (Or.inl rfl) h,
      applyCode_index_too_large 48 n (Or.inr rfl) h]
    exact ⟨rfl, rfl⟩

/-- C5 at the first and last cube index and at 256. -/
theorem C5_cube_colours_witness :
    (∃ r, EscapeCSS.new (sgr "38;5;16".toList) = .ok r ∧
      r.theme.fg = .str "term-fg-cube-16".toList ∧
      r.theme.bg = .undefined ∧ r.theme.font = .undefined ∧ r.theme.style = .undefined) ∧
    (∃ r, EscapeCSS.new (sgr "48;5;255".toList) = .ok r ∧
      r.theme.bg = .str "term-bg-cube-255".toList ∧
      r.theme.fg = .undefined ∧ r.theme.font = .undefined ∧ r.theme.style = .undefined) ∧
    EscapeCSS.new (sgr "38;5;256".toList) = .error .unsupportedSequence :=
  ⟨((C5_cube_colours 16).1 ⟨by decide, by decide⟩).1,
   ((C5_cube_colours 255).1 ⟨by decide, by decide⟩).2,
   ((C5_cube_colours 256).2.1 (by decide)).1⟩

/-- C6 (the code differs): on `ESC[38;2;1;2;3m` and `ESC[48;2;1;2;3m` the
constructor succeeds and leaves every field of the theme, `style` included,
`undefined`; the declaration is appended to the uninitialised `this.style`,
which becomes the text `undefined` followed by the declaration. -/
theorem C6_rgb_declaration_not_in_theme :
    EscapeCSS.new (sgr "38;2;1;2;3".toList) =
      .ok { codes := [38, 2, 1, 2, 3], theme := EscapeCSS.initialTheme,
            style := .str "undefinedcolor: rgb(1, 2, 3);".toList, seq := [] } ∧
    EscapeCSS.new (sgr "48;2;1;2;3".toList) =
      .ok { codes := [48, 2, 1, 2, 3], theme := EscapeCSS.initialTheme,
            style := .str "undefinedbackground-color: rgb(1, 2, 3);".toList, seq := [] } ∧
    EscapeCSS.initialTheme.style = .undefined :=
  ⟨rfl, rfl, rfl⟩

/-- C7 as stated fails: merging the theme of `ESC[0m` onto a prior state whose
`style` is set leaves that `style` in place. -/
theorem C7_reset_keeps_style_counterexample :
    ∃ r, EscapeCSS.new (sgr "0".toList) = .ok r ∧
      (Theme.mergeThemes
        { bg := .undefined, fg := .undefined, font := .undefined,
          style := .str "color: rgb(1, 2, 3);".toList, styles := .undefined }
        r.theme).style ≠ .undefined :=
  ⟨_, rfl, by decide⟩

/-- C7 amended: the constructor succeeds on `ESC[0m`, and merging its theme
onto any prior state `p` gives the default background `term-bg-black`, the
default foreground `term-fg-white`, the default font `term-font`, and the
`style` of `p` unchanged (unset exactly when it was unset in `p`). -/
theorem C7_reset_merges_to_default :
    ∃ r, EscapeCSS.new (sgr "0".toList) = .ok r ∧ ∀ p : ElementTheme,
      (Theme.mergeThemes p r.theme).bg = .str "term-bg-black".toList ∧
      (Theme.mergeThemes p r.theme).fg = .str "term-fg-white".toList ∧
      (Theme.mergeThemes p r.theme).font = .str "term-font".toList ∧
      (Theme.mergeThemes p r.theme).style = p.style :=
  ⟨_, rfl, fun _ => ⟨rfl, rfl, rfl, rfl⟩⟩

/-- A string built from `ESC[`, digits and `;`, and an `m` has the shape of a
terminated sequence. -/
theorem shape_of_body (body rest : JSString) (h : ∀ c ∈ body, IsDigit c ∨ c = ';') :
    SGRShape (ESC :: '[' :: (body ++ 'm' :: rest)) := by
  refine ⟨rfl, rfl, by simp, ?_⟩
  intro c hc
  simp only [List.drop_succ_cons, List.drop_zero] at hc
  rw [takeWhile_ne_m body rest (fun x hx => ne_m_of_digit_or_semi x (h x hx))] at hc
  exact h c hc

/-- C8: the single-code sequence `ESC[c m`, `c` written in decimal, is accepted
exactly when `c` is 0, 39, 49 or lies in 30..37, 40..47, 90..97 or 100..107;
every other code (38 and 48 alone included) throws
`Unsupported escape sequence`, and so do 38 and 48 followed by a sub-argument
other than 5 and 2, whatever follows. -/
theorem C8_single_codes (c : Nat) :
    ((∃ r, EscapeCSS.new (sgr (decimal c)) = .ok r) ↔
      (c = 0 ∨ c = 39 ∨ c = 49 ∨ (30 ≤ c ∧ c ≤ 37) ∨ (40 ≤ c ∧ c ≤ 47) ∨
        (90 ≤ c ∧ c ≤ 97) ∨ (100 ≤ c ∧ c ≤ 107))) ∧
    (¬ (c = 0 ∨ c = 39 ∨ c = 49 ∨ (30 ≤ c ∧ c ≤ 37) ∨ (40 ≤ c ∧ c ≤ 47) ∨
        (90 ≤ c ∧ c ≤ 97) ∨ (100 ≤ c ∧ c ≤ 107)) →
      EscapeCSS.new (sgr (decimal c)) = .error .unsupportedSequence) ∧
    (∀ (a : Nat) (rest : List Nat), a ≠ 5 → a ≠ 2 →
      EscapeCSS.new (sgr (sgrBody (38 :: a :: rest))) = .error .unsupportedSequence ∧
      EscapeCSS.new (sgr (sgrBody (48 :: a :: rest))) = .error .unsupportedSequence) := by
  have hbad : ¬ (c = 0 ∨ c = 39 ∨ c = 49 ∨ (30 ≤ c ∧ c ≤ 37) ∨ (40 ≤ c ∧ c ≤ 47) ∨
        (90 ≤ c ∧ c ≤ 97) ∨ (100 ≤ c ∧ c ≤ 107)) →
      EscapeCSS.new (sgr (decimal c)) = .error .unsupportedSequence := by
    intro h
    rw [sgr_decimal, new_sgrBody [c] (by simp) [], applyCodes_single]
    rw [if_neg (by omega), if_neg (by omega), if_neg (by omega)]
    by_cases h38 : c = 38 ∨ c = 48
    · rw [if_pos h38]
    · rw [if_neg h38, ansiToCSSClass_outside c (by omega)]
  refine ⟨⟨?_, ?_⟩, hbad, ?_⟩
  · rintro ⟨r, hr⟩
    by_contra h
    rw [hbad h] at hr
    cases hr
  · intro h
    rw [sgr_decimal, new_sgrBody [c] (by simp) []]
    rcases h with rfl | rfl | rfl | ⟨h1, h2⟩ | ⟨h1, h2⟩ | ⟨h1, h2⟩ | ⟨h1, h2⟩
    · exact ⟨_, rfl⟩
    · exact ⟨_, rfl⟩
    · exact ⟨_, rfl⟩
    all_goals interval_cases c <;> exact ⟨_, rfl⟩
  · intro a rest h5 h2
    have e38 : sgr (sgrBody (38 :: a :: rest))
        = ESC :: '[' :: (sgrBody (38 :: a :: rest) ++ 'm' :: []) := rfl
    have e48 : sgr (sgrBody (48 :: a :: rest))
        = ESC :: '[' :: (sgrBody (48 :: a :: rest) ++ 'm' :: []) := rfl
    rw [e38, e48, new_sgrBody _ (by simp) [], new_sgrBody _ (by simp) [], applyCodes_cons,
      applyCodes_cons, applyCode_other_argument 38 a (Or.inl rfl) h5 h2,
      applyCode_other_argument 48 a (Or.inr rfl) h5 h2]
    exact ⟨rfl, rfl⟩

/-- C8 at the codes 31 (accepted), 99 and 38 (rejected) and at `ESC[48;7m`. -/
theorem C8_single_codes_witness :
    (∃ r, EscapeCSS.new (sgr "31".toList) = .ok r) ∧
    EscapeCSS.new (sgr "99".toList) = .error .unsupportedSequence ∧
    EscapeCSS.new (sgr "38".toList) = .error .unsupportedSequence ∧
    EscapeCSS.new (sgr "48;7".toList) = .error .unsupportedSequence :=
  ⟨(C8_single_codes 31).1.2 (by decide),
   (C8_single_codes 99).2.1 (by decide),
   (C8_single_codes 38).2.1 (by decide),
   ((C8_single_codes 0).2.2 7 [] (by decide) (by decide)).2⟩

/-- C9: if the constructor succeeds on `s` then `s` starts with `ESC[`,
contains an `m` and has only digits and `;` between the `[` and the first `m`;
every string that is not of this shape throws
`Unsupported escape sequence`. -/
theorem C9_malformed_rejected (s : JSString) :
    ((∃ r, EscapeCSS.new s = .ok r) → SGRShape s) ∧
    (¬ SGRShape s → EscapeCSS.new s = .error .unsupportedSequence) := by
  constructor
  · rintro ⟨r, hr⟩
    obtain ⟨body, hs, hbody, -, -⟩ := new_ok_shape s r hr
    rw [hs]
    exact shape_of_body body r.seq hbody
  · intro hshape
    by_cases hi : jsLength s < 4 ∨ s.head? ≠ some ESC ∨ s.get? 1 ≠ some '['
    · exact new_of_not_introducer s hi
    · obtain ⟨t, rfl, hlen⟩ := introducer_shape s hi
      rw [new_of_introducer t hlen]
      split
      · rename_i e hscan
        rw [scan_error_kind _ _ _ _ (le_refl _) hscan]
      · rename_i codes rest hscan
        obtain ⟨body, hb, hbd⟩ := scan_ok_shape _ _ _ _ _ (le_refl _) hscan
        subst hb
        exact absurd (shape_of_body body rest hbd) hshape

/-- C9 on an accepted sequence, on a string without the introducer, on a digit
run that reaches the end of the string, and on a letter where a code is
expected. -/
theorem C9_malformed_rejected_witness :
    SGRShape "\x1b[31mHi".toList ∧
    EscapeCSS.new "x[31m".toList = .error .unsupportedSequence ∧
    EscapeCSS.new "\x1b[31".toList = .error .unsupportedSequence ∧
    EscapeCSS.new "\x1b[3xm".toList = .error .unsupportedSequence :=
  ⟨(C9_malformed_rejected "\x1b[31mHi".toList).1 ⟨_, rfl⟩,
   (C9_malformed_rejected "x[31m".toList).2 (by decide),
   (C9_malformed_rejected "\x1b[31".toList).2 (by decide),
   (C9_malformed_rejected "\x1b[3xm".toList).2 (by decide)⟩

/-- C10 (the code differs): two empty code positions are accepted.  `ESC[31;m`,
with no digits between the `;` and the `m`, parses as the single code 31, and
`ESC[mX`, with no digits between the `[` and the `m`, parses with no code at
all and an untouched theme; the other empty positions (`ESC[;31m`,
`ESC[31;;32m`, and `ESC[m` alone) are rejected. -/
theorem C10_empty_code_positions_accepted :
    EscapeCSS.new "\x1b[31;m".toList =
      .ok { codes := [31]
            theme := { EscapeCSS.initialTheme with fg := .str "term-fg-red".toList }
            style := .undefined
            seq := [] } ∧
    EscapeCSS.new "\x1b[mX".toList =
      .ok { codes := [], theme := EscapeCSS.initialTheme, style := .undefined,
            seq := "X".toList } ∧
    EscapeCSS.new "\x1b[;31m".toList = .error .unsupportedSequence ∧
    EscapeCSS.new "\x1b[31;;32m".toList = .error .unsupportedSequence ∧
    EscapeCSS.new "\x1b[m".toList = .error .unsupportedSequence :=
  ⟨rfl, rfl, rfl, rfl, rfl⟩

/-! ## Lemmas on the output surface -/

theorem lastChild_append_singleton (nodes : List BufferNode) (n : BufferNode) :
    lastChild (nodes ++ [n]) = if n.isElement then some n else lastChild nodes := by
  unfold lastChild
  rw [List.filter_append]
  cases h : n.isElement
  · simp [List.filter, h]
  · simp [List.filter, h]

theorem lastChild_cons (n : BufferNode) (rest : List BufferNode) :
    lastChild (n :: rest) =
      if rest.any BufferNode.isElement then lastChild rest
      else if n.isElement then some n else none := by
  unfold lastChild
  by_cases hany : rest.any BufferNode.isElement = true
  · rw [if_pos hany]
    obtain ⟨x, hx, hxe⟩ := List.any_eq_true.mp hany
    have hne : rest.filter BufferNode.isElement ≠ [] :=
      List.ne_nil_of_mem (List.mem_filter.mpr ⟨hx, hxe⟩)
    cases hn : n.isElement
    · rw [List.filter_cons_of_neg (by simp [hn])]
    · rw [List.filter_cons_of_pos hn]
      obtain ⟨y, ys, hys⟩ := List.exists_cons_of_ne_nil hne
      rw [hys, List.getLast?_cons_cons]
  · rw [if_neg hany]
    have hnil : rest.filter BufferNode.isElement = [] := by
      rw [List.filter_eq_nil_iff]
      intro x hx hxe
      exact hany (List.any_eq_true.mpr ⟨x, hx, hxe⟩)
    cases hn : n.isElement
    · rw [List.filter_cons_of_neg (by simp [hn]), hnil]; rfl
    · rw [List.filter_cons_of_pos hn, hnil]; rfl

theorem hasLastChild_cons (n : BufferNode) (rest : List BufferNode) :
    hasLastChild (n :: rest) =
      if rest.any BufferNode.isElement then hasLastChild rest
      else hasLastChild [n] := by
  unfold hasLastChild
  rw [lastChild_cons]
  by_cases hany : rest.any BufferNode.isElement = true
  · rw [if_pos hany, if_pos hany]
  · rw [if_neg hany, if_neg hany]
    cases n <;> rfl

theorem appendToLastChild_cons (next : JSString) (n : BufferNode) (rest : List BufferNode) :
    appendToLastChild next (n :: rest) =
      if rest.any BufferNode.isElement then n :: appendToLastChild next rest
      else n.appendHTML next :: rest := rfl

theorem any_isElement_appendToLastChild (next : JSString) (nodes : List BufferNode) :
    (appendToLastChild next nodes).any BufferNode.isElement = nodes.any BufferNode.isElement := by
  induction nodes with
  | nil => rfl
  | cons n rest ih =>
    rw [appendToLastChild_cons]
    by_cases hany : rest.any BufferNode.isElement = true
    · rw [if_pos hany]
      simp only [List.any_cons, ih]
    · rw [if_neg hany]
      cases n <;> rfl

theorem hasLastChild_appendToLastChild (next : JSString) (nodes : List BufferNode) :
    hasLastChild (appendToLastChild next nodes) = hasLastChild nodes := by
  induction nodes with
  | nil => rfl
  | cons n rest ih =>
    rw [appendToLastChild_cons]
    by_cases hany : rest.any BufferNode.isElement = true
    · have h1 := hasLastChild_cons n (appendToLastChild next rest)
      have h2 := hasLastChild_cons n rest
      rw [any_isElement_appendToLastChild, if_pos hany] at h1
      rw [if_pos hany] at h2
      rw [if_pos hany, h1, h2, ih]
    · have h1 := hasLastChild_cons (n.appendHTML next) rest
      have h2 := hasLastChild_cons n rest
      rw [if_neg hany] at h1 h2
      rw [if_neg hany, h1, h2]
      cases n <;> rfl

theorem appendToLastChild_twice (a b : JSString) (nodes : List BufferNode) :
    appendToLastChild b (appendToLastChild a nodes) = appendToLastChild (a ++ b) nodes := by
  induction nodes with
  | nil => rfl
  | cons n rest ih =>
    rw [appendToLastChild_cons a, appendToLastChild_cons (a ++ b)]
    by_cases hany : rest.any BufferNode.isElement = true
    · rw [if_pos hany, if_pos hany, appendToLastChild_cons, any_isElement_appendToLastChild,
        if_pos hany, ih]
    · rw [if_neg hany, if_neg hany, appendToLastChild_cons, if_neg hany]
      cases n <;> simp [BufferNode.appendHTML]

theorem appendToLastChild_append_span (next : JSString) (nodes : List BufferNode)
    (cl : List JSString) (html : JSString) :
    appendToLastChild next (nodes ++ [.span cl html]) = nodes ++ [.span cl (html ++ next)] := by
  induction nodes with
  | nil => rfl
  | cons n rest ih =>
    rw [List.cons_append, appendToLastChild_cons, if_pos (by simp [BufferNode.isElement]), ih]
    rfl

theorem hasLastChild_append_span (nodes : List BufferNode) (cl : List JSString) (html : JSString) :
    hasLastChild (nodes ++ [.span cl html]) = true := by
  unfold hasLastChild
  rw [lastChild_append_singleton]
  rfl

theorem hasLastChild_appendToBuffer (next : JSString) (nodes : List BufferNode)
    (h : hasLastChild nodes = false) : hasLastChild (appendToBuffer next nodes) = false := by
  unfold appendToBuffer
  by_cases hbr : next = "<br/>".toList
  · rw [if_pos hbr]
    unfold hasLastChild
    rw [lastChild_append_singleton]
    rfl
  · rw [if_neg hbr]
    unfold hasLastChild at h ⊢
    rw [lastChild_append_singleton]
    exact h

theorem spanCount_append (a b : List BufferNode) :
    spanCount (a ++ b) = spanCount a + spanCount b := by
  induction a with
  | nil => simp [spanCount]
  | cons n rest ih =>
    rw [List.cons_append]
    cases n <;> simp only [spanCount, ih]
    omega

theorem spanCount_appendToLastChild (next : JSString) (nodes : List BufferNode) :
    spanCount (appendToLastChild next nodes) = spanCount nodes := by
  induction nodes with
  | nil => rfl
  | cons n rest ih =>
    rw [appendToLastChild_cons]
    split
    · cases n <;> simp only [spanCount, ih]
    · cases n <;> rfl

theorem spanCount_appendToBuffer (next : JSString) (nodes : List BufferNode) :
    spanCount (appendToBuffer next nodes) = spanCount nodes := by
  unfold appendToBuffer
  rw [spanCount_append]
  split <;> rfl

theorem spanCount_addNext (hasLast : Bool) (next : JSString) (nodes : List BufferNode) :
    spanCount (addNext hasLast next nodes) = spanCount nodes := by
  unfold addNext
  split
  · exact spanCount_appendToLastChild next nodes
  · exact spanCount_appendToBuffer next nodes

/-! ## The loop of `__addTextForce` -/

/-- The remainder of a successful parse is shorter than the text parsed, by the
three characters `ESC`, `[` and `m` at least. -/
theorem seq_length_of_new_ok (s : JSString) (r : EscapeCSS) (h : EscapeCSS.new s = .ok r) :
    r.seq.length + 3 ≤ s.length := by
  obtain ⟨body, hs, -, -, -⟩ := new_ok_shape s r h
  rw [hs]
  simp only [List.length_cons, List.length_append]
  omega

theorem addTextLoopFuel_fuel (f1 : Nat) : ∀ (f2 : Nat) (text : JSString) (s : Surface),
    text.length ≤ f1 → text.length ≤ f2 →
    addTextLoopFuel f1 text s = addTextLoopFuel f2 text s := by
  induction f1 with
  | zero =>
    intro f2 text s h1 h2
    have hnil : text = [] := List.length_eq_zero.mp (by omega)
    subst hnil
    cases f2 <;> rfl
  | succ f1 ih =>
    intro f2 text s h1 h2
    cases text with
    | nil => cases f2 <;> rfl
    | cons c rest =>
      cases f2 with
      | zero => simp at h2
      | succ f2 =>
        simp only [List.length_cons] at h1 h2
        simp only [addTextLoopFuel]
        split
        · split
          · rename_i escape hnew
            have hlen := seq_length_of_new_ok _ _ hnew
            simp only [List.length_cons] at hlen
            exact ih _ _ _ (by omega) (by omega)
          · exact ih _ _ _ (by omega) (by omega)
        · exact ih _ _ _ (by omega) (by omega)

theorem addTextLoop_nil (s : Surface) : addTextLoop [] s = s := rfl

/-- The loop equation of `__addTextForce`. -/
theorem addTextLoop_cons (c : Char) (rest : JSString) (s : Surface) :
    addTextLoop (c :: rest) s =
      if c = ESC then
        match EscapeCSS.new (c :: rest) with
        | .ok escape =>
          addTextLoop escape.seq
            { terminalTheme := Theme.mergeThemes s.terminalTheme escape.theme
              nodes := s.nodes ++
                [.span (Theme.applyTheme [] (Theme.mergeThemes s.terminalTheme escape.theme)) []] }
        | .error _ =>
          addTextLoop rest
            { s with nodes :=
                if hasLastChild s.nodes then appendToLastChild [c] s.nodes ++ [.span [] []]
                else appendToBuffer [c] (s.nodes ++ [.span [] []]) }
      else
        addTextLoop rest
          { s with nodes := addNext (hasLastChild s.nodes) (renderChar c) s.nodes } := by
  unfold addTextLoop
  simp only [List.length_cons, addTextLoopFuel]
  split
  · split
    · rename_i escape hnew
      have hlen := seq_length_of_new_ok _ _ hnew
      simp only [List.length_cons] at hlen
      exact addTextLoopFuel_fuel _ _ _ _ (by omega) (le_refl _)
    · rfl
  · rfl

theorem appendToLastChild_nil (nodes : List BufferNode) : appendToLastChild [] nodes = nodes := by
  induction nodes with
  | nil => rfl
  | cons n tl ih =>
    rw [appendToLastChild_cons]
    split
    · rw [ih]
    · cases n <;> simp [BufferNode.appendHTML]

/-- The loop of `__addTextForce` on a text without `ESC`, followed by more
text. -/
theorem addTextLoop_plain (text : JSString) : ∀ (rest : JSString) (s : Surface),
    ESC ∉ text → addTextLoop (text ++ rest) s = addTextLoop rest (s.addPlain text) := by
  induction text with
  | nil =>
    intro rest s _
    unfold Surface.addPlain
    split
    · simp only [renderText, List.nil_append, appendToLastChild_nil]
    · simp
  | cons c cs ih =>
    intro rest s h
    have hc : c ≠ ESC := fun hc => h (hc ▸ List.mem_cons_self _ _)
    have hcs : ESC ∉ cs := fun hm => h (List.mem_cons_of_mem _ hm)
    rw [List.cons_append, addTextLoop_cons, if_neg hc, ih rest _ hcs]
    congr 1
    unfold Surface.addPlain addNext
    cases hlast : hasLastChild s.nodes
    · have h2 : hasLastChild (appendToBuffer (renderChar c) s.nodes) = false :=
        hasLastChild_appendToBuffer _ _ hlast
      simp only [h2, Bool.false_eq_true, if_false, List.map_cons]
      unfold appendToBuffer rootNode
      simp
    · have h2 : hasLastChild (appendToLastChild (renderChar c) s.nodes) = true := by
        rw [hasLastChild_appendToLastChild]; exact hlast
      simp only [h2, if_true, renderText, appendToLastChild_twice]

/-- The loop of `__addTextForce` at an `ESC` on which the constructor succeeds:
a span with the classes of the merged theme is opened, the merged theme is the
theme of the buffer from then on, and the loop goes on with the remainder. -/
theorem addTextLoop_escape_ok (text : JSString) (r : EscapeCSS) (s : Surface)
    (hhead : text.head? = some ESC) (h : EscapeCSS.new text = .ok r) :
    addTextLoop text s =
      addTextLoop r.seq
        { terminalTheme := Theme.mergeThemes s.terminalTheme r.theme
          nodes := s.nodes ++
            [.span (Theme.applyTheme [] (Theme.mergeThemes s.terminalTheme r.theme)) []] } := by
  cases text with
  | nil => simp at hhead
  | cons c rest =>
    simp only [List.head?_cons, Option.some.injEq] at hhead
    subst hhead
    rw [addTextLoop_cons, if_pos rfl]
    simp only [h]

/-- The loop of `__addTextForce` at an `ESC` on which the constructor throws. -/
theorem addTextLoop_escape_error (rest : JSString) (e : JSError) (s : Surface)
    (h : EscapeCSS.new (ESC :: rest) = .error e) :
    addTextLoop (ESC :: rest) s =
      addTextLoop rest
        { s with nodes :=
            if hasLastChild s.nodes then appendToLastChild [ESC] s.nodes ++ [.span [] []]
            else s.nodes ++ [.span [] [], .text [ESC]] } := by
  rw [addTextLoop_cons, if_pos rfl]
  simp only [h]
  congr 2
  split
  · rfl
  · simp [appendToBuffer, ESC]

/-- The constructor on `ESC[31m` followed by any text. -/
theorem new_red (rest : JSString) :
    EscapeCSS.new (sgr "31".toList ++ rest) =
      .ok { codes := [31]
            theme := { EscapeCSS.initialTheme with fg := .str "term-fg-red".toList }
            style := .undefined
            seq := rest } := by
  have hs : sgr "31".toList ++ rest = ESC :: '[' :: (sgrBody [31] ++ 'm' :: rest) := rfl
  rw [hs, new_sgrBody [31] (by simp) rest]
  rfl

/-- The constructor on `ESC[0m` followed by any text. -/
theorem new_reset (rest : JSString) :
    EscapeCSS.new (sgr "0".toList ++ rest) =
      .ok { codes := [0], theme := Theme.default, style := .undefined, seq := rest } := by
  have hs : sgr "0".toList ++ rest = ESC :: '[' :: (sgrBody [0] ++ 'm' :: rest) := rfl
  rw [hs, new_sgrBody [0] (by simp) rest]
  rfl

/-- With both delays zero `stream` hands every unit to `__addTextForce`. -/
theorem stream_disabled_buffer (t : Terminal) (text : JSString) (hc : t.characterDelay = 0)
    (hl : t.lineDelay = 0) :
    (t.stream [.plain text]).buffer = addTextLoop text t.buffer := by
  unfold Terminal.stream Terminal.animationDisabled
  simp [hc, hl, Terminal.__addTextForce, OutputUnit.text]

/-- C12: in `Theme.mergeThemes(old, other)` each of the fields `bg`, `fg`, `font`
and `style` is that of `other` when it is set there (not `undefined`) and that
of `old` otherwise. -/
theorem C12_mergeThemes_fields (old other : ElementTheme) :
    ((other.bg = .undefined → (Theme.mergeThemes old other).bg = old.bg) ∧
      (other.bg ≠ .undefined → (Theme.mergeThemes old other).bg = other.bg)) ∧
    ((other.fg = .undefined → (Theme.mergeThemes old other).fg = old.fg) ∧
      (other.fg ≠ .undefined → (Theme.mergeThemes old other).fg = other.fg)) ∧
    ((other.font = .undefined → (Theme.mergeThemes old other).font = old.font) ∧
      (other.font ≠ .undefined → (Theme.mergeThemes old other).font = other.font)) ∧
    ((other.style = .undefined → (Theme.mergeThemes old other).style = old.style) ∧
      (other.style ≠ .undefined → (Theme.mergeThemes old other).style = other.style)) := by
  unfold Theme.mergeThemes
  refine ⟨⟨?_, ?_⟩, ⟨?_, ?_⟩, ⟨?_, ?_⟩, ⟨?_, ?_⟩⟩ <;> intro h <;> simp [h]

/-- C12 on the two examples: `{fg: red}` merged with `{bg: blue}` keeps the red
foreground and takes the blue background; `{fg: red}` merged with
`{fg: green}` has the green foreground. -/
theorem C12_mergeThemes_fields_witness :
    ((Theme.mergeThemes { EscapeCSS.initialTheme with fg := .str "term-fg-red".toList }
        { EscapeCSS.initialTheme with bg := .str "term-bg-blue".toList }).fg
        = .str "term-fg-red".toList ∧
      (Theme.mergeThemes { EscapeCSS.initialTheme with fg := .str "term-fg-red".toList }
        { EscapeCSS.initialTheme with bg := .str "term-bg-blue".toList }).bg
        = .str "term-bg-blue".toList) ∧
    (Theme.mergeThemes { EscapeCSS.initialTheme with fg := .str "term-fg-red".toList }
        { EscapeCSS.initialTheme with fg := .str "term-fg-green".toList }).fg
        = .str "term-fg-green".toList :=
  ⟨⟨(C12_mergeThemes_fields { EscapeCSS.initialTheme with fg := .str "term-fg-red".toList }
        { EscapeCSS.initialTheme with bg := .str "term-bg-blue".toList }).2.1.1 rfl,
    (C12_mergeThemes_fields { EscapeCSS.initialTheme with fg := .str "term-fg-red".toList }
        { EscapeCSS.initialTheme with bg := .str "term-bg-blue".toList }).1.2 (by decide)⟩,
   (C12_mergeThemes_fields { EscapeCSS.initialTheme with fg := .str "term-fg-red".toList }
        { EscapeCSS.initialTheme with fg := .str "term-fg-green".toList }).2.1.2 (by decide)⟩

/-- C13 (the code differs): `__addTextForce` appends the new span to the buffer
before the constructor runs.  On the empty buffer of a new terminal the text
`ESC[99m` leaves the span holding `[99m` followed by the `ESC` at the buffer
root, so in document order the `ESC` comes last; after a first span
(`ESC[31mab`) the `ESC` goes to that span and `[99m` to a new span without
class, in input order. -/
theorem C13_escape_after_its_sequence :
    (Terminal.initial.__addTextForce "\x1b[99m".toList).buffer.nodes
      = [.span [] "[99m".toList, .text [ESC]] ∧
    documentText (Terminal.initial.__addTextForce "\x1b[99m".toList).buffer.nodes
      = "[99m\x1b".toList ∧
    ((Terminal.initial.__addTextForce "\x1b[31mab".toList).__addTextForce
        "\x1b[99m".toList).buffer.nodes
      = [.span ["term-bg-black".toList, "term-fg-red".toList, "term-font".toList]
           "ab\x1b".toList,
         .span [] "[99m".toList] := by
  refine ⟨?_, ?_, ?_⟩ <;> rfl

/-- C14: whatever error the constructor throws at an `ESC`, `__addTextForce`
catches it and returns: the span already created stays, the `ESC` is added as
text (to the last span when there was one, to the buffer root otherwise) and
the buffer ends as if the characters after the `ESC` had been handed to
`__addTextForce` next. -/
theorem C14_parse_failure_caught (t : Terminal) (rest : JSString) (e : JSError)
    (h : EscapeCSS.new (ESC :: rest) = .error e) :
    (t.__addTextForce (ESC :: rest)).buffer =
      (Terminal.__addTextForce
        { t with buffer :=
            { t.buffer with nodes :=
                if hasLastChild t.buffer.nodes then
                  appendToLastChild [ESC] t.buffer.nodes ++ [.span [] []]
                else t.buffer.nodes ++ [.span [] [], .text [ESC]] } }
        rest).buffer :=
  addTextLoop_escape_error rest e t.buffer h

/-- C14 on `ESC[38;5;8m`, where the constructor throws `Invalid ANSI color`, and
on `ESC[99m`, where it throws `Unsupported escape sequence`, both on a new
terminal. -/
theorem C14_parse_failure_caught_witness :
    (Terminal.initial.__addTextForce (ESC :: "[38;5;8m".toList)).buffer.nodes =
      [.span [] "[38;5;8m".toList, .text [ESC]] ∧
    (Terminal.initial.__addTextForce (ESC :: "[99m".toList)).buffer.nodes =
      [.span [] "[99m".toList, .text [ESC]] :=
  ⟨congrArg Surface.nodes
      (C14_parse_failure_caught Terminal.initial "[38;5;8m".toList (.invalidAnsiColor 98) rfl),
   congrArg Surface.nodes
      (C14_parse_failure_caught Terminal.initial "[99m".toList .unsupportedSequence rfl)⟩

/-- The loop of `__addTextForce` on a text without `ESC`. -/
theorem addTextLoop_plain_all (text : JSString) (s : Surface) (h : ESC ∉ text) :
    addTextLoop text s = s.addPlain text := by
  have h2 := addTextLoop_plain text [] s h
  rw [List.append_nil, addTextLoop_nil] at h2
  exact h2

theorem addTextLoop_red (rest : JSString) (s : Surface) :
    addTextLoop (sgr "31".toList ++ rest) s =
      addTextLoop rest
        { terminalTheme := Theme.mergeThemes s.terminalTheme
            { EscapeCSS.initialTheme with fg := .str "term-fg-red".toList }
          nodes := s.nodes ++
            [.span (Theme.applyTheme [] (Theme.mergeThemes s.terminalTheme
              { EscapeCSS.initialTheme with fg := .str "term-fg-red".toList })) []] } :=
  addTextLoop_escape_ok (sgr "31".toList ++ rest) _ s rfl (new_red rest)

theorem addTextLoop_reset (rest : JSString) (s : Surface) :
    addTextLoop (sgr "0".toList ++ rest) s =
      addTextLoop rest
        { terminalTheme := Theme.mergeThemes s.terminalTheme Theme.default
          nodes := s.nodes ++
            [.span (Theme.applyTheme [] (Theme.mergeThemes s.terminalTheme Theme.default)) []] } :=
  addTextLoop_escape_ok (sgr "0".toList ++ rest) _ s rfl (new_reset rest)

/-- C15: with both delays zero and on the empty buffer of a new terminal,
`stream` of the one unit `ESC[31m w ESC[0m v`, `w` and `v` without `ESC`,
leaves exactly two spans: the first with the red foreground class
`term-fg-red` and the rendering of `w`, the second with the default classes
`term-bg-black`, `term-fg-white`, `term-font` and the rendering of `v`. -/
theorem C15_red_then_reset (t : Terminal) (w v : JSString) (hc : t.characterDelay = 0)
    (hl : t.lineDelay = 0) (hb : t.buffer = Surface.initial) (hw : ESC ∉ w) (hv : ESC ∉ v) :
    (t.stream [.plain (sgr "31".toList ++ w ++ sgr "0".toList ++ v)]).buffer.nodes =
      [.span ["term-bg-black".toList, "term-fg-red".toList, "term-font".toList] (renderText w),
       .span ["term-bg-black".toList, "term-fg-white".toList, "term-font".toList]
         (renderText v)] := by
  rw [stream_disabled_buffer t _ hc hl, hb, List.append_assoc, List.append_assoc,
    addTextLoop_red, addTextLoop_plain w _ _ hw, addTextLoop_reset,
    addTextLoop_plain_all v _ hv]
  rfl

/-- C15 on the text `ESC[31mHi ESC[0m!` of the scenario. -/
theorem C15_red_then_reset_witness :
    ({ Terminal.initial with characterDelay := 0, lineDelay := 0 }.stream
        [.plain "\x1b[31mHi\x1b[0m!".toList]).buffer.nodes =
      [.span ["term-bg-black".toList, "term-fg-red".toList, "term-font".toList] "Hi".toList,
       .span ["term-bg-black".toList, "term-fg-white".toList, "term-font".toList]
         "!".toList] :=
  C15_red_then_reset { Terminal.initial with characterDelay := 0, lineDelay := 0 }
    "Hi".toList "!".toList rfl rfl rfl (by decide) (by decide)

/-- C16 (the code differs): on a new terminal the text `ESC[31m` then `ESC[41m`
opens a second span with the classes `term-bg-black`, `term-bg-red` and
`term-font`: the class of the code 41 was merged into the `fg` key, so the
red foreground class is gone and the default background class is still
there. -/
theorem C16_background_code_replaces_foreground :
    (Terminal.initial.__addTextForce "\x1b[31m\x1b[41m".toList).buffer.nodes =
      [.span ["term-bg-black".toList, "term-fg-red".toList, "term-font".toList] [],
       .span ["term-bg-black".toList, "term-bg-red".toList, "term-font".toList] []] ∧
    (Terminal.initial.__addTextForce "\x1b[31m\x1b[41m".toList).buffer.terminalTheme.fg =
      .str "term-bg-red".toList ∧
    (Terminal.initial.__addTextForce "\x1b[31m\x1b[41m".toList).buffer.terminalTheme.bg =
      .str "term-bg-black".toList := by
  refine ⟨?_, ?_, ?_⟩ <;> rfl

/-- C17 as stated fails: on a new terminal the text `ESC[31m` twice leaves two
adjacent spans with the same classes. -/
theorem C17_adjacent_identical_spans_counterexample :
    (Terminal.initial.__addTextForce "\x1b[31m\x1b[31m".toList).buffer.nodes =
      [.span ["term-bg-black".toList, "term-fg-red".toList, "term-font".toList] [],
       .span ["term-bg-black".toList, "term-fg-red".toList, "term-font".toList] []] :=
  rfl

theorem count_ESC_of_new_ok (rest : JSString) (r : EscapeCSS)
    (h : EscapeCSS.new (ESC :: rest) = .ok r) : rest.count ESC = r.seq.count ESC := by
  obtain ⟨body, hs, hbody, -, -⟩ := new_ok_shape _ r h
  have hrest : rest = '[' :: (body ++ 'm' :: r.seq) := by
    simp only [List.cons.injEq, true_and] at hs
    exact hs
  have hzero : body.count ESC = 0 := by
    rw [List.count_eq_zero]
    intro hmem
    rcases hbody ESC hmem with hd | hd
    · exact absurd hd (by decide)
    · exact absurd hd (by decide)
  rw [hrest, List.count_cons, List.count_append, List.count_cons, hzero]
  simp [ESC]

/-- Every `ESC` of the text opens exactly one span, and nothing else does. -/
theorem spanCount_addTextLoop (n : Nat) : ∀ (text : JSString) (s : Surface), text.length ≤ n →
    spanCount (addTextLoop text s).nodes = spanCount s.nodes + text.count ESC := by
  induction n with
  | zero =>
    intro text s h
    have hnil : text = [] := List.length_eq_zero.mp (by omega)
    subst hnil
    rfl
  | succ n ih =>
    intro text s h
    cases text with
    | nil => rfl
    | cons c rest =>
      simp only [List.length_cons] at h
      rw [addTextLoop_cons]
      by_cases hc : c = ESC
      · subst hc
        rw [if_pos rfl]
        split
        · rename_i escape hnew
          have hlen := seq_length_of_new_ok _ _ hnew
          simp only [List.length_cons] at hlen
          rw [ih _ _ (by omega), List.count_cons, count_ESC_of_new_ok rest escape hnew,
            spanCount_append]
          simp [spanCount]
          omega
        · rw [ih _ _ (by omega), List.count_cons]
          split
          · rw [spanCount_append, spanCount_appendToLastChild]
            simp [spanCount]
            omega
          · rw [spanCount_appendToBuffer, spanCount_append]
            simp [spanCount]
            omega
      · rw [if_neg hc, ih _ _ (by omega), spanCount_addNext, List.count_cons]
        simp [hc]

theorem documentText_append (a b : List BufferNode) :
    documentText (a ++ b) = documentText a ++ documentText b := by
  induction a with
  | nil => rfl
  | cons n rest ih =>
    rw [List.cons_append]
    cases n <;> simp only [documentText, ih, List.append_assoc]

theorem documentText_rootNode (next : JSString) : documentText [rootNode next] = next := by
  unfold rootNode
  split
  · rename_i h
    rw [h]; rfl
  · simp [documentText]

theorem documentText_map_rootNode (text : JSString) :
    documentText (text.map (fun c => rootNode (renderChar c))) = renderText text := by
  induction text with
  | nil => rfl
  | cons c rest ih =>
    have h := documentText_append [rootNode (renderChar c)]
      (rest.map (fun c => rootNode (renderChar c)))
    rw [List.map_cons]
    simp only [List.singleton_append] at h
    rw [h, documentText_rootNode, ih]
    rfl

theorem spanCount_pos_of_hasLastChild (nodes : List BufferNode)
    (h : hasLastChild nodes = true) : spanCount nodes ≠ 0 := by
  induction nodes with
  | nil => exact absurd h (by decide)
  | cons n rest ih =>
    rw [hasLastChild_cons] at h
    by_cases hany : rest.any BufferNode.isElement = true
    · rw [if_pos hany] at h
      have := ih h
      cases n <;> simp only [spanCount] <;> omega
    · rw [if_neg hany] at h
      cases n with
      | text html => exact absurd h (by simp [hasLastChild, lastChild, BufferNode.isElement])
      | br => exact absurd h (by decide)
      | span cl html => simp [spanCount]

/-- The loop of `__addTextForce` keeps the invariant `SpanIsLast`. -/
theorem spanIsLast_addTextLoop (n : Nat) : ∀ (text : JSString) (s : Surface), text.length ≤ n →
    SpanIsLast s.nodes → SpanIsLast (addTextLoop text s).nodes := by
  induction n with
  | zero =>
    intro text s h hinv
    have hnil : text = [] := List.length_eq_zero.mp (by omega)
    subst hnil
    exact hinv
  | succ n ih =>
    intro text s h hinv
    cases text with
    | nil => exact hinv
    | cons c rest =>
      simp only [List.length_cons] at h
      rw [addTextLoop_cons]
      by_cases hc : c = ESC
      · subst hc
        rw [if_pos rfl]
        split
        · rename_i escape hnew
          have hlen := seq_length_of_new_ok _ _ hnew
          simp only [List.length_cons] at hlen
          exact ih _ _ (by omega) (fun _ => hasLastChild_append_span _ _ _)
        · refine ih _ _ (by omega) (fun _ => ?_)
          show hasLastChild (if hasLastChild s.nodes = true then _ else _) = true
          split
          · exact hasLastChild_append_span _ _ _
          · unfold appendToBuffer hasLastChild
            rw [if_neg (by decide), lastChild_append_singleton, lastChild_append_singleton]
            rfl
      · rw [if_neg hc]
        refine ih _ _ (by omega) ?_
        intro hpos
        show hasLastChild (addNext (hasLastChild s.nodes) (renderChar c) s.nodes) = true
        rw [spanCount_addNext] at hpos
        have hlast := hinv hpos
        rw [hlast]
        unfold addNext
        rw [if_pos rfl, hasLastChild_appendToLastChild]
        exact hlast

theorem spanIsLast_initial : SpanIsLast Surface.initial.nodes := by
  intro h
  exact absurd h (by decide)

/-- A text whose every `ESC` starts a sequence that the constructor accepts:
each successful parse opens exactly one span, and nothing else does. -/
theorem spanCount_addTextLoop_parsed (n : Nat) : ∀ (text : JSString) (s : Surface),
    text.length ≤ n →
    (∀ suf ∈ text.tails, suf.head? = some ESC → (EscapeCSS.new suf).toBool = true) →
    spanCount (addTextLoop text s).nodes = spanCount s.nodes + text.count ESC := by
  induction n with
  | zero =>
    intro text s h _
    have hnil : text = [] := List.length_eq_zero.mp (by omega)
    subst hnil
    rfl
  | succ n ih =>
    intro text s h hparse
    cases text with
    | nil => rfl
    | cons c rest =>
      simp only [List.length_cons] at h
      have hrest : ∀ suf ∈ rest.tails, suf.head? = some ESC →
          (EscapeCSS.new suf).toBool = true := by
        intro suf hsuf
        refine hparse suf ?_
        rw [List.mem_tails] at hsuf ⊢
        obtain ⟨p, hp⟩ := hsuf
        exact ⟨c :: p, by rw [List.cons_append, hp]⟩
      rw [addTextLoop_cons]
      by_cases hc : c = ESC
      · subst hc
        rw [if_pos rfl]
        have hok := hparse (ESC :: rest) (by rw [List.mem_tails]) rfl
        cases hnew : EscapeCSS.new (ESC :: rest) with
        | error e =>
          rw [hnew] at hok
          cases hok
        | ok escape =>
          simp only
          have hlen := seq_length_of_new_ok _ _ hnew
          simp only [List.length_cons] at hlen
          have hseq : ∀ suf ∈ escape.seq.tails, suf.head? = some ESC →
              (EscapeCSS.new suf).toBool = true := by
            intro suf hsuf
            refine hparse suf ?_
            obtain ⟨body, hs, -, -, -⟩ := new_ok_shape _ escape hnew
            rw [List.mem_tails] at hsuf ⊢
            obtain ⟨p, hp⟩ := hsuf
            refine ⟨ESC :: '[' :: (body ++ 'm' :: p), ?_⟩
            rw [hs, ← hp]
            simp
          rw [ih _ _ (by omega) hseq, List.count_cons, count_ESC_of_new_ok rest escape hnew,
            spanCount_append]
          simp [spanCount]
          omega
      · rw [if_neg hc, ih _ _ (by omega) hrest, spanCount_addNext, List.count_cons]
        simp [hc]

/-- C17 amended: on texts whose every `ESC` starts a sequence that the
constructor accepts, the number of spans after any sequence of calls of
`__addTextForce` is the number before plus the number of sequences in the
texts: every sequence that parses opens exactly one span, whatever the style
it yields, so that spans with the same style follow one another, and a text
without `ESC` opens none. -/
theorem C17_one_span_per_parsed_escape (texts : List JSString) (t : Terminal)
    (hparse : ∀ text ∈ texts, ∀ suf ∈ text.tails, suf.head? = some ESC →
      (EscapeCSS.new suf).toBool = true) :
    spanCount (texts.foldl Terminal.__addTextForce t).buffer.nodes =
      spanCount t.buffer.nodes + (texts.map (fun text => text.count ESC)).sum := by
  induction texts generalizing t with
  | nil => rfl
  | cons text rest ih =>
    rw [List.foldl_cons, ih _ (fun x hx => hparse x (List.mem_cons_of_mem _ hx)),
      List.map_cons, List.sum_cons]
    have h : (t.__addTextForce text).buffer = addTextLoop text t.buffer := rfl
    rw [h, spanCount_addTextLoop_parsed _ _ _ (le_refl _)
      (hparse text (List.mem_cons_self _ _))]
    omega

/-- C17 amended, on a new terminal: the texts `ESC[31mHi` and `ESC[31m!`, two
sequences with the same style, leave two spans. -/
theorem C17_one_span_per_parsed_escape_witness :
    spanCount (["\x1b[31mHi".toList, "\x1b[31m!".toList].foldl Terminal.__addTextForce
      Terminal.initial).buffer.nodes = 2 ∧
    (["\x1b[31mHi".toList, "\x1b[31m!".toList].foldl Terminal.__addTextForce
      Terminal.initial).buffer.nodes =
      [.span ["term-bg-black".toList, "term-fg-red".toList, "term-font".toList] "Hi".toList,
       .span ["term-bg-black".toList, "term-fg-red".toList, "term-font".toList] "!".toList] :=
  ⟨C17_one_span_per_parsed_escape ["\x1b[31mHi".toList, "\x1b[31m!".toList] Terminal.initial
    (by decide), rfl⟩

/-- C18: with both delays zero, `stream` of a text without `ESC` appends the
replacements of its characters in order (`<br/>` for a line break, eight
`&nbsp;` for a tab, one `&nbsp;` for a space, the character itself otherwise):
to the last span when the last element child of the buffer is a span, at the
buffer root otherwise, where they follow what the buffer held.  No span is
created. -/
theorem C18_plain_text_round_trip (t : Terminal) (text : JSString) (hc : t.characterDelay = 0)
    (hl : t.lineDelay = 0) (h : ESC ∉ text) :
    (t.stream [.plain text]).buffer =
      (if hasLastChild t.buffer.nodes then
        { t.buffer with nodes := appendToLastChild (renderText text) t.buffer.nodes }
      else
        { t.buffer with
          nodes := t.buffer.nodes ++ text.map (fun c => rootNode (renderChar c)) }) ∧
    spanCount (t.stream [.plain text]).buffer.nodes = spanCount t.buffer.nodes ∧
    (hasLastChild t.buffer.nodes = false →
      documentText (t.stream [.plain text]).buffer.nodes =
        documentText t.buffer.nodes ++ renderText text) ∧
    (∀ (before : List BufferNode) (classList : List JSString) (innerHTML : JSString),
      t.buffer.nodes = before ++ [.span classList innerHTML] →
      (t.stream [.plain text]).buffer.nodes =
        before ++ [.span classList (innerHTML ++ renderText text)]) ∧
    (SpanIsLast t.buffer.nodes →
      (0 < spanCount t.buffer.nodes ↔ hasLastChild t.buffer.nodes = true) ∧
      SpanIsLast (t.stream [.plain text]).buffer.nodes) ∧
    renderChar '\n' = "<br/>".toList ∧
    renderChar '\t' = "&nbsp;&nbsp;&nbsp;&nbsp;&nbsp;&nbsp;&nbsp;&nbsp;".toList ∧
    renderChar ' ' = "&nbsp;".toList ∧
    (∀ c : Char, c ≠ '\n' → c ≠ '\t' → c ≠ ' ' → renderChar c = [c]) := by
  have hbuf : (t.stream [.plain text]).buffer = t.buffer.addPlain text := by
    rw [stream_disabled_buffer t text hc hl, addTextLoop_plain_all text _ h]
  refine ⟨?_, ?_, ?_, ?_, ?_, rfl, rfl, rfl, ?_⟩
  · rw [hbuf]; rfl
  · rw [stream_disabled_buffer t text hc hl, spanCount_addTextLoop _ _ _ (le_refl _),
      List.count_eq_zero.mpr h]
    rfl
  · intro hlast
    rw [hbuf]
    unfold Surface.addPlain
    rw [hlast]
    simp only [Bool.false_eq_true, if_false]
    rw [documentText_append, documentText_map_rootNode]
  · intro before classList innerHTML hnodes
    rw [hbuf]
    unfold Surface.addPlain
    rw [hnodes, hasLastChild_append_span, if_pos rfl]
    exact appendToLastChild_append_span _ _ _ _
  · intro hinv
    refine ⟨⟨hinv, ?_⟩, ?_⟩
    · intro hlast
      by_contra hzero
      have h0 : spanCount t.buffer.nodes = 0 := by omega
      exact spanCount_pos_of_hasLastChild _ hlast h0
    · rw [stream_disabled_buffer t text hc hl]
      exact spanIsLast_addTextLoop _ _ _ (le_refl _) hinv
  · intro c h1 h2 h3
    unfold renderChar
    rw [if_neg h1, if_neg h2, if_neg h3]

/-- C18 on the text `a b` and a new terminal, where the text goes to the buffer
root, and after `ESC[31m`, where it goes to the span. -/
theorem C18_plain_text_round_trip_witness :
    documentText ({ Terminal.initial with characterDelay := 0, lineDelay := 0 }.stream
        [.plain "a b".toList]).buffer.nodes = "a&nbsp;b".toList ∧
    (({ Terminal.initial with characterDelay := 0, lineDelay := 0 }.__addTextForce
        "\x1b[31m".toList).stream [.plain "a\nb".toList]).buffer.nodes =
      [.span ["term-bg-black".toList, "term-fg-red".toList, "term-font".toList]
        "a<br/>b".toList] :=
  ⟨(C18_plain_text_round_trip { Terminal.initial with characterDelay := 0, lineDelay := 0 }
      "a b".toList rfl rfl (by decide)).2.2.1 rfl,
   (C18_plain_text_round_trip
      ({ Terminal.initial with characterDelay := 0, lineDelay := 0 }.__addTextForce
        "\x1b[31m".toList)
      "a\nb".toList rfl rfl (by decide)).2.2.2.1 []
      ["term-bg-black".toList, "term-fg-red".toList, "term-font".toList] [] rfl⟩

/-! ## The animation queue -/

theorem emittedText_append (a b : List Effect) :
    emittedText (a ++ b) = emittedText a ++ emittedText b := by
  induction a with
  | nil => rfl
  | cons e rest ih =>
    rw [List.cons_append]
    cases e <;> simp only [emittedText, ih, List.append_assoc]

theorem queueText_append (a b : List (Option OutputUnit)) :
    queueText (a ++ b) = queueText a ++ queueText b := by
  induction a with
  | nil => rfl
  | cons e rest ih =>
    rw [List.cons_append]
    cases e <;> simp only [queueText, ih, List.append_assoc]

theorem queueText_map_some (lines : List OutputUnit) :
    queueText (lines.map some) = unitsText lines := by
  induction lines with
  | nil => rfl
  | cons u rest ih => simp only [List.map_cons, queueText, unitsText, ih]

/-- The method `__animateToPrint()` on an empty queue. -/
theorem animateToPrint_empty (t : Terminal) (h : t.__toPrint = []) :
    t.__animateToPrint = { t with __animating := false } := by
  unfold Terminal.__animateToPrint
  simp only [Terminal.animateToPrintFuel, h]

/-- The method `__animateToPrint()` on the marker of an exhausted unit. -/
theorem animateToPrint_marker (t : Terminal) (rest : List (Option OutputUnit))
    (h : t.__toPrint = none :: rest) :
    t.__animateToPrint =
      { t with __animating := true, __toPrint := rest, timers := t.timers ++ [.line],
               trace := t.trace ++ [.setTimeout .line] } := by
  unfold Terminal.__animateToPrint
  simp only [Terminal.animateToPrintFuel, h]

/-- The method `__animateToPrint()` on an empty string. -/
theorem animateToPrint_empty_string (t : Terminal) (rest : List (Option OutputUnit))
    (h : t.__toPrint = some (.plain []) :: rest) :
    t.__animateToPrint =
      { t with __animating := true, __toPrint := rest, timers := t.timers ++ [.line],
               trace := t.trace ++ [.setTimeout .line] } := by
  unfold Terminal.__animateToPrint
  simp only [Terminal.animateToPrintFuel, h, if_true]

/-- The method `__animateToPrint()` on a string that is not empty. -/
theorem animateToPrint_plain (t : Terminal) (next : JSString) (rest : List (Option OutputUnit))
    (hne : next ≠ []) (h : t.__toPrint = some (.plain next) :: rest) :
    t.__animateToPrint =
      { ({ t with __animating := true }.__addTextForce (next.take (visualUnitEnd next))) with
        __toPrint :=
          (if next.drop (visualUnitEnd next) = [] then none
            else some (.plain (next.drop (visualUnitEnd next)))) :: rest
        timers := t.timers ++ [.character]
        trace := t.trace ++ [.addText (next.take (visualUnitEnd next))]
          ++ [.setTimeout .character] } := by
  unfold Terminal.__animateToPrint
  simp only [Terminal.animateToPrintFuel, h, if_neg hne]
  rfl

/-- The equation of `__animateToPrint()` on a unit that skips the animation,
with its self-call. -/
theorem animateToPrint_skip (t : Terminal) (s : JSString) (rest : List (Option OutputUnit))
    (h : t.__toPrint = some (.skip s) :: rest) :
    t.__animateToPrint =
      Terminal.__animateToPrint
        { ({ t with __animating := true }.__addTextForce s) with __toPrint := none :: rest } := by
  unfold Terminal.__animateToPrint
  simp only [Terminal.animateToPrintFuel, h]

/-- The queue invariant of one run of `__animateToPrint()`: what it prints
comes off the front of the queue. -/
theorem animateToPrint_text (t : Terminal) :
    emittedText t.__animateToPrint.trace ++ queueText t.__animateToPrint.__toPrint =
      emittedText t.trace ++ queueText t.__toPrint := by
  cases hq : t.__toPrint with
  | nil => rw [animateToPrint_empty t hq, hq]
  | cons front rest =>
    cases front with
    | none =>
      rw [animateToPrint_marker t rest hq]
      simp [emittedText_append, emittedText, queueText]
    | some u =>
      cases u with
      | plain next =>
        by_cases hne : next = []
        · subst hne
          rw [animateToPrint_empty_string t rest hq]
          simp [emittedText_append, emittedText, queueText, OutputUnit.text]
        · rw [animateToPrint_plain t next rest hne hq]
          simp only [emittedText_append, emittedText, queueText, List.append_nil,
            List.append_assoc, OutputUnit.text]
          congr 1
          split
          · rename_i hd
            simp only [queueText]
            congr 1
            have := List.take_append_drop (visualUnitEnd next) next
            rw [hd, List.append_nil] at this
            exact this
          · simp only [queueText, OutputUnit.text]
            rw [← List.append_assoc, List.take_append_drop]
      | skip s =>
        rw [animateToPrint_skip t s rest hq, animateToPrint_marker _ rest rfl]
        simp [emittedText_append, emittedText, queueText, OutputUnit.text,
          Terminal.__addTextForce]

theorem animateToPrint_delays (t : Terminal) :
    t.__animateToPrint.characterDelay = t.characterDelay ∧
    t.__animateToPrint.lineDelay = t.lineDelay := by
  cases hq : t.__toPrint with
  | nil => rw [animateToPrint_empty t hq]; exact ⟨rfl, rfl⟩
  | cons front rest =>
    cases front with
    | none => rw [animateToPrint_marker t rest hq]; exact ⟨rfl, rfl⟩
    | some u =>
      cases u with
      | plain next =>
        by_cases hne : next = []
        · subst hne
          rw [animateToPrint_empty_string t rest hq]; exact ⟨rfl, rfl⟩
        · rw [animateToPrint_plain t next rest hne hq]; exact ⟨rfl, rfl⟩
      | skip s =>
        rw [animateToPrint_skip t s rest hq, animateToPrint_marker _ rest rfl]
        exact ⟨rfl, rfl⟩

theorem animationDisabled_animateToPrint (t : Terminal) :
    t.__animateToPrint.animationDisabled = t.animationDisabled := by
  unfold Terminal.animationDisabled
  rw [(animateToPrint_delays t).1, (animateToPrint_delays t).2]

/-- The method `stream(lines)` while the animation is enabled. -/
theorem stream_enabled (t : Terminal) (lines : List OutputUnit)
    (h : t.animationDisabled = false) :
    t.stream lines =
      if t.__animating then { t with __toPrint := t.__toPrint ++ lines.map some }
      else Terminal.__animateToPrint { t with __toPrint := t.__toPrint ++ lines.map some } := by
  unfold Terminal.stream
  rw [h]
  cases t.__animating <;> simp

theorem stream_text (t : Terminal) (lines : List OutputUnit) (h : t.animationDisabled = false) :
    emittedText (t.stream lines).trace ++ queueText (t.stream lines).__toPrint =
      emittedText t.trace ++ queueText t.__toPrint ++ unitsText lines ∧
    (t.stream lines).animationDisabled = false := by
  rw [stream_enabled t lines h]
  split
  · simp only [queueText_append, queueText_map_some, List.append_assoc]
    exact ⟨trivial, h⟩
  · rw [animateToPrint_text, animationDisabled_animateToPrint]
    simp only [queueText_append, queueText_map_some, List.append_assoc]
    exact ⟨trivial, h⟩

theorem tick_text (t : Terminal) (i : Nat) (h : t.animationDisabled = false) :
    emittedText (t.tick i).trace ++ queueText (t.tick i).__toPrint =
      emittedText t.trace ++ queueText t.__toPrint ∧
    (t.tick i).animationDisabled = false := by
  unfold Terminal.tick
  split
  · rw [animateToPrint_text, animationDisabled_animateToPrint]
    exact ⟨rfl, h⟩
  · exact ⟨rfl, h⟩

theorem run_text (actions : List TerminalAction) : ∀ (t : Terminal),
    t.animationDisabled = false →
    emittedText (t.run actions).trace ++ queueText (t.run actions).__toPrint =
      emittedText t.trace ++ queueText t.__toPrint ++ enqueuedText actions := by
  induction actions with
  | nil => intro t _; simp [Terminal.run, enqueuedText]
  | cons a rest ih =>
    intro t h
    have hrun : t.run (a :: rest) = (t.act a).run rest := rfl
    rw [hrun]
    cases a with
    | stream lines =>
      obtain ⟨h1, h2⟩ := stream_text t lines h
      have hact : t.act (.stream lines) = t.stream lines := rfl
      rw [hact, ih _ h2, h1]
      simp only [enqueuedText, List.append_assoc]
    | addText text =>
      obtain ⟨h1, h2⟩ := stream_text t [.skip text] h
      have hact : t.act (.addText text) = t.stream [.skip text] := rfl
      rw [hact, ih _ h2, h1]
      simp only [enqueuedText, List.append_assoc, unitsText, OutputUnit.text, List.append_nil]
    | tick i =>
      obtain ⟨h1, h2⟩ := tick_text t i h
      have hact : t.act (.tick i) = t.tick i := rfl
      rw [hact, ih _ h2, h1]
      simp only [enqueuedText]

theorem animationDisabled_false_iff (t : Terminal) :
    t.animationDisabled = false ↔ ¬ (t.characterDelay = 0 ∧ t.lineDelay = 0) := by
  unfold Terminal.animationDisabled
  simp only [Bool.and_eq_false_iff, decide_eq_false_iff_not]
  tauto

/-- C19: while the two delays are not both zero, after any sequence of calls of
`stream` and `addText` and of timers firing, the text printed so far followed
by the text still in the queue is the text there was at the start followed by
the text of all the units handed in, in call order.  So the text printed is at
every moment a beginning of that text (a unit is printed only after all that
came before it), and it is all of it once the queue holds no text. -/
theorem C19_fifo_order (t : Terminal) (actions : List TerminalAction)
    (h : ¬ (t.characterDelay = 0 ∧ t.lineDelay = 0)) :
    emittedText (t.run actions).trace ++ queueText (t.run actions).__toPrint =
      emittedText t.trace ++ queueText t.__toPrint ++ enqueuedText actions ∧
    emittedText (t.run actions).trace <+:
      emittedText t.trace ++ queueText t.__toPrint ++ enqueuedText actions ∧
    (queueText (t.run actions).__toPrint = [] →
      emittedText (t.run actions).trace =
        emittedText t.trace ++ queueText t.__toPrint ++ enqueuedText actions) := by
  have hrun := run_text actions t ((animationDisabled_false_iff t).mpr h)
  refine ⟨hrun, ⟨queueText (t.run actions).__toPrint, hrun⟩, ?_⟩
  intro hq
  rw [hq, List.append_nil] at hrun
  exact hrun

/-- C19 on a new terminal: `ab` is streamed, a timer fires, `c` is added while
the cycle is active, and three more timers fire; then `abc` has been printed
and the queue holds no text.  After the first timer only `ab` has been printed
and `c` waits. -/
theorem C19_fifo_order_witness :
    emittedText (Terminal.initial.run
        [.stream [.plain "ab".toList], .tick 0, .addText "c".toList, .tick 0, .tick 0,
         .tick 0]).trace = "abc".toList ∧
    emittedText (Terminal.initial.run
        [.stream [.plain "ab".toList], .tick 0, .addText "c".toList]).trace ++
      queueText (Terminal.initial.run
        [.stream [.plain "ab".toList], .tick 0, .addText "c".toList]).__toPrint
      = "abc".toList :=
  ⟨(C19_fifo_order Terminal.initial
      [.stream [.plain "ab".toList], .tick 0, .addText "c".toList, .tick 0, .tick 0, .tick 0]
      (by decide)).2.2 rfl,
   (C19_fifo_order Terminal.initial
      [.stream [.plain "ab".toList], .tick 0, .addText "c".toList] (by decide)).1⟩

/-- C20: a run of `__animateToPrint()` that finds a string at the front prints
its first visual unit and asks for the next run after `characterDelay`,
leaving the rest of the string at the front, or the marker `undefined` when
nothing is left; a run that finds the marker prints nothing, removes it and
asks for the next run after `lineDelay`.  So on an idle terminal with the
animation enabled, `stream(['abc', 'def'])` followed by eight timers prints
`a`, `b`, `c`, `d`, `e`, `f` in this order, each followed by a wait of
`characterDelay`, with one wait of `lineDelay` between `c` and `d` and one
after `f`, and none between `a`, `b` and `c`. -/
theorem C20_two_phase_exhaustion (t : Terminal) :
    (∀ (next : JSString) (rest : List (Option OutputUnit)), next ≠ [] →
      t.__toPrint = some (.plain next) :: rest →
      t.__animateToPrint.trace =
        t.trace ++ [.addText (next.take (visualUnitEnd next)), .setTimeout .character] ∧
      t.__animateToPrint.timers = t.timers ++ [.character] ∧
      t.__animateToPrint.__toPrint =
        (if next.drop (visualUnitEnd next) = [] then none
          else some (.plain (next.drop (visualUnitEnd next)))) :: rest) ∧
    (∀ rest : List (Option OutputUnit), t.__toPrint = none :: rest →
      t.__animateToPrint.trace = t.trace ++ [.setTimeout .line] ∧
      t.__animateToPrint.timers = t.timers ++ [.line] ∧
      t.__animateToPrint.__toPrint = rest) ∧
    (¬ (t.characterDelay = 0 ∧ t.lineDelay = 0) → t.__toPrint = [] → t.__animating = false →
      t.timers = [] →
      ((t.stream [.plain "abc".toList, .plain "def".toList]).run
          [.tick 0, .tick 0, .tick 0, .tick 0, .tick 0, .tick 0, .tick 0, .tick 0]).trace =
        t.trace ++
          [.addText "a".toList, .setTimeout .character,
           .addText "b".toList, .setTimeout .character,
           .addText "c".toList, .setTimeout .character, .setTimeout .line,
           .addText "d".toList, .setTimeout .character,
           .addText "e".toList, .setTimeout .character,
           .addText "f".toList, .setTimeout .character, .setTimeout .line]) := by
  refine ⟨?_, ?_, ?_⟩
  · intro next rest hne hq
    rw [animateToPrint_plain t next rest hne hq]
    refine ⟨?_, rfl, rfl⟩
    simp only [List.append_assoc, List.singleton_append]
  · intro rest hq
    rw [animateToPrint_marker t rest hq]
    exact ⟨rfl, rfl, rfl⟩
  · intro henabled hq ha ht
    have hen := (animationDisabled_false_iff t).mpr henabled
    obtain ⟨cd, ld, q, an, hooks, buf, timers, hcalls, tr⟩ := t
    simp only at hq ha ht
    subst hq ha ht
    rw [stream_enabled _ _ hen]
    simp [Terminal.run, Terminal.act, Terminal.tick, Terminal.__animateToPrint,
      Terminal.animateToPrintFuel, Terminal.__addTextForce, visualUnitEnd, ESC]

/-- C20 on a new terminal: the run that prints `c`, the last character of the
front unit, leaves the marker; the run that finds the marker removes it and
waits `lineDelay`; and the whole scenario of the queue `abc`, `def`. -/
theorem C20_two_phase_exhaustion_witness :
    (Terminal.__animateToPrint { Terminal.initial with
        __toPrint := [some (.plain "c".toList), some (.plain "def".toList)] }).__toPrint =
      [none, some (.plain "def".toList)] ∧
    (Terminal.__animateToPrint { Terminal.initial with
        __toPrint := [none, some (.plain "def".toList)] }).trace = [.setTimeout .line] ∧
    ((Terminal.initial.stream [.plain "abc".toList, .plain "def".toList]).run
        [.tick 0, .tick 0, .tick 0, .tick 0, .tick 0, .tick 0, .tick 0, .tick 0]).trace =
      [.addText "a".toList, .setTimeout .character,
       .addText "b".toList, .setTimeout .character,
       .addText "c".toList, .setTimeout .character, .setTimeout .line,
       .addText "d".toList, .setTimeout .character,
       .addText "e".toList, .setTimeout .character,
       .addText "f".toList, .setTimeout .character, .setTimeout .line] :=
  ⟨((C20_two_phase_exhaustion { Terminal.initial with
        __toPrint := [some (.plain "c".toList), some (.plain "def".toList)] }).1
      "c".toList [some (.plain "def".toList)] (by decide) rfl).2.2,
   ((C20_two_phase_exhaustion { Terminal.initial with
        __toPrint := [none, some (.plain "def".toList)] }).2.1
      [some (.plain "def".toList)] rfl).1,
   (C20_two_phase_exhaustion Terminal.initial).2.2 (by decide) rfl rfl rfl⟩

/-! ## Code lists one after the other -/

theorem mergedOnto_setKey (base : ElementTheme) (s1 s2 : EscapeState) (isBg : Bool)
    (v : JSString) (h : MergedOnto base s1.theme s2.theme) :
    MergedOnto base (s1.setKey isBg v).theme (s2.setKey isBg v).theme := by
  obtain ⟨h1, h2, h3, h4, h5, h6⟩ := h
  cases isBg
  · refine ⟨?_, ?_, ?_, h4, h5, h6⟩
    · simpa [EscapeState.setKey, Theme.mergeThemes] using h1
    · simp [EscapeState.setKey, Theme.mergeThemes]
    · simpa [EscapeState.setKey, Theme.mergeThemes] using h3
  · refine ⟨?_, ?_, ?_, h4, h5, h6⟩
    · simp [EscapeState.setKey, Theme.mergeThemes]
    · simpa [EscapeState.setKey, Theme.mergeThemes] using h2
    · simpa [EscapeState.setKey, Theme.mergeThemes] using h3

/-- One iteration of the validation loop either throws whatever the state, or
succeeds whatever the state and whatever follows the codes it has read, with
an effect on the state that keeps themes related. -/
theorem applyCode_uniform (cmd : Nat) (rest : List Nat) :
    (∀ st, ∃ e, EscapeCSS.applyCode cmd rest st = .error e) ∨
    (∃ (k : Nat) (f : EscapeState → EscapeState), k ≤ rest.length ∧
      (∀ st B, EscapeCSS.applyCode cmd (rest ++ B) st = .ok (f st, k)) ∧
      (∀ base s1 s2, MergedOnto base s1.theme s2.theme →
        MergedOnto base (f s1).theme (f s2).theme)) := by
  by_cases h0 : cmd = 0
  · right
    refine ⟨0, fun st => { st with theme := Theme.default }, Nat.zero_le _, ?_, ?_⟩
    · intro st B; simp [EscapeCSS.applyCode, h0]
    · intro base s1 s2 h
      obtain ⟨_, _, _, _, _, hb⟩ := h
      simp [MergedOnto, Theme.mergeThemes, Theme.default, hb]
  by_cases h39 : cmd = 39
  · right
    refine ⟨0, fun st => { st with theme := { st.theme with fg := .str Theme.defaultFg } },
      Nat.zero_le _, ?_, ?_⟩
    · intro st B; simp [EscapeCSS.applyCode, h39]
    · intro base s1 s2 h
      obtain ⟨h1, h2, h3, h4, h5, h6⟩ := h
      refine ⟨?_, ?_, ?_, h4, h5, h6⟩
      · simpa [Theme.mergeThemes] using h1
      · simp [Theme.mergeThemes]
      · simpa [Theme.mergeThemes] using h3
  by_cases h49 : cmd = 49
  · right
    refine ⟨0, fun st => { st with theme := { st.theme with bg := .str Theme.defaultBg } },
      Nat.zero_le _, ?_, ?_⟩
    · intro st B; simp [EscapeCSS.applyCode, h49]
    · intro base s1 s2 h
      obtain ⟨h1, h2, h3, h4, h5, h6⟩ := h
      refine ⟨?_, ?_, ?_, h4, h5, h6⟩
      · simp [Theme.mergeThemes]
      · simpa [Theme.mergeThemes] using h2
      · simpa [Theme.mergeThemes] using h3
  by_cases hsub : cmd = 38 ∨ cmd = 48
  · cases rest with
    | nil =>
      left; intro st
      exact ⟨.unsupportedSequence, by simp [EscapeCSS.applyCode, h0, h39, h49, hsub, EscapeCSS.__err]⟩
    | cons arg rest1 =>
      by_cases ha5 : arg = 5
      · subst ha5
        cases rest1 with
        | nil =>
          left; intro st
          exact ⟨.unsupportedSequence,
            by simp [EscapeCSS.applyCode, h0, h39, h49, hsub, EscapeCSS.__err]⟩
        | cons n rest2 =>
          by_cases hn7 : n ≤ 7
          · cases hcls : Theme.ansiToCSSClass ((cmd : Int) - 8 + n) with
            | error e =>
              left; intro st
              exact ⟨e, by simp [EscapeCSS.applyCode, h0, h39, h49, hsub, hn7, hcls]⟩
            | ok cls =>
              right
              refine ⟨2, fun st => st.setKey (decide (cmd = 48)) cls, by simp, ?_, ?_⟩
              · intro st B
                simp [EscapeCSS.applyCode, h0, h39, h49, hsub, hn7, hcls]
              · intro base s1 s2 h
                exact mergedOnto_setKey base s1 s2 _ cls h
          · by_cases hn15 : 8 ≤ n ∧ n ≤ 15
            · cases hcls : Theme.ansiToCSSClass ((cmd : Int) + 52 + n) with
              | error e =>
                left; intro st
                exact ⟨e, by simp [EscapeCSS.applyCode, h0, h39, h49, hsub, hn7, hn15, hcls]⟩
              | ok cls =>
                right
                refine ⟨2, fun st => st.setKey (decide (cmd = 48)) cls, by simp, ?_, ?_⟩
                · intro st B
                  simp [EscapeCSS.applyCode, h0, h39, h49, hsub, hn7, hn15, hcls]
                · intro base s1 s2 h
                  exact mergedOnto_setKey base s1 s2 _ cls h
            · by_cases hn255 : 16 ≤ n ∧ n ≤ 255
              · cases hcube : Theme.ansiCubeToCSSColor (n : Int) with
                | error e =>
                  left; intro st
                  exact ⟨e, by
                    simp [EscapeCSS.applyCode, h0, h39, h49, hsub, hn7, hn15, hn255, hcube]⟩
                | ok cube =>
                  right
                  refine ⟨2, fun st => st.setKey (decide (cmd = 48))
                    ((if decide (cmd = 48) = true then Theme.BG_CLASS_PREFIX
                      else Theme.FG_CLASS_PREFIX) ++ cube), by simp, ?_, ?_⟩
                  · intro st B
                    simp [EscapeCSS.applyCode, h0, h39, h49, hsub, hn7, hn15, hn255, hcube]
                  · intro base s1 s2 h
                    exact mergedOnto_setKey base s1 s2 _ _ h
              · left; intro st
                exact ⟨.unsupportedSequence, by
                  simp [EscapeCSS.applyCode, h0, h39, h49, hsub, hn7, hn15, hn255,
                    EscapeCSS.__err]⟩
      · by_cases ha2 : arg = 2
        · subst ha2
          cases rest1 with
          | nil =>
            left; intro st
            exact ⟨.unsupportedSequence,
              by simp [EscapeCSS.applyCode, h0, h39, h49, hsub, EscapeCSS.__err]⟩
          | cons r rest2 =>
            cases rest2 with
            | nil =>
              left; intro st
              exact ⟨.unsupportedSequence,
                by simp [EscapeCSS.applyCode, h0, h39, h49, hsub, EscapeCSS.__err]⟩
            | cons g rest3 =>
              cases rest3 with
              | nil =>
                left; intro st
                exact ⟨.unsupportedSequence,
                  by simp [EscapeCSS.applyCode, h0, h39, h49, hsub, EscapeCSS.__err]⟩
              | cons b rest4 =>
                by_cases hz : r = 0 ∨ g = 0 ∨ b = 0
                · left; intro st
                  exact ⟨.unsupportedSequence,
                    by simp [EscapeCSS.applyCode, h0, h39, h49, hsub, hz, EscapeCSS.__err]⟩
                · right
                  refine ⟨4, fun st => { st with style := .str (st.style.toText ++
                    ((if decide (cmd = 48) = true then "background-".toList else []) ++
                      "color: rgb(".toList ++ codeToString r ++ ", ".toList ++ codeToString g
                      ++ ", ".toList ++ codeToString b ++ ");".toList)) }, by simp, ?_, ?_⟩
                  · intro st B
                    simp [EscapeCSS.applyCode, h0, h39, h49, hsub, hz]
                  · intro base s1 s2 h
                    exact h
        · left; intro st
          exact ⟨.unsupportedSequence,
            by simp [EscapeCSS.applyCode, h0, h39, h49, hsub, ha5, ha2, EscapeCSS.__err]⟩
  · cases hcls : Theme.ansiToCSSClass (cmd : Int) with
    | error e =>
      left; intro st
      refine ⟨.unsupportedSequence, ?_⟩
      have h38 : cmd ≠ 38 := fun h => hsub (Or.inl h)
      have h48 : cmd ≠ 48 := fun h => hsub (Or.inr h)
      simp [EscapeCSS.applyCode, h0, h39, h49, h38, h48, hcls, EscapeCSS.__err]
    | ok cls =>
      right
      have h38 : cmd ≠ 38 := fun h => hsub (Or.inl h)
      have h48 : cmd ≠ 48 := fun h => hsub (Or.inr h)
      refine ⟨0, fun st => st.setKey false cls, Nat.zero_le _, ?_, ?_⟩
      · intro st B
        simp [EscapeCSS.applyCode, h0, h39, h49, h38, h48, hcls]
      · intro base s1 s2 h
        exact mergedOnto_setKey base s1 s2 _ cls h

/-- Codes that are applied successfully are applied in the same way when more
codes follow them. -/
theorem applyCodes_append (n : Nat) : ∀ (A B : List Nat) (st sA : EscapeState),
    A.length ≤ n → EscapeCSS.applyCodes A st = .ok sA →
    EscapeCSS.applyCodes (A ++ B) st = EscapeCSS.applyCodes B sA := by
  induction n with
  | zero =>
    intro A B st sA hlen h
    have hnil : A = [] := List.length_eq_zero.mp (by omega)
    subst hnil
    rw [applyCodes_nil] at h
    cases h
    rfl
  | succ n ih =>
    intro A B st sA hlen h
    cases A with
    | nil =>
      rw [applyCodes_nil] at h
      cases h
      rfl
    | cons cmd rest =>
      simp only [List.length_cons] at hlen
      rw [applyCodes_cons] at h
      rw [List.cons_append, applyCodes_cons]
      rcases applyCode_uniform cmd rest with herr | ⟨k, f, hk, hok, -⟩
      · obtain ⟨e, he⟩ := herr st
        rw [he] at h
        cases h
      · have h1 := hok st []
        rw [List.append_nil] at h1
        rw [h1] at h
        rw [hok st B]
        simp only at h ⊢
        rw [List.drop_append_of_le_length hk]
        exact ih _ B _ sA (by simp only [List.length_drop]; omega) h

/-- The theme reached by a code list from a theme `base` is the theme it
reaches from the initial theme, merged onto `base`. -/
theorem applyCodes_mergedOnto (n : Nat) : ∀ (B : List Nat) (base : ElementTheme)
    (s1 s2 sB : EscapeState), B.length ≤ n → MergedOnto base s1.theme s2.theme →
    EscapeCSS.applyCodes B s2 = .ok sB →
    ∃ s, EscapeCSS.applyCodes B s1 = .ok s ∧ MergedOnto base s.theme sB.theme := by
  induction n with
  | zero =>
    intro B base s1 s2 sB hlen hrel h
    have hnil : B = [] := List.length_eq_zero.mp (by omega)
    subst hnil
    rw [applyCodes_nil] at h
    cases h
    exact ⟨s1, rfl, hrel⟩
  | succ n ih =>
    intro B base s1 s2 sB hlen hrel h
    cases B with
    | nil =>
      rw [applyCodes_nil] at h
      cases h
      exact ⟨s1, rfl, hrel⟩
    | cons cmd rest =>
      simp only [List.length_cons] at hlen
      rw [applyCodes_cons] at h ⊢
      rcases applyCode_uniform cmd rest with herr | ⟨k, f, hk, hok, hf⟩
      · obtain ⟨e, he⟩ := herr s2
        rw [he] at h
        cases h
      · have h1 := hok s1 []
        have h2 := hok s2 []
        rw [List.append_nil] at h1 h2
        rw [h2] at h
        rw [h1]
        simp only at h ⊢
        exact ih _ base _ _ sB (by simp only [List.length_drop]; omega) (hf base s1 s2 hrel) h

/-- The text of two code lists one after the other is their texts joined by a
`;`. -/
theorem sgrBody_append (A B : List Nat) (hA : A ≠ []) (hB : B ≠ []) :
    sgrBody (A ++ B) = sgrBody A ++ ';' :: sgrBody B := by
  induction A with
  | nil => exact absurd rfl hA
  | cons a rest ih =>
    cases rest with
    | nil =>
      obtain ⟨b, B2, rfl⟩ := List.exists_cons_of_ne_nil hB
      rfl
    | cons a2 rest2 =>
      have h := ih (by simp)
      rw [List.cons_append] at h
      rw [List.cons_append, List.cons_append]
      simp only [sgrBody, h, List.append_assoc, List.cons_append]

/-- What a successful parse of a code list says of the validation loop. -/
theorem applyCodes_of_new_sgrBody (A : List Nat) (r : EscapeCSS)
    (h : EscapeCSS.new (sgr (sgrBody A)) = .ok r) :
    A ≠ [] ∧ EscapeCSS.applyCodes A { theme := EscapeCSS.initialTheme, style := .undefined }
      = .ok { theme := r.theme, style := r.style } := by
  have hne : A ≠ [] := by
    rintro rfl
    have : EscapeCSS.new (sgr (sgrBody [])) = .error .unsupportedSequence := rfl
    rw [this] at h
    cases h
  refine ⟨hne, ?_⟩
  have hs : sgr (sgrBody A) = ESC :: '[' :: (sgrBody A ++ 'm' :: []) := rfl
  rw [hs, new_sgrBody A hne []] at h
  split at h
  · cases h
  · rename_i st hst
    simp only [Except.ok.injEq] at h
    subst h
    exact hst

/-- C11: when `ESC[A m` and `ESC[B m` both parse, `ESC[A;B m` parses and its
theme has the fields `bg`, `fg`, `font` and `style` of
`Theme.mergeThemes(theme of A, theme of B)`: a later code overrides an earlier
one on the same field.  And `ESC[A;0m` parses to the default theme: the code 0
discards what the codes before it did. -/
theorem C11_left_to_right (A B : List Nat) (rA rB : EscapeCSS)
    (hA : EscapeCSS.new (sgr (sgrBody A)) = .ok rA)
    (hB : EscapeCSS.new (sgr (sgrBody B)) = .ok rB) :
    sgrBody (A ++ B) = sgrBody A ++ ';' :: sgrBody B ∧
    (∃ r, EscapeCSS.new (sgr (sgrBody (A ++ B))) = .ok r ∧
      r.theme.bg = (Theme.mergeThemes rA.theme rB.theme).bg ∧
      r.theme.fg = (Theme.mergeThemes rA.theme rB.theme).fg ∧
      r.theme.font = (Theme.mergeThemes rA.theme rB.theme).font ∧
      r.theme.style = (Theme.mergeThemes rA.theme rB.theme).style) ∧
    (∃ r0, EscapeCSS.new (sgr (sgrBody (A ++ [0]))) = .ok r0 ∧ r0.theme = Theme.default) := by
  obtain ⟨hAne, hAc⟩ := applyCodes_of_new_sgrBody A rA hA
  obtain ⟨hBne, hBc⟩ := applyCodes_of_new_sgrBody B rB hB
  have hinit : MergedOnto EscapeCSS.initialTheme EscapeCSS.initialTheme EscapeCSS.initialTheme :=
    ⟨rfl, rfl, rfl, rfl, rfl, rfl⟩
  -- no code list sets a `style`
  obtain ⟨sA2, hA2, hrelA⟩ := applyCodes_mergedOnto _ A EscapeCSS.initialTheme
    { theme := EscapeCSS.initialTheme, style := .undefined }
    { theme := EscapeCSS.initialTheme, style := .undefined } _ (le_refl _) hinit hAc
  rw [hAc] at hA2
  simp only [Except.ok.injEq] at hA2
  subst hA2
  have hAstyle : rA.theme.style = .undefined := hrelA.2.2.2.1
  have hrel0 : MergedOnto rA.theme rA.theme EscapeCSS.initialTheme :=
    ⟨rfl, rfl, rfl, hAstyle, rfl, hAstyle⟩
  obtain ⟨s, hs, hrel⟩ := applyCodes_mergedOnto _ B rA.theme
    { theme := rA.theme, style := rA.style }
    { theme := EscapeCSS.initialTheme, style := .undefined } _ (le_refl _) hrel0 hBc
  refine ⟨sgrBody_append A B hAne hBne, ?_, ?_⟩
  · have htext : sgr (sgrBody (A ++ B)) = ESC :: '[' :: (sgrBody (A ++ B) ++ 'm' :: []) := rfl
    rw [htext, new_sgrBody (A ++ B) (by simp [hAne]) [],
      applyCodes_append _ A B _ _ (le_refl _) hAc, hs]
    refine ⟨_, rfl, hrel.1, hrel.2.1, hrel.2.2.1, ?_⟩
    show s.theme.style = _
    have hBstyle : rB.theme.style = .undefined := hrel.2.2.2.2.1
    rw [hrel.2.2.2.1]
    simp [Theme.mergeThemes, hBstyle, hAstyle]
  · have htext : sgr (sgrBody (A ++ [0])) = ESC :: '[' :: (sgrBody (A ++ [0]) ++ 'm' :: []) := rfl
    rw [htext, new_sgrBody (A ++ [0]) (by simp) [],
      applyCodes_append _ A [0] _ _ (le_refl _) hAc]
    exact ⟨_, rfl, rfl⟩

/-- C11 on `ESC[31m` and `ESC[32m`: `ESC[31;32m` has the green foreground. -/
theorem C11_left_to_right_witness :
    ∃ r, EscapeCSS.new (sgr "31;32".toList) = .ok r ∧
      r.theme.fg = .str "term-fg-green".toList :=
  (C11_left_to_right [31] [32]
    { codes := [31], theme := { EscapeCSS.initialTheme with fg := .str "term-fg-red".toList },
      style := .undefined, seq := [] }
    { codes := [32], theme := { EscapeCSS.initialTheme with fg := .str "term-fg-green".toList },
      style := .undefined, seq := [] } rfl rfl).2.1.imp
    (fun _ h => ⟨h.1, h.2.2.1⟩)

/-! ## Observers -/

/-- C22: a call of `__addTextForce(text)` calls every function of
`addTextHooks` once, in the order of the list, each with the text that was
passed to the call, whatever the loop has made of its working copy. -/
theorem C22_observers_called_once (t : Terminal) (text : JSString) :
    (t.__addTextForce text).hookCalls =
      t.hookCalls ++ t.addTextHooks.map (fun h => (h, text)) ∧
    ((t.__addTextForce text).hookCalls.drop t.hookCalls.length).map Prod.fst = t.addTextHooks ∧
    (∀ call ∈ (t.__addTextForce text).hookCalls.drop t.hookCalls.length, call.2 = text) ∧
    (t.__addTextForce text).addTextHooks = t.addTextHooks := by
  have hcalls : (t.__addTextForce text).hookCalls =
      t.hookCalls ++ t.addTextHooks.map (fun h => (h, text)) := rfl
  rw [hcalls, List.drop_left]
  refine ⟨rfl, ?_, ?_, rfl⟩
  · rw [List.map_map]
    exact List.map_id _
  · intro call hcall
    obtain ⟨h, -, rfl⟩ := List.mem_map.mp hcall
    rfl

/-- C22 on a terminal with the observers 7 and 9 and a text with an escape
sequence: the buffer holds the parsed text and both observers receive the
text as it was passed. -/
theorem C22_observers_called_once_witness :
    (Terminal.__addTextForce { Terminal.initial with addTextHooks := [7, 9] }
        "\x1b[31mHi".toList).hookCalls =
      [(7, "\x1b[31mHi".toList), (9, "\x1b[31mHi".toList)] ∧
    (Terminal.__addTextForce { Terminal.initial with addTextHooks := [7, 9] }
        "\x1b[31mHi".toList).buffer.nodes =
      [.span ["term-bg-black".toList, "term-fg-red".toList, "term-font".toList] "Hi".toList] :=
  ⟨(C22_observers_called_once { Terminal.initial with addTextHooks := [7, 9] }
      "\x1b[31mHi".toList).1, rfl⟩

/-! ## Indexed and RGB colours -/

/-- C23: for `n` in `0..7`, `ESC[38;5;n m` parses to the theme of
`ESC[(30+n) m`, the foreground class of the colour `COLORS[n]`; and
`ESC[48;5;n m` parses to a theme whose background is the class
`term-bg-` of `COLORS[n]` and whose foreground, font and style are not set. -/
theorem C23_named_colours_by_index (n : Nat) (hn : n ≤ 7) :
    (∃ r1 r2, EscapeCSS.new (sgr ("38;5;".toList ++ decimal n)) = .ok r1 ∧
      EscapeCSS.new (sgr (decimal (30 + n))) = .ok r2 ∧ r1.theme = r2.theme ∧
      r1.theme = { EscapeCSS.initialTheme with
        fg := .str ("term-fg-".toList ++ (COLORS.getD n []).map Char.toLower) } ∧
      r1.style = .undefined ∧ r1.seq = []) ∧
    (∃ r, EscapeCSS.new (sgr ("48;5;".toList ++ decimal n)) = .ok r ∧
      r.theme.bg = .str ("term-bg-".toList ++ (COLORS.getD n []).map Char.toLower) ∧
      r.theme.fg = .undefined ∧ r.theme.font = .undefined ∧ r.theme.style = .undefined ∧
      r.style = .undefined ∧ r.seq = []) := by
  interval_cases n <;>
    exact ⟨⟨_, _, rfl, rfl, rfl, rfl, rfl, rfl⟩, ⟨_, rfl, rfl, rfl, rfl, rfl, rfl, rfl⟩⟩

/-- C23 at `n = 1`: `ESC[38;5;1m` and `ESC[31m` both give the red foreground,
and `ESC[48;5;1m` gives the red background. -/
theorem C23_named_colours_by_index_witness :
    (∃ r1 r2, EscapeCSS.new "\x1b[38;5;1m".toList = .ok r1 ∧
      EscapeCSS.new "\x1b[31m".toList = .ok r2 ∧ r1.theme = r2.theme ∧
      r1.theme = { EscapeCSS.initialTheme with fg := .str "term-fg-red".toList } ∧
      r1.style = .undefined ∧ r1.seq = []) ∧
    (∃ r, EscapeCSS.new "\x1b[48;5;1m".toList = .ok r ∧
      r.theme.bg = .str "term-bg-red".toList ∧
      r.theme.fg = .undefined ∧ r.theme.font = .undefined ∧ r.theme.style = .undefined ∧
      r.style = .undefined ∧ r.seq = []) :=
  C23_named_colours_by_index 1 (by decide)

theorem applyCode_rgb_rejected (cmd : Nat) (hcmd : cmd = 38 ∨ cmd = 48) (comps : List Nat)
    (hbad : comps.length < 3 ∨ 0 ∈ comps.take 3) (st : EscapeState) :
    EscapeCSS.applyCode cmd (2 :: comps) st = .error .unsupportedSequence := by
  match comps, hbad with
  | [], _ => rcases hcmd with rfl | rfl <;> rfl
  | [_], _ => rcases hcmd with rfl | rfl <;> rfl
  | [_, _], _ => rcases hcmd with rfl | rfl <;> rfl
  | r :: g :: b :: tl, hbad =>
    have h0 : r = 0 ∨ g = 0 ∨ b = 0 := by
      rcases hbad with h | h
      · simp only [List.length_cons] at h
        omega
      · simp only [List.take_succ_cons, List.take_zero, List.mem_cons, List.mem_nil_iff,
          or_false] at h
        rcases h with h | h | h
        · exact Or.inl h.symm
        · exact Or.inr (Or.inl h.symm)
        · exact Or.inr (Or.inr h.symm)
    rcases hcmd with rfl | rfl <;>
      simp [EscapeCSS.applyCode, h0, EscapeCSS.__err]

/-- C24: where the validation loop reaches a code 38 or 48 that is followed by
2, the constructor throws `Unsupported escape sequence` when fewer than three
codes follow the 2 or one of the first three is 0.  The codes `A` before the
38 or 48 are any list that the loop applies without throwing, so that the 38
or 48 is read as a code and not as the argument of another. -/
theorem C24_rgb_component_absent_or_zero (cmd : Nat) (hcmd : cmd = 38 ∨ cmd = 48)
    (A comps : List Nat) (sA : EscapeState) (rest : JSString)
    (hA : EscapeCSS.applyCodes A { theme := EscapeCSS.initialTheme, style := .undefined }
      = .ok sA)
    (hbad : comps.length < 3 ∨ 0 ∈ comps.take 3) :
    EscapeCSS.new (ESC :: '[' :: (sgrBody (A ++ cmd :: 2 :: comps) ++ 'm' :: rest)) =
      .error .unsupportedSequence := by
  rw [new_sgrBody _ (by simp) rest, applyCodes_append A.length A _ _ sA (le_refl _) hA,
    applyCodes_cons, applyCode_rgb_rejected cmd hcmd comps hbad sA]

/-- C24 on the sequences `ESC[38;2;0;10;10m` (a component 0),
`ESC[38;2;10;10m` (a component absent) and `ESC[31;48;2;10;10;0m` (after
another code). -/
theorem C24_rgb_component_absent_or_zero_witness :
    EscapeCSS.new "\x1b[38;2;0;10;10m".toList = .error .unsupportedSequence ∧
    EscapeCSS.new "\x1b[38;2;10;10m".toList = .error .unsupportedSequence ∧
    EscapeCSS.new "\x1b[31;48;2;10;10;0m".toList = .error .unsupportedSequence :=
  ⟨C24_rgb_component_absent_or_zero 38 (Or.inl rfl) [] [0, 10, 10] _ [] rfl (by decide),
   C24_rgb_component_absent_or_zero 38 (Or.inl rfl) [] [10, 10] _ [] rfl (by decide),
   C24_rgb_component_absent_or_zero 48 (Or.inr rfl) [31] [10, 10, 0] _ [] rfl (by decide)⟩

/-! ## The errors the constructor can throw -/

/-- Every entry of `COLORS`, alone and after `Bright`, is a palette key. -/
theorem paletteToCSSColor_colors (i : Nat) (hi : i ≤ 7) :
    (∃ v, Theme.paletteToCSSColor (COLORS.getD i []) = .ok v) ∧
    (∃ v, Theme.paletteToCSSColor ("Bright".toList ++ COLORS.getD i []) = .ok v) := by
  interval_cases i <;> exact ⟨⟨_, rfl⟩, ⟨_, rfl⟩⟩

/-- The only error of `ansiToCSSColor(c)` is its own. -/
theorem ansiToCSSColor_error (c : Int) (e : JSError) (h : Theme.ansiToCSSColor c = .error e) :
    e = .invalidAnsiColor c := by
  unfold Theme.ansiToCSSColor at h
  split at h
  · rename_i hr
    simp only [Theme.isAnsiDarkFg, Bool.and_eq_true, decide_eq_true_eq] at hr
    obtain ⟨v, hv⟩ := (paletteToCSSColor_colors (c - 30).toNat (by omega)).1
    rw [colorAt, hv] at h
    cases h
  · split at h
    · rename_i hr
      simp only [Theme.isAnsiDarkBg, Bool.and_eq_true, decide_eq_true_eq] at hr
      obtain ⟨v, hv⟩ := (paletteToCSSColor_colors (c - 40).toNat (by omega)).1
      rw [colorAt, hv] at h
      cases h
    · split at h
      · rename_i hr
        simp only [Theme.isAnsiBrightFg, Bool.and_eq_true, decide_eq_true_eq] at hr
        obtain ⟨v, hv⟩ := (paletteToCSSColor_colors (c - 90).toNat (by omega)).2
        rw [colorAt, hv] at h
        cases h
      · split at h
        · rename_i hr
          simp only [Theme.isAnsiBrightBg, Bool.and_eq_true, decide_eq_true_eq] at hr
          obtain ⟨v, hv⟩ := (paletteToCSSColor_colors (c - 100).toNat (by omega)).2
          rw [colorAt, hv] at h
          cases h
        · simp only [Except.error.injEq] at h
          exact h.symm

/-- The only error of `ansiToCSSClass(c)` is that of `ansiToCSSColor(c)`. -/
theorem ansiToCSSClass_error (c : Int) (e : JSError) (h : Theme.ansiToCSSClass c = .error e) :
    e = .invalidAnsiColor c := by
  unfold Theme.ansiToCSSClass at h
  simp only at h
  split at h
  · rename_i e2 he
    simp only [Except.error.injEq] at h
    subst h
    exact ansiToCSSColor_error c _ he
  · cases h

/-- An iteration of the validation loop throws `Unsupported escape sequence`
or `Invalid ANSI color`, nothing else. -/
theorem applyCode_error_kind (cmd : Nat) (rest : List Nat) (st : EscapeState) (e : JSError)
    (h : EscapeCSS.applyCode cmd rest st = .error e) :
    e = .unsupportedSequence ∨ ∃ c, e = .invalidAnsiColor c := by
  unfold EscapeCSS.applyCode at h
  simp only [EscapeCSS.__err] at h
  repeat' split at h
  all_goals try cases h
  all_goals first
    | exact Or.inl rfl
    | exact Or.inr ⟨_, ansiToCSSClass_error _ _ (by assumption)⟩
    | (rename_i hn _ he
       rw [ansiCubeToCSSColor_ok _ hn.1 hn.2] at he
       cases he)

/-- The validation loop throws `Unsupported escape sequence` or
`Invalid ANSI color`, nothing else. -/
theorem applyCodes_error_kind (n : Nat) : ∀ (codes : List Nat) (st : EscapeState) (e : JSError),
    codes.length ≤ n → EscapeCSS.applyCodes codes st = .error e →
    e = .unsupportedSequence ∨ ∃ c, e = .invalidAnsiColor c := by
  induction n with
  | zero =>
    intro codes st e hlen h
    have hnil : codes = [] := List.length_eq_zero.mp (by omega)
    subst hnil
    rw [applyCodes_nil] at h
    cases h
  | succ n ih =>
    intro codes st e hlen h
    cases codes with
    | nil =>
      rw [applyCodes_nil] at h
      cases h
    | cons cmd rest =>
      simp only [List.length_cons] at hlen
      rw [applyCodes_cons] at h
      split at h
      · rename_i e2 he
        simp only [Except.error.injEq] at h
        subst h
        exact applyCode_error_kind cmd rest st _ he
      · exact ih _ _ e (by simp only [List.length_drop]; omega) h

/-- The constructor throws `Unsupported escape sequence` or
`Invalid ANSI color`, nothing else. -/
theorem new_error_kind (s : JSString) (e : JSError) (h : EscapeCSS.new s = .error e) :
    e = .unsupportedSequence ∨ ∃ c, e = .invalidAnsiColor c := by
  by_cases hi : jsLength s < 4 ∨ s.head? ≠ some ESC ∨ s.get? 1 ≠ some '['
  · rw [new_of_not_introducer s hi] at h
    cases h
    exact Or.inl rfl
  · obtain ⟨t, rfl, hlen⟩ := introducer_shape s hi
    rw [new_of_introducer t hlen] at h
    split at h
    · rename_i e2 he
      simp only [Except.error.injEq] at h
      subst h
      exact Or.inl (scan_error_kind _ _ _ _ (le_refl _) he)
    · split at h
      · rename_i e2 he
        simp only [Except.error.injEq] at h
        subst h
        exact applyCodes_error_kind _ _ _ _ (le_refl _) he
      · cases h

/-- C25: the error `Invalid palette color` cannot come out of the parser.
The names that `ansiToCSSColor` hands to `paletteToCSSColor` are `COLORS[i]`
and `Bright` followed by `COLORS[i]` with `i` in `0..7`, the sixteen palette
keys, for which `paletteToCSSColor` returns; so `ansiToCSSColor` and
`ansiToCSSClass` throw nothing but `Invalid ANSI color`, on any number, and on
every string `s` the constructor returns or throws
`Unsupported escape sequence` or `Invalid ANSI color`. -/
theorem C25_palette_error_unreachable (s : JSString) :
    (∀ i : Nat, i ≤ 7 →
      (∃ v, Theme.paletteToCSSColor (COLORS.getD i []) = .ok v) ∧
      (∃ v, Theme.paletteToCSSColor ("Bright".toList ++ COLORS.getD i []) = .ok v)) ∧
    (∀ c : Int,
      (Theme.isAnsiDarkFg c = true → colorAt (c - 30) ∈ COLORS) ∧
      (Theme.isAnsiDarkBg c = true → colorAt (c - 40) ∈ COLORS) ∧
      (Theme.isAnsiBrightFg c = true → colorAt (c - 90) ∈ COLORS) ∧
      (Theme.isAnsiBrightBg c = true → colorAt (c - 100) ∈ COLORS)) ∧
    (∀ (c : Int) (k : JSString),
      Theme.ansiToCSSColor c ≠ .error (.invalidPaletteColor k) ∧
      Theme.ansiToCSSClass c ≠ .error (.invalidPaletteColor k)) ∧
    ((∃ r, EscapeCSS.new s = .ok r) ∨ EscapeCSS.new s = .error .unsupportedSequence ∨
      ∃ c, EscapeCSS.new s = .error (.invalidAnsiColor c)) ∧
    (∀ k : JSString, EscapeCSS.new s ≠ .error (.invalidPaletteColor k)) := by
  refine ⟨paletteToCSSColor_colors, ?_, ?_, ?_, ?_⟩
  · intro c
    simp only [Theme.isAnsiDarkFg, Theme.isAnsiDarkBg, Theme.isAnsiBrightFg,
      Theme.isAnsiBrightBg, Bool.and_eq_true, decide_eq_true_eq]
    have hmem : ∀ i : Nat, i ≤ 7 → COLORS.getD i [] ∈ COLORS := by
      intro i hi
      interval_cases i <;> decide
    refine ⟨?_, ?_, ?_, ?_⟩ <;> intro h <;> exact hmem _ (by omega)
  · intro c k
    constructor
    · intro h
      cases ansiToCSSColor_error c _ h
    · intro h
      cases ansiToCSSClass_error c _ h
  · cases h : EscapeCSS.new s with
    | ok r => exact Or.inl ⟨r, rfl⟩
    | error e =>
      rcases new_error_kind s e h with rfl | ⟨c, rfl⟩
      · exact Or.inr (Or.inl rfl)
      · exact Or.inr (Or.inr ⟨c, rfl⟩)
  · intro k h
    rcases new_error_kind s _ h with h2 | ⟨c, h2⟩ <;> cases h2

/-- C25 on `ESC[38;5;9m`, on which the constructor throws: the error is
`Invalid ANSI color (99)`, not `Invalid palette color`. -/
theorem C25_palette_error_unreachable_witness :
    EscapeCSS.new "\x1b[38;5;9m".toList = .error (.invalidAnsiColor 99) ∧
    (∀ k : JSString, EscapeCSS.new "\x1b[38;5;9m".toList ≠ .error (.invalidPaletteColor k)) :=
  ⟨rfl, (C25_palette_error_unreachable "\x1b[38;5;9m".toList).2.2.2.2⟩

/-! ## Units that skip the animation -/

/-- One run of `__animateToPrint()` on a unit that skips the animation: the
unit is printed whole, its marker is removed by the self-call, and the next
run is asked for after `lineDelay`. -/
theorem animateToPrint_skip_run (t : Terminal) (s : JSString) (rest : List (Option OutputUnit))
    (h : t.__toPrint = some (.skip s) :: rest) :
    t.__animateToPrint =
      { ({ t with __animating := true }.__addTextForce s) with
        __toPrint := rest
        timers := t.timers ++ [.line]
        trace := t.trace ++ [.addText s, .setTimeout .line] } := by
  rw [animateToPrint_skip t s rest h, animateToPrint_marker _ rest rfl]
  simp [Terminal.__addTextForce]

/-- The runs of `__animateToPrint()` on a queue that starts with units that
skip the animation, each run started by the timer of the one before. -/
theorem run_skip_units (ss : List JSString) : ∀ (t : Terminal) (d : Delay)
    (rest : List (Option OutputUnit)),
    t.__toPrint = ss.map (fun s => some (.skip s)) ++ rest → t.timers = [d] → ss ≠ [] →
    (t.run (List.replicate ss.length (.tick 0))).trace =
      t.trace ++ (ss.map (fun s => [Effect.addText s, Effect.setTimeout .line])).flatten ∧
    (t.run (List.replicate ss.length (.tick 0))).__toPrint = rest ∧
    (t.run (List.replicate ss.length (.tick 0))).timers = [.line] := by
  induction ss with
  | nil => intro t d rest _ _ hne; exact absurd rfl hne
  | cons s tl ih =>
    intro t d rest hq ht _
    have htick : t.tick 0 =
        { ({ t with __animating := true, timers := [] }.__addTextForce s) with
          __toPrint := tl.map (fun s => some (.skip s)) ++ rest
          timers := [.line]
          trace := t.trace ++ [.addText s, .setTimeout .line] } := by
      unfold Terminal.tick
      rw [if_pos (by rw [ht]; exact Nat.zero_lt_one), ht]
      rw [animateToPrint_skip_run _ s (tl.map (fun s => some (.skip s)) ++ rest)
        (by simpa using hq)]
      simp [Terminal.__addTextForce]
    have hrun : t.run (List.replicate (s :: tl).length (.tick 0)) =
        (t.tick 0).run (List.replicate tl.length (.tick 0)) := rfl
    rw [hrun]
    by_cases htl : tl = []
    · subst htl
      rw [htick]
      exact ⟨by simp [Terminal.run], by simp [Terminal.run], by simp [Terminal.run]⟩
    · obtain ⟨h1, h2, h3⟩ := ih (t.tick 0) .line rest (by rw [htick]) (by rw [htick]) htl
      rw [h1, h2, h3, htick]
      exact ⟨by simp, rfl, rfl⟩

/-- C26 (counterexample): on a new terminal, `stream([['a', true], ['b', true]])`
runs `__animateToPrint()` once; it prints `a` and asks for the next run after
`lineDelay`, and `b` is still in the queue with a timer pending.  The run
started by that timer prints `b`. -/
theorem C26_second_skip_unit_waits_counterexample :
    (Terminal.initial.stream [.skip "a".toList, .skip "b".toList]).trace =
      [.addText "a".toList, .setTimeout .line] ∧
    (Terminal.initial.stream [.skip "a".toList, .skip "b".toList]).__toPrint =
      [some (.skip "b".toList)] ∧
    (Terminal.initial.stream [.skip "a".toList, .skip "b".toList]).timers = [.line] ∧
    ((Terminal.initial.stream [.skip "a".toList, .skip "b".toList]).tick 0).trace =
      [.addText "a".toList, .setTimeout .line, .addText "b".toList, .setTimeout .line] :=
  ⟨rfl, rfl, rfl, rfl⟩

/-- C26 (amended): a run of `__animateToPrint()` that finds a unit that skips
the animation at the front prints it whole, removes it from the queue in the
same run, asks for no wait of `characterDelay` and asks for the next run after
`lineDelay`.  So `k > 0` such units at the front of the queue are printed by
`k` runs, one unit each, every run followed by a wait of `lineDelay`. -/
theorem C26_skip_unit_one_per_tick (t : Terminal) (ss : List JSString)
    (rest : List (Option OutputUnit)) (d : Delay)
    (hq : t.__toPrint = ss.map (fun s => some (.skip s)) ++ rest) (ht : t.timers = [d])
    (hne : ss ≠ []) :
    (∀ s tl, ss = s :: tl →
      t.__animateToPrint.trace = t.trace ++ [.addText s, .setTimeout .line] ∧
      t.__animateToPrint.__toPrint = tl.map (fun s => some (.skip s)) ++ rest ∧
      t.__animateToPrint.timers = t.timers ++ [.line] ∧
      t.__animateToPrint.buffer = addTextLoop s t.buffer) ∧
    (t.run (List.replicate ss.length (.tick 0))).trace =
      t.trace ++ (ss.map (fun s => [Effect.addText s, Effect.setTimeout .line])).flatten ∧
    (t.run (List.replicate ss.length (.tick 0))).__toPrint = rest ∧
    (t.run (List.replicate ss.length (.tick 0))).timers = [.line] := by
  refine ⟨?_, run_skip_units ss t d rest hq ht hne⟩
  intro s tl hss
  subst hss
  rw [animateToPrint_skip_run t s (tl.map (fun s => some (.skip s)) ++ rest) (by simpa using hq)]
  exact ⟨rfl, rfl, rfl, rfl⟩

/-- C26 (amended) on the queue `['a', true], ['b', true], 'c'` with a timer
pending: two runs print `a` and `b`, each followed by a wait of `lineDelay`,
and leave `c`. -/
theorem C26_skip_unit_one_per_tick_witness :
    (Terminal.run { Terminal.initial with
        __toPrint := [some (.skip "a".toList), some (.skip "b".toList), some (.plain "c".toList)]
        __animating := true
        timers := [.line] } [.tick 0, .tick 0]).trace =
      [.addText "a".toList, .setTimeout .line, .addText "b".toList, .setTimeout .line] ∧
    (Terminal.run { Terminal.initial with
        __toPrint := [some (.skip "a".toList), some (.skip "b".toList), some (.plain "c".toList)]
        __animating := true
        timers := [.line] } [.tick 0, .tick 0]).__toPrint = [some (.plain "c".toList)] :=
  ⟨(C26_skip_unit_one_per_tick { Terminal.initial with
        __toPrint := [some (.skip "a".toList), some (.skip "b".toList), some (.plain "c".toList)]
        __animating := true
        timers := [.line] } ["a".toList, "b".toList] [some (.plain "c".toList)] .line
      rfl rfl (by decide)).2.1,
   (C26_skip_unit_one_per_tick { Terminal.initial with
        __toPrint := [some (.skip "a".toList), some (.skip "b".toList), some (.plain "c".toList)]
        __animating := true
        timers := [.line] } ["a".toList, "b".toList] [some (.plain "c".toList)] .line
      rfl rfl (by decide)).2.2.1⟩

/-! ## The visual unit of a run -/

/-- Up to and including the first `m`: `slice(0, indexOf('m') + 1)`. -/
theorem take_indexOf_m (s : JSString) (h : 'm' ∈ s) :
    s.take (s.indexOf 'm' + 1) = uptoFirstM s := by
  induction s with
  | nil => simp at h
  | cons a tl ih =>
    by_cases ha : a = 'm'
    · subst ha
      simp [uptoFirstM, List.indexOf_cons]
    · have htl : 'm' ∈ tl := by
        rcases List.mem_cons.mp h with h1 | h1
        · exact absurd h1.symm ha
        · exact h1
      have hidx : (a :: tl).indexOf 'm' = tl.indexOf 'm' + 1 := by
        simp [List.indexOf_cons, ha]
      rw [hidx, List.take_succ_cons, ih htl]
      simp [uptoFirstM, List.takeWhile_cons, ha]

/-- The piece that a run prints from a string that is not empty. -/
theorem take_visualUnitEnd (next : JSString) :
    next.take (visualUnitEnd next) =
      if next.head? = some ESC ∧ 'm' ∈ next then uptoFirstM next else next.take 1 := by
  unfold visualUnitEnd
  by_cases h1 : next.head? = some ESC
  · by_cases h2 : 'm' ∈ next
    · have h3 : next.indexOf 'm' < next.length := List.indexOf_lt_length.mpr h2
      have h4 : next.head? = some ESC ∧ 'm' ∈ next := ⟨h1, h2⟩
      rw [if_pos h1, if_pos h4]
      simp only
      rw [if_pos h3, take_indexOf_m next h2]
    · have h3 : ¬ next.indexOf 'm' < next.length := fun h => h2 (List.indexOf_lt_length.mp h)
      have h4 : ¬ (next.head? = some ESC ∧ 'm' ∈ next) := fun h => h2 h.2
      rw [if_pos h1, if_neg h4]
      simp only
      rw [if_neg h3]
  · have h4 : ¬ (next.head? = some ESC ∧ 'm' ∈ next) := fun h => h1 h.1
    rw [if_neg h1, if_neg h4]

/-- C27: a run of `__animateToPrint()` that finds at the front a string
`next` that is not empty prints one piece `u` of it with one call of
`__addTextForce` and leaves the rest `r` of the string at the front of the
queue (the marker `undefined` when nothing is left), where `u` followed by `r`
is `next` and `u` is `next` up to and including its first `m` when `next`
starts with `ESC` and has an `m`, and the first character of `next` otherwise.
The characters of `next` are taken in the basic plane, where a character is
one unit of the string. -/
theorem C27_one_visual_unit_per_tick (t : Terminal) (next : JSString)
    (rest : List (Option OutputUnit)) (hne : next ≠ [])
    (_hbmp : ∀ c ∈ next, c.toNat < 65536)
    (h : t.__toPrint = some (.plain next) :: rest) :
    ∃ u r : JSString, u ++ r = next ∧ u ≠ [] ∧
      u = (if next.head? = some ESC ∧ 'm' ∈ next then uptoFirstM next else next.take 1) ∧
      t.__animateToPrint.trace = t.trace ++ [.addText u, .setTimeout .character] ∧
      t.__animateToPrint.buffer = addTextLoop u t.buffer ∧
      t.__animateToPrint.__toPrint = (if r = [] then none else some (.plain r)) :: rest := by
  refine ⟨next.take (visualUnitEnd next), next.drop (visualUnitEnd next),
    List.take_append_drop _ _, ?_, take_visualUnitEnd next, ?_, ?_, ?_⟩
  · obtain ⟨c, tl, rfl⟩ := List.exists_cons_of_ne_nil hne
    have hpos : visualUnitEnd (c :: tl) = (visualUnitEnd (c :: tl) - 1) + 1 := by
      unfold visualUnitEnd
      split
      · simp only
        split <;> rfl
      · rfl
    rw [hpos, List.take_succ_cons]
    exact List.cons_ne_nil _ _
  · rw [animateToPrint_plain t next rest hne h]
    simp
  · rw [animateToPrint_plain t next rest hne h]
    rfl
  · rw [animateToPrint_plain t next rest hne h]

/-- C27 on three strings: `ESC[31mHi` gives the piece `ESC[31m` and leaves
`Hi`; `Hi` gives `H` and leaves `i`; `ESC[31` (no `m`) gives `ESC` alone. -/
theorem C27_one_visual_unit_per_tick_witness :
    (∃ u r : JSString, u ++ r = "\x1b[31mHi".toList ∧ u ≠ [] ∧
      u = (if "\x1b[31mHi".toList.head? = some ESC ∧ 'm' ∈ "\x1b[31mHi".toList
            then uptoFirstM "\x1b[31mHi".toList else "\x1b[31mHi".toList.take 1) ∧
      (Terminal.__animateToPrint { Terminal.initial with
          __toPrint := [some (.plain "\x1b[31mHi".toList)] }).trace =
        Terminal.initial.trace ++ [.addText u, .setTimeout .character] ∧
      (Terminal.__animateToPrint { Terminal.initial with
          __toPrint := [some (.plain "\x1b[31mHi".toList)] }).buffer =
        addTextLoop u Terminal.initial.buffer ∧
      (Terminal.__animateToPrint { Terminal.initial with
          __toPrint := [some (.plain "\x1b[31mHi".toList)] }).__toPrint =
        (if r = [] then none else some (.plain r)) :: []) ∧
    (Terminal.__animateToPrint { Terminal.initial with
        __toPrint := [some (.plain "\x1b[31mHi".toList)] }).trace =
      [.addText "\x1b[31m".toList, .setTimeout .character] ∧
    (Terminal.__animateToPrint { Terminal.initial with
        __toPrint := [some (.plain "Hi".toList)] }).trace =
      [.addText "H".toList, .setTimeout .character] ∧
    (Terminal.__animateToPrint { Terminal.initial with
        __toPrint := [some (.plain "\x1b[31".toList)] }).trace =
      [.addText [ESC], .setTimeout .character] :=
  ⟨C27_one_visual_unit_per_tick { Terminal.initial with
      __toPrint := [some (.plain "\x1b[31mHi".toList)] } "\x1b[31mHi".toList [] (by decide)
      (by decide) rfl, rfl, rfl, rfl⟩

/-! ## Pending timers -/

/-- What a run of `__animateToPrint()` does to the pending timers and to
`__animating`: on an empty queue nothing is scheduled and `__animating`
becomes false, otherwise exactly one timer is added and `__animating` is
true. -/
theorem animateToPrint_timers (t : Terminal) :
    (t.__toPrint = [] →
      t.__animateToPrint.timers = t.timers ∧ t.__animateToPrint.__animating = false ∧
      t.__animateToPrint.trace = t.trace) ∧
    (t.__toPrint ≠ [] →
      ∃ d, t.__animateToPrint.timers = t.timers ++ [d] ∧
        t.__animateToPrint.__animating = true ∧
        (t.__animateToPrint.trace = t.trace ++ [.setTimeout d] ∨
          ∃ u, t.__animateToPrint.trace = t.trace ++ [.addText u, .setTimeout d])) := by
  constructor
  · intro h
    rw [animateToPrint_empty t h]
    exact ⟨rfl, rfl, rfl⟩
  · intro h
    cases hq : t.__toPrint with
    | nil => exact absurd hq h
    | cons front rest =>
      match front, hq with
      | none, hq =>
        rw [animateToPrint_marker t rest hq]
        exact ⟨.line, rfl, rfl, Or.inl rfl⟩
      | some (.skip s), hq =>
        rw [animateToPrint_skip_run t s rest hq]
        exact ⟨.line, rfl, rfl, Or.inr ⟨s, rfl⟩⟩
      | some (.plain next), hq =>
        by_cases hne : next = []
        · subst hne
          rw [animateToPrint_empty_string t rest hq]
          exact ⟨.line, rfl, rfl, Or.inl rfl⟩
        · rw [animateToPrint_plain t next rest hne hq]
          exact ⟨.character, rfl, rfl, Or.inr ⟨next.take (visualUnitEnd next), by simp⟩⟩

theorem foldl_addTextForce_timers (lines : List OutputUnit) : ∀ t : Terminal,
    (lines.foldl (fun t i => t.__addTextForce i.text) t).timers = t.timers ∧
    (lines.foldl (fun t i => t.__addTextForce i.text) t).__animating = t.__animating ∧
    (lines.foldl (fun t i => t.__addTextForce i.text) t).__toPrint = t.__toPrint := by
  induction lines with
  | nil => intro t; exact ⟨rfl, rfl, rfl⟩
  | cons u rest ih =>
    intro t
    rw [List.foldl_cons]
    obtain ⟨h1, h2, h3⟩ := ih (t.__addTextForce u.text)
    rw [h1, h2, h3]
    exact ⟨rfl, rfl, rfl⟩

/-- A run of `__animateToPrint()` with no timer pending leaves one pending
exactly when it leaves `__animating` true. -/
theorem animateToPrint_pending (t : Terminal) (h : t.timers = []) :
    t.__animateToPrint.timers.length = if t.__animateToPrint.__animating then 1 else 0 := by
  by_cases hq : t.__toPrint = []
  · obtain ⟨h1, h2, -⟩ := (animateToPrint_timers t).1 hq
    rw [h1, h2, h]
    rfl
  · obtain ⟨d, h1, h2, -⟩ := (animateToPrint_timers t).2 hq
    rw [h1, h2, h]
    rfl

theorem stream_pending (t : Terminal) (lines : List OutputUnit)
    (hinv : t.timers.length = if t.__animating then 1 else 0) :
    (t.stream lines).timers.length = if (t.stream lines).__animating then 1 else 0 := by
  cases hd : t.animationDisabled with
  | true =>
    unfold Terminal.stream
    rw [hd, if_pos rfl]
    obtain ⟨h1, h2, -⟩ := foldl_addTextForce_timers lines t
    rw [h1, h2]
    exact hinv
  | false =>
    rw [stream_enabled t lines hd]
    cases ha : t.__animating with
    | true =>
      rw [if_pos rfl]
      simpa [ha] using hinv
    | false =>
      rw [ha] at hinv
      simp only [Bool.false_eq_true, if_false] at hinv ⊢
      exact animateToPrint_pending _ (List.length_eq_zero.mp hinv)

theorem tick_pending (t : Terminal) (i : Nat)
    (hinv : t.timers.length = if t.__animating then 1 else 0) :
    (t.tick i).timers.length = if (t.tick i).__animating then 1 else 0 := by
  unfold Terminal.tick
  split
  · rename_i hi
    refine animateToPrint_pending _ ?_
    have h1 : t.timers.length ≤ 1 := by rw [hinv]; split <;> omega
    apply List.length_eq_zero.mp
    simp only [List.length_eraseIdx, hi, if_true]
    omega
  · exact hinv

theorem run_pending (actions : List TerminalAction) : ∀ t : Terminal,
    (t.timers.length = if t.__animating then 1 else 0) →
    (t.run actions).timers.length = if (t.run actions).__animating then 1 else 0 := by
  induction actions with
  | nil => intro t h; exact h
  | cons a rest ih =>
    intro t h
    have hrun : t.run (a :: rest) = (t.act a).run rest := rfl
    rw [hrun]
    apply ih
    cases a with
    | stream lines => exact stream_pending t lines h
    | addText text => exact stream_pending t [.skip text] h
    | tick i => exact tick_pending t i h

/-- C28: the number of pending timers is 1 while `__animating` is true and 0
while it is false.  This holds of a new terminal and every call of `stream`
or `addText` and every timer that fires keeps it, whatever the delays are; so
at most one timer is pending in every state that is reached.  A call of
`stream` with the animation enabled runs `__animateToPrint()` only when
`__animating` is false, and otherwise only appends to the queue (with the
animation disabled it touches neither the timers nor `__animating`); a run of
`__animateToPrint()` adds exactly one timer and leaves `__animating` true,
unless it finds the queue empty, in which case it adds none and sets
`__animating` to false. -/
theorem C28_at_most_one_pending_tick (t : Terminal) (actions : List TerminalAction)
    (hinv : t.timers.length = if t.__animating then 1 else 0) :
    ((t.run actions).timers.length = if (t.run actions).__animating then 1 else 0) ∧
    (t.run actions).timers.length ≤ 1 ∧
    (Terminal.initial.timers.length = if Terminal.initial.__animating then 1 else 0) ∧
    (∀ lines : List OutputUnit, t.animationDisabled = false →
      t.stream lines =
        if t.__animating then { t with __toPrint := t.__toPrint ++ lines.map some }
        else Terminal.__animateToPrint { t with __toPrint := t.__toPrint ++ lines.map some }) ∧
    (∀ lines : List OutputUnit, t.animationDisabled = true →
      (t.stream lines).timers = t.timers ∧ (t.stream lines).__animating = t.__animating) ∧
    (∀ u : Terminal, u.__toPrint = [] →
      u.__animateToPrint.timers = u.timers ∧ u.__animateToPrint.__animating = false ∧
      u.__animateToPrint.trace = u.trace) ∧
    (∀ u : Terminal, u.__toPrint ≠ [] →
      ∃ d, u.__animateToPrint.timers = u.timers ++ [d] ∧
        u.__animateToPrint.__animating = true ∧
        (u.__animateToPrint.trace = u.trace ++ [.setTimeout d] ∨
          ∃ s, u.__animateToPrint.trace = u.trace ++ [.addText s, .setTimeout d])) := by
  have h := run_pending actions t hinv
  refine ⟨h, ?_, rfl, fun lines hd => stream_enabled t lines hd, ?_,
    fun u => (animateToPrint_timers u).1, fun u => (animateToPrint_timers u).2⟩
  · rw [h]
    split <;> omega
  · intro lines hd
    unfold Terminal.stream
    rw [hd, if_pos rfl]
    exact ⟨(foldl_addTextForce_timers lines t).1, (foldl_addTextForce_timers lines t).2.1⟩

/-- C28 on a new terminal: after `stream(['ab', 'c'])`, two timers, a call of
`addText('d')` and another timer, one timer is pending and `__animating` is
true; after the timers that empty the queue, none is pending and
`__animating` is false. -/
theorem C28_at_most_one_pending_tick_witness :
    (Terminal.initial.run [.stream [.plain "ab".toList, .plain "c".toList], .tick 0, .tick 0,
        .addText "d".toList, .tick 0]).timers.length =
      (if (Terminal.initial.run [.stream [.plain "ab".toList, .plain "c".toList], .tick 0,
        .tick 0, .addText "d".toList, .tick 0]).__animating then 1 else 0) ∧
    (Terminal.initial.run [.stream [.plain "ab".toList, .plain "c".toList], .tick 0, .tick 0,
        .addText "d".toList, .tick 0]).timers = [.character] ∧
    (Terminal.initial.run [.stream [.plain "a".toList], .tick 0, .tick 0]).timers = [] ∧
    (Terminal.initial.run [.stream [.plain "a".toList], .tick 0, .tick 0]).__animating = false :=
  ⟨(C28_at_most_one_pending_tick Terminal.initial
      [.stream [.plain "ab".toList, .plain "c".toList], .tick 0, .tick 0,
        .addText "d".toList, .tick 0] rfl).1, rfl, rfl, rfl⟩

/-! ## Delays set to zero while text is queued -/

/-- C21 (the code differs): on a new terminal, `stream(['ab'])` prints `a` and
leaves `b` in the queue with a timer pending.  With both delays then set to
zero, `stream(['c'])` prints `c` at once and leaves `b` where it is, and `b`
is printed by the pending timer: the text comes out as `acb`. -/
theorem C21_zero_delay_stream_overtakes_queue :
    (Terminal.initial.stream [.plain "ab".toList]).__toPrint = [some (.plain "b".toList)] ∧
    (Terminal.initial.stream [.plain "ab".toList]).timers = [.character] ∧
    Terminal.animationDisabled
      { Terminal.initial.stream [.plain "ab".toList] with characterDelay := 0, lineDelay := 0 }
      = true ∧
    (Terminal.stream
      { Terminal.initial.stream [.plain "ab".toList] with characterDelay := 0, lineDelay := 0 }
      [.plain "c".toList]).trace =
      [.addText "a".toList, .setTimeout .character, .addText "c".toList] ∧
    (Terminal.stream
      { Terminal.initial.stream [.plain "ab".toList] with characterDelay := 0, lineDelay := 0 }
      [.plain "c".toList]).__toPrint = [some (.plain "b".toList)] ∧
    (Terminal.stream
      { Terminal.initial.stream [.plain "ab".toList] with characterDelay := 0, lineDelay := 0 }
      [.plain "c".toList]).timers = [.character] ∧
    emittedText (Terminal.tick (Terminal.stream
      { Terminal.initial.stream [.plain "ab".toList] with characterDelay := 0, lineDelay := 0 }
      [.plain "c".toList]) 0).trace = "acb".toList ∧
    (Terminal.tick (Terminal.stream
      { Terminal.initial.stream [.plain "ab".toList] with characterDelay := 0, lineDelay := 0 }
      [.plain "c".toList]) 0).buffer.nodes =
      [.text "a".toList, .text "c".toList, .text "b".toList] :=
  ⟨rfl, rfl, rfl, rfl, rfl, rfl, rfl, rfl⟩

/-! ## The sequence `ESC[m` -/

/-- C29 (the code differs): the text `ESC[mX` on a new terminal.  One call of
`__addTextForce`, which is what `stream` makes with both delays zero, parses
`ESC[mX` as a sequence with no code and puts `X` in a span with the classes of
the buffer.  The animation prints the pieces `ESC[m` and `X`; the constructor
rejects `ESC[m` alone, so the span has no class and holds `[mX`, and the `ESC`
is text of the buffer. -/
theorem C29_animated_differs_from_immediate :
    (Terminal.initial.__addTextForce "\x1b[mX".toList).buffer.nodes =
      [.span ["term-bg-black".toList, "term-fg-white".toList, "term-font".toList]
        "X".toList] ∧
    (Terminal.stream { Terminal.initial with characterDelay := 0, lineDelay := 0 }
      [.plain "\x1b[mX".toList]).buffer.nodes =
      [.span ["term-bg-black".toList, "term-fg-white".toList, "term-font".toList]
        "X".toList] ∧
    ((Terminal.initial.stream [.plain "\x1b[mX".toList]).run [.tick 0]).trace =
      [.addText "\x1b[m".toList, .setTimeout .character,
       .addText "X".toList, .setTimeout .character] ∧
    ((Terminal.initial.stream [.plain "\x1b[mX".toList]).run [.tick 0]).__toPrint = [none] ∧
    ((Terminal.initial.stream [.plain "\x1b[mX".toList]).run [.tick 0]).buffer.nodes =
      [.span [] "[mX".toList, .text [ESC]] :=
  ⟨rfl, rfl, rfl, rfl, rfl⟩

/-- C30 (the code differs): the constructor succeeds on `ESC[mX`, of which it
consumes `ESC[m` and leaves `X`, and throws on `ESC[m` alone, which the length
test rejects.  On `ESC[m` followed by any other text it succeeds as well. -/
theorem C30_consumed_sequence_rejected_alone :
    EscapeCSS.new "\x1b[mX".toList =
      .ok { codes := [], theme := EscapeCSS.initialTheme, style := .undefined,
            seq := "X".toList } ∧
    uptoFirstM "\x1b[mX".toList = "\x1b[m".toList ∧
    EscapeCSS.new (uptoFirstM "\x1b[mX".toList ++ []) = .error .unsupportedSequence ∧
    EscapeCSS.new (uptoFirstM "\x1b[mX".toList ++ "YZ".toList) =
      .ok { codes := [], theme := EscapeCSS.initialTheme, style := .undefined,
            seq := "YZ".toList } :=
  ⟨rfl, rfl, rfl, rfl⟩

/-! ## The text after the consumed sequence -/

theorem digits_split (body : JSString) (h : ∀ c ∈ body, IsDigit c ∨ c = ';') :
    ∃ ds b2, body = ds ++ b2 ∧ (∀ c ∈ ds, IsDigit c) ∧ (b2 = [] ∨ ∃ b3, b2 = ';' :: b3) := by
  induction body with
  | nil => exact ⟨[], [], rfl, by simp, Or.inl rfl⟩
  | cons c tl ih =>
    rcases h c (List.mem_cons_self _ _) with hc | hc
    · obtain ⟨ds, b2, hb, hds, hb2⟩ := ih (fun d hd => h d (List.mem_cons_of_mem _ hd))
      refine ⟨c :: ds, b2, by rw [hb]; rfl, ?_, hb2⟩
      intro d hd
      rcases List.mem_cons.mp hd with rfl | hd
      · exact hc
      · exact hds d hd
    · subst hc
      exact ⟨[], ';' :: tl, rfl, by simp, Or.inr ⟨tl, rfl⟩⟩

/-- The codes that the scan reads before the `m` do not depend on the text
after it, which it returns as it is. -/
theorem scan_rest_independent (n : Nat) : ∀ (body : JSString) (codes codes2 : List Nat)
    (x x2 y : JSString), body.length ≤ n → (∀ c ∈ body, IsDigit c ∨ c = ';') →
    EscapeCSS.scan (body ++ 'm' :: x) codes = .ok (codes2, x2) →
    EscapeCSS.scan (body ++ 'm' :: y) codes = .ok (codes2, y) := by
  induction n with
  | zero =>
    intro body codes codes2 x x2 y hlen _ h
    have hnil : body = [] := List.length_eq_zero.mp (by omega)
    subst hnil
    rw [List.nil_append, scan_m] at h
    simp only [Except.ok.injEq, Prod.mk.injEq] at h
    rw [List.nil_append, scan_m, h.1]
  | succ n ih =>
    intro body codes codes2 x x2 y hlen hbody h
    obtain ⟨ds, b2, hb, hds, hb2⟩ := digits_split body hbody
    subst hb
    by_cases hne : ds = []
    · subst hne
      rcases hb2 with rfl | ⟨b3, rfl⟩
      · rw [List.nil_append, List.nil_append, scan_m] at h
        simp only [Except.ok.injEq, Prod.mk.injEq] at h
        rw [List.nil_append, List.nil_append, scan_m, h.1]
      · rw [List.nil_append, List.cons_append, scan_unfold] at h
        simp [EscapeCSS.endOfDigits, EscapeCSS.__err] at h
    · rcases hb2 with rfl | ⟨b3, rfl⟩
      · rw [List.append_nil] at h ⊢
        rw [scan_digits_m ds x codes hne hds] at h
        simp only [Except.ok.injEq, Prod.mk.injEq] at h
        rw [scan_digits_m ds y codes hne hds, h.1]
      · rw [List.append_assoc, List.cons_append, scan_digits_semi ds _ codes hne hds] at h
        rw [List.append_assoc, List.cons_append, scan_digits_semi ds _ codes hne hds]
        refine ih b3 _ codes2 x x2 y ?_ ?_ h
        · simp only [List.length_append, List.length_cons] at hlen
          omega
        · intro c hc
          exact hbody c (List.mem_append_right _ (List.mem_cons_of_mem _ hc))

/-- The constructor on `ESC[ body m` followed by `x` and followed by `y`: when
it succeeds on the first it succeeds on the second, with the same codes, theme
and style, provided the second is not `ESC[m` alone. -/
theorem new_body_rest (body x y : JSString) (e : EscapeCSS)
    (hbody : ∀ c ∈ body, IsDigit c ∨ c = ';')
    (h : EscapeCSS.new (ESC :: '[' :: (body ++ 'm' :: x)) = .ok e)
    (hpos : 0 < body.length + y.length) :
    EscapeCSS.new (ESC :: '[' :: (body ++ 'm' :: y)) =
      .ok { codes := e.codes, theme := e.theme, style := e.style, seq := y } := by
  have hlenx : 4 ≤ jsLength (ESC :: '[' :: (body ++ 'm' :: x)) := by
    by_contra hlt
    rw [new_of_not_introducer _ (Or.inl (by omega))] at h
    cases h
  rw [new_of_introducer _ hlenx] at h
  split at h
  · cases h
  · rename_i codes rest hscan
    split at h
    · cases h
    · rename_i st happ
      simp only [Except.ok.injEq] at h
      subst h
      have hscan2 := scan_rest_independent body.length body [] codes x rest y (le_refl _)
        hbody hscan
      have hlen : 4 ≤ jsLength (ESC :: '[' :: (body ++ 'm' :: y)) := by
        have h1 := length_le_jsLength (ESC :: '[' :: (body ++ 'm' :: y))
        simp only [List.length_cons, List.length_append] at h1
        omega
      rw [new_of_introducer _ hlen, hscan2]
      simp only
      rw [happ]

/-- When the constructor succeeds on `s`, it succeeds on the consumed sequence
followed by any text `t`, with the same codes, theme and style and with `t` as
the remainder, provided it has read at least one code or `t` is not empty.
What is left out is the sequence `ESC[m` alone, which the length test
rejects. -/
theorem new_consumed_sequence (s : JSString) (r : EscapeCSS) (h : EscapeCSS.new s = .ok r)
    (t : JSString) (hcodes : r.codes ≠ [] ∨ t ≠ []) :
    EscapeCSS.new (uptoFirstM s ++ t) =
      .ok { codes := r.codes, theme := r.theme, style := r.style, seq := t } := by
  obtain ⟨body, hs, hbody, hscan, -⟩ := new_ok_shape s r h
  have hupto : uptoFirstM s = ESC :: '[' :: (body ++ ['m']) := by
    have hne : ∀ c ∈ ESC :: '[' :: body, c ≠ 'm' := by
      intro c hc
      simp only [List.mem_cons] at hc
      rcases hc with rfl | rfl | hc
      · decide
      · decide
      · exact ne_m_of_digit_or_semi c (hbody c hc)
    have := takeWhile_ne_m (ESC :: '[' :: body) r.seq hne
    unfold uptoFirstM
    rw [hs]
    simp only [List.cons_append] at this ⊢
    rw [this]
    rfl
  have hpos : 0 < body.length + t.length := by
    rcases hcodes with hc | ht
    · have hbne : body ≠ [] := by
        rintro rfl
        rw [List.nil_append, scan_m] at hscan
        simp only [Except.ok.injEq, Prod.mk.injEq] at hscan
        exact hc hscan.1.symm
      have := List.length_pos.mpr hbne
      omega
    · have := List.length_pos.mpr ht
      omega
  have hshape : uptoFirstM s ++ t = ESC :: '[' :: (body ++ 'm' :: t) := by
    rw [hupto]
    simp
  rw [hshape]
  rw [hs] at h
  exact new_body_rest body r.seq t r hbody h hpos

/-! ## Animation and immediate rendering -/

theorem split_first_m (text : JSString) (h : 'm' ∈ text) :
    ∃ a r, text = a ++ 'm' :: r ∧ ∀ c ∈ a, c ≠ 'm' := by
  induction text with
  | nil => simp at h
  | cons c tl ih =>
    by_cases hc : c = 'm'
    · subst hc
      exact ⟨[], tl, rfl, by simp⟩
    · have htl : 'm' ∈ tl := by
        rcases List.mem_cons.mp h with h1 | h1
        · exact absurd h1.symm hc
        · exact h1
      obtain ⟨a, r, hs, ha⟩ := ih htl
      refine ⟨c :: a, r, by rw [hs]; rfl, ?_⟩
      intro d hd
      rcases List.mem_cons.mp hd with rfl | hd
      · exact hc
      · exact ha d hd

/-- Two texts cut at their first `m` are equal piece by piece. -/
theorem first_m_unique (a b x y : JSString) (ha : ∀ c ∈ a, c ≠ 'm') (hb : ∀ c ∈ b, c ≠ 'm')
    (h : a ++ 'm' :: x = b ++ 'm' :: y) : a = b ∧ x = y := by
  have h1 := takeWhile_ne_m a x ha
  have h2 := takeWhile_ne_m b y hb
  rw [h, h2] at h1
  subst h1
  exact ⟨rfl, List.cons.inj (List.append_cancel_left h) |>.2⟩

/-- The constructor at an `ESC` whose text runs to the first `m` of the string,
with and without the text after that `m`, when the sequence is not `ESC[m`:
it succeeds on both with the same codes, theme and style, or throws on
both. -/
theorem new_on_segment (a r : JSString) (ha : ∀ c ∈ a, c ≠ 'm') (hne : a ≠ ['[']) :
    (∀ e, EscapeCSS.new (ESC :: (a ++ 'm' :: r)) = .ok e →
      e.seq = r ∧ EscapeCSS.new (ESC :: (a ++ ['m'])) =
        .ok { codes := e.codes, theme := e.theme, style := e.style, seq := [] }) ∧
    (∀ e, EscapeCSS.new (ESC :: (a ++ 'm' :: r)) = .error e →
      ∃ e2, EscapeCSS.new (ESC :: (a ++ ['m'])) = .error e2) := by
  have hshape : ∀ (x : JSString) (e : EscapeCSS),
      EscapeCSS.new (ESC :: (a ++ 'm' :: x)) = .ok e →
      ∃ body, a = '[' :: body ∧ e.seq = x ∧ body ≠ [] ∧ (∀ c ∈ body, IsDigit c ∨ c = ';') := by
    intro x e h
    obtain ⟨body, hs, hbody, -, -⟩ := new_ok_shape _ e h
    have hs2 : a ++ 'm' :: x = ('[' :: body) ++ 'm' :: e.seq := by
      simpa using hs
    have hb : ∀ c ∈ '[' :: body, c ≠ 'm' := by
      intro c hc
      rcases List.mem_cons.mp hc with rfl | hc
      · decide
      · exact ne_m_of_digit_or_semi c (hbody c hc)
    obtain ⟨h1, h2⟩ := first_m_unique a ('[' :: body) x e.seq ha hb hs2
    refine ⟨body, h1, h2.symm, ?_, hbody⟩
    rintro rfl
    exact hne h1
  constructor
  · intro e h
    obtain ⟨body, hab, hseq, hbne, hbody⟩ := hshape r e h
    subst hab
    refine ⟨hseq, ?_⟩
    have hpos : 0 < body.length + ([] : JSString).length := by
      have := List.length_pos.mpr hbne
      omega
    exact new_body_rest body r [] e hbody h hpos
  · intro e h
    cases h2 : EscapeCSS.new (ESC :: (a ++ ['m'])) with
    | error e2 => exact ⟨e2, rfl⟩
    | ok e2 =>
      obtain ⟨body, hab, -, hbne, hbody⟩ := hshape [] e2 h2
      subst hab
      have hpos : 0 < body.length + r.length := by
        have := List.length_pos.mpr hbne
        omega
      have h3 := new_body_rest body [] r e2 hbody h2 hpos
      rw [List.cons_append] at h
      rw [h3] at h
      cases h

/-- The loop of `__addTextForce` on a text cut after its first `m`: the loop on
the whole text is the loop on the first piece followed by the loop on the
rest, when the text has no `ESC[m`. -/
theorem addTextLoop_segment (a : JSString) : ∀ (r : JSString) (s : Surface),
    (∀ c ∈ a, c ≠ 'm') →
    (∀ pre post : JSString, a ++ 'm' :: r ≠ pre ++ ESC :: '[' :: 'm' :: post) →
    addTextLoop (a ++ 'm' :: r) s = addTextLoop r (addTextLoop (a ++ ['m']) s) := by
  induction a with
  | nil =>
    intro r s _ _
    have hm : 'm' ≠ ESC := by decide
    rw [List.nil_append, List.nil_append, addTextLoop_cons, if_neg hm, addTextLoop_cons,
      if_neg hm, addTextLoop_nil]
  | cons c a2 ih =>
    intro r s ha hfree
    have ha2 : ∀ d ∈ a2, d ≠ 'm' := fun d hd => ha d (List.mem_cons_of_mem _ hd)
    have hfree2 : ∀ pre post : JSString,
        a2 ++ 'm' :: r ≠ pre ++ ESC :: '[' :: 'm' :: post := by
      intro pre post h
      exact hfree (c :: pre) post (by rw [List.cons_append, h]; rfl)
    by_cases hc : c = ESC
    · subst hc
      have hne : a2 ≠ ['['] := by
        rintro rfl
        exact hfree [] r rfl
      obtain ⟨hok, herr⟩ := new_on_segment a2 r ha2 hne
      cases hnew : EscapeCSS.new (ESC :: (a2 ++ 'm' :: r)) with
      | ok e =>
        obtain ⟨hseq, hnew2⟩ := hok e hnew
        rw [List.cons_append, List.cons_append,
          addTextLoop_escape_ok (ESC :: (a2 ++ 'm' :: r)) e s rfl hnew,
          addTextLoop_escape_ok (ESC :: (a2 ++ ['m'])) _ s rfl hnew2, hseq, addTextLoop_nil]
      | error e =>
        obtain ⟨e2, hnew2⟩ := herr e hnew
        rw [List.cons_append, List.cons_append, addTextLoop_escape_error _ e s hnew,
          addTextLoop_escape_error _ e2 s hnew2]
        exact ih r _ ha2 hfree2
    · rw [List.cons_append, List.cons_append, addTextLoop_cons, if_neg hc, addTextLoop_cons,
        if_neg hc]
      exact ih r _ ha2 hfree2

/-- The loop of `__addTextForce` on a text is the loop on the piece that a run
of `__animateToPrint()` prints from it followed by the loop on the rest, when
the text has no `ESC[m`. -/
theorem addTextLoop_visualUnit (text : JSString) (s : Surface)
    (hfree : ∀ pre post : JSString, text ≠ pre ++ ESC :: '[' :: 'm' :: post) :
    addTextLoop text s =
      addTextLoop (text.drop (visualUnitEnd text))
        (addTextLoop (text.take (visualUnitEnd text)) s) := by
  cases text with
  | nil => rfl
  | cons c rest =>
    by_cases hc : c = ESC
    · subst hc
      by_cases hm : 'm' ∈ ESC :: rest
      · obtain ⟨a, r, hs, ha⟩ := split_first_m _ hm
        have htake : (ESC :: rest).take (visualUnitEnd (ESC :: rest)) = a ++ ['m'] := by
          rw [take_visualUnitEnd, if_pos ⟨rfl, hm⟩]
          unfold uptoFirstM
          rw [hs, takeWhile_ne_m a r ha]
        have hdrop : (ESC :: rest).drop (visualUnitEnd (ESC :: rest)) = r := by
          have h1 := List.take_append_drop (visualUnitEnd (ESC :: rest)) (ESC :: rest)
          rw [htake] at h1
          nth_rewrite 3 [hs] at h1
          rw [List.append_assoc] at h1
          exact (List.cons.inj (List.append_cancel_left h1)).2
        rw [htake, hdrop, hs]
        exact addTextLoop_segment a r s ha (by rw [← hs]; exact hfree)
      · have hend : visualUnitEnd (ESC :: rest) = 1 := by
          have h3 : ¬ (ESC :: rest).indexOf 'm' < (ESC :: rest).length :=
            fun h => hm (List.indexOf_lt_length.mp h)
          unfold visualUnitEnd
          rw [if_pos (show (ESC :: rest).head? = some ESC from rfl)]
          simp only
          rw [if_neg h3]
        have hnew : ∃ e, EscapeCSS.new (ESC :: rest) = .error e := by
          cases h : EscapeCSS.new (ESC :: rest) with
          | error e => exact ⟨e, rfl⟩
          | ok e =>
            obtain ⟨body, hs, -, -, -⟩ := new_ok_shape _ e h
            exact absurd (by rw [hs]; simp) hm
        obtain ⟨e, hnew⟩ := hnew
        have hnew1 : EscapeCSS.new [ESC] = .error .unsupportedSequence := rfl
        rw [hend, List.take_succ_cons, List.take_zero, List.drop_succ_cons, List.drop_zero,
          addTextLoop_escape_error rest e s hnew,
          addTextLoop_escape_error [] _ s hnew1, addTextLoop_nil]
    · have hend : visualUnitEnd (c :: rest) = 1 := by
        have h3 : ¬ (c :: rest).head? = some ESC := by simpa using hc
        unfold visualUnitEnd
        rw [if_neg h3]
      rw [hend, List.take_succ_cons, List.take_zero, List.drop_succ_cons, List.drop_zero,
        addTextLoop_cons, if_neg hc, addTextLoop_cons, if_neg hc, addTextLoop_nil]

/-- The animation of a string at the front of the queue, run by run until the
string is exhausted, leaves the buffer that one call of `__addTextForce` on
the whole string leaves, when the string has no `ESC[m`: the sequence that the
constructor accepts before more text and rejects alone. -/
theorem animation_agrees (n : Nat) : ∀ (text : JSString) (t : Terminal)
    (rest : List (Option OutputUnit)) (d : Delay),
    text.length ≤ n → text ≠ [] →
    (∀ pre post : JSString, text ≠ pre ++ ESC :: '[' :: 'm' :: post) →
    t.__toPrint = some (.plain text) :: rest → t.timers = [d] →
    ∃ k, 0 < k ∧ k ≤ text.length ∧
      (t.run (List.replicate k (.tick 0))).buffer = (t.__addTextForce text).buffer ∧
      (t.run (List.replicate k (.tick 0))).__toPrint = none :: rest ∧
      (t.run (List.replicate k (.tick 0))).timers = [.character] := by
  induction n with
  | zero =>
    intro text t rest d hlen hne
    exact absurd (List.length_eq_zero.mp (by omega)) hne
  | succ n ih =>
    intro text t rest d hlen hne hfree hq ht
    have htick : t.tick 0 =
        { ({ t with __animating := true, timers := [] }.__addTextForce
            (text.take (visualUnitEnd text))) with
          __toPrint :=
            (if text.drop (visualUnitEnd text) = [] then none
              else some (.plain (text.drop (visualUnitEnd text)))) :: rest
          timers := [.character]
          trace := t.trace ++ [.addText (text.take (visualUnitEnd text))]
            ++ [.setTimeout .character] } := by
      unfold Terminal.tick
      rw [if_pos (by rw [ht]; exact Nat.zero_lt_one), ht]
      rw [animateToPrint_plain _ text rest hne (by simpa using hq)]
      simp [Terminal.__addTextForce]
    have hpos : 0 < visualUnitEnd text := by
      unfold visualUnitEnd
      split
      · simp only
        split <;> omega
      · omega
    have hlenpos : 0 < text.length := List.length_pos.mpr hne
    by_cases hr : text.drop (visualUnitEnd text) = []
    · refine ⟨1, Nat.zero_lt_one, hlenpos, ?_, ?_, ?_⟩
      · have hall : text.take (visualUnitEnd text) = text := by
          have h1 := List.take_append_drop (visualUnitEnd text) text
          rw [hr, List.append_nil] at h1
          exact h1
        have hrun : t.run (List.replicate 1 (.tick 0)) = t.tick 0 := rfl
        rw [hrun, htick, hall]
        rfl
      · have hrun : t.run (List.replicate 1 (.tick 0)) = t.tick 0 := rfl
        rw [hrun, htick]
        simp [hr]
      · have hrun : t.run (List.replicate 1 (.tick 0)) = t.tick 0 := rfl
        rw [hrun, htick]
    · have hfree2 : ∀ pre post : JSString,
          text.drop (visualUnitEnd text) ≠ pre ++ ESC :: '[' :: 'm' :: post := by
        intro pre post h
        refine hfree (text.take (visualUnitEnd text) ++ pre) post ?_
        rw [List.append_assoc, ← h, List.take_append_drop]
      obtain ⟨k, hk, hkle, hb, hq2, ht2⟩ := ih (text.drop (visualUnitEnd text)) (t.tick 0) rest
        .character (by simp only [List.length_drop]; omega) hr hfree2
        (by rw [htick]; simp [hr]) (by rw [htick])
      have hrun : t.run (List.replicate (k + 1) (.tick 0)) =
          (t.tick 0).run (List.replicate k (.tick 0)) := rfl
      refine ⟨k + 1, Nat.succ_pos _, ?_, ?_, ?_, ?_⟩
      · simp only [List.length_drop] at hkle
        omega
      · rw [hrun, hb]
        have hbuf : (t.tick 0).buffer = addTextLoop (text.take (visualUnitEnd text)) t.buffer := by
          rw [htick]
          rfl
        show addTextLoop _ (t.tick 0).buffer = addTextLoop text t.buffer
        rw [hbuf]
        exact (addTextLoop_visualUnit text t.buffer hfree).symm
      · rw [hrun, hq2]
      · rw [hrun, ht2]

/-! ## Termination -/

/-- An iteration of the scanning loop that does not end the loop removes at
least one character. -/
theorem scanStep_shorter (seq : JSString) (codes : List Nat) (seq2 : JSString)
    (codes2 : List Nat) (h : EscapeCSS.scanStep seq codes = .again (seq2, codes2)) :
    seq2.length < seq.length := by
  unfold EscapeCSS.scanStep at h
  split at h
  · cases h
  · simp only at h
    split at h
    · cases h
    · rename_i h0
      split at h
      · cases h
      · simp only [Iteration.again.injEq, Prod.mk.injEq] at h
        have hle := endOfDigits_le seq
        have hjs := length_le_jsLength seq
        rw [← h.1, List.length_drop]
        split <;> omega

/-- The scanning loop ends within one test more than the text has characters,
with the result that `scan` computes. -/
theorem scanRun_eq (n : Nat) : ∀ (seq : JSString) (codes : List Nat),
    seq.length < n → EscapeCSS.scanRun n seq codes = some (EscapeCSS.scan seq codes) := by
  induction n with
  | zero => intro seq codes h; omega
  | succ n ih =>
    intro seq codes hlen
    rw [scan_unfold]
    unfold EscapeCSS.scanRun
    cases hstep : EscapeCSS.scanStep seq codes with
    | stop result =>
      unfold EscapeCSS.scanStep at hstep
      split at hstep
      · rw [if_pos (by assumption)]
        cases hstep
        rfl
      · rw [if_neg (by assumption)]
        simp only at hstep
        split at hstep
        · rw [if_pos (by assumption)]
          cases hstep
          rfl
        · rw [if_neg (by assumption)]
          split at hstep
          · rw [if_pos (by assumption)]
            cases hstep
            rfl
          · cases hstep
    | again st =>
      obtain ⟨seq2, codes2⟩ := st
      have hshort := scanStep_shorter seq codes seq2 codes2 hstep
      simp only
      rw [ih seq2 codes2 (by omega)]
      unfold EscapeCSS.scanStep at hstep
      split at hstep
      · cases hstep
      · rw [if_neg (by assumption)]
        simp only at hstep
        split at hstep
        · cases hstep
        · rw [if_neg (by assumption)]
          split at hstep
          · cases hstep
          · rw [if_neg (by assumption)]
            simp only [Iteration.again.injEq, Prod.mk.injEq] at hstep
            rw [← hstep.1, ← hstep.2]

/-- The validation loop ends within one test more than there are codes, with
the result that `applyCodes` computes. -/
theorem applyCodesRun_eq (n : Nat) : ∀ (codes : List Nat) (st : EscapeState),
    codes.length < n →
    EscapeCSS.applyCodesRun n codes st = some (EscapeCSS.applyCodes codes st) := by
  induction n with
  | zero => intro codes st h; omega
  | succ n ih =>
    intro codes st hlen
    cases codes with
    | nil => rfl
    | cons cmd rest =>
      simp only [List.length_cons] at hlen
      rw [applyCodes_cons]
      simp only [EscapeCSS.applyCodesRun]
      cases happ : EscapeCSS.applyCode cmd rest st with
      | error e => rfl
      | ok r =>
        obtain ⟨st2, k⟩ := r
        simp only
        exact ih _ _ (by simp only [List.length_drop]; omega)

/-- An iteration of the loop of `__addTextForce` leaves a shorter text to
read: the text from the next index on, or the remainder of the parser, which
is at least three characters shorter than the text parsed. -/
theorem addTextStep_shorter (text : JSString) (s : Surface) (text2 : JSString) (s2 : Surface)
    (h : addTextStep text s = some (text2, s2)) :
    text2.length < text.length ∧
    (text2 = text.drop 1 ∨
      ∃ r, text.head? = some ESC ∧ EscapeCSS.new text = .ok r ∧ text2 = r.seq ∧
        r.seq.length + 3 ≤ text.length) := by
  cases text with
  | nil => cases h
  | cons c rest =>
    unfold addTextStep at h
    simp only at h
    split at h
    · rename_i hc
      split at h
      · rename_i escape hnew
        simp only [Option.some.injEq, Prod.mk.injEq] at h
        have hlen := seq_length_of_new_ok _ _ hnew
        rw [← h.1]
        refine ⟨by omega, Or.inr ⟨escape, by rw [hc]; rfl, hnew, rfl, hlen⟩⟩
      · simp only [Option.some.injEq, Prod.mk.injEq] at h
        rw [← h.1]
        exact ⟨by simp, Or.inl rfl⟩
    · simp only [Option.some.injEq, Prod.mk.injEq] at h
      rw [← h.1]
      exact ⟨by simp, Or.inl rfl⟩

/-- The loop of `__addTextForce` ends within one test more than the text has
characters, with the buffer that `addTextLoop` computes. -/
theorem addTextRun_eq (n : Nat) : ∀ (text : JSString) (s : Surface),
    text.length < n → addTextRun n text s = some (addTextLoop text s) := by
  induction n with
  | zero => intro text s h; omega
  | succ n ih =>
    intro text s hlen
    unfold addTextRun
    cases hstep : addTextStep text s with
    | none =>
      cases text with
      | nil => rfl
      | cons c rest =>
        unfold addTextStep at hstep
        simp only at hstep
        split at hstep
        · split at hstep <;> cases hstep
        · cases hstep
    | some r =>
      obtain ⟨text2, s2⟩ := r
      have hshort := (addTextStep_shorter text s text2 s2 hstep).1
      simp only
      rw [ih text2 s2 (by omega)]
      cases text with
      | nil => cases hstep
      | cons c rest =>
        rw [addTextLoop_cons]
        unfold addTextStep at hstep
        simp only at hstep
        split at hstep
        · rw [if_pos (by assumption)]
          split at hstep
          · rename_i escape hnew
            simp only [Option.some.injEq, Prod.mk.injEq] at hstep
            rw [← hstep.1, ← hstep.2]
          · rename_i e hnew
            simp only [Option.some.injEq, Prod.mk.injEq] at hstep
            rw [← hstep.1, ← hstep.2]
        · rw [if_neg (by assumption)]
          simp only [Option.some.injEq, Prod.mk.injEq] at hstep
          rw [← hstep.1, ← hstep.2]

/-- C31: `__addTextForce` terminates on every text.  An iteration of its loop
leaves a strictly shorter text to read, either the text from the next index
on or, after a successful parse, the remainder of the parser, which is
shorter than the text parsed; so the loop ends within `text.length + 1` tests
of its condition, with the buffer that `addTextLoop` gives.  An iteration of
the scanning loop of the parser ends the loop (by the `m` or a `throw`) or
removes at least one character, so that loop ends within `seq.length + 1`
tests, with the result that `scan` gives; and the validation loop ends within
one test more than there are codes. -/
theorem C31_addTextForce_terminates (text : JSString) (s : Surface) (seq : JSString)
    (codes : List Nat) (st : EscapeState) :
    (∀ text2 s2, addTextStep text s = some (text2, s2) →
      text2.length < text.length ∧
      (text2 = text.drop 1 ∨
        ∃ r, text.head? = some ESC ∧ EscapeCSS.new text = .ok r ∧ text2 = r.seq ∧
          r.seq.length + 3 ≤ text.length)) ∧
    addTextRun (text.length + 1) text s = some (addTextLoop text s) ∧
    (∀ seq2 codes2, EscapeCSS.scanStep seq codes = .again (seq2, codes2) →
      seq2.length < seq.length) ∧
    EscapeCSS.scanRun (seq.length + 1) seq codes = some (EscapeCSS.scan seq codes) ∧
    EscapeCSS.applyCodesRun (codes.length + 1) codes st =
      some (EscapeCSS.applyCodes codes st) :=
  ⟨fun text2 s2 h => addTextStep_shorter text s text2 s2 h,
   addTextRun_eq _ text s (Nat.lt_succ_self _),
   fun seq2 codes2 h => scanStep_shorter seq codes seq2 codes2 h,
   scanRun_eq _ seq codes (Nat.lt_succ_self _),
   applyCodesRun_eq _ codes st (Nat.lt_succ_self _)⟩

/-- C31 on the text `ESC[31mHi`: the loop of `__addTextForce` ends within its
bound of ten tests (it needs four: the parse, `H`, `i` and the last test),
the remainder of the parse is `Hi`, and the scanning loop on `31m` ends
within four tests. -/
theorem C31_addTextForce_terminates_witness :
    addTextRun 10 "\x1b[31mHi".toList Surface.initial =
      some (addTextLoop "\x1b[31mHi".toList Surface.initial) ∧
    addTextRun 4 "\x1b[31mHi".toList Surface.initial =
      some (addTextLoop "\x1b[31mHi".toList Surface.initial) ∧
    addTextRun 3 "\x1b[31mHi".toList Surface.initial = none ∧
    (addTextStep "\x1b[31mHi".toList Surface.initial).map Prod.fst = some "Hi".toList ∧
    EscapeCSS.scanRun 4 "31m".toList [] = some (.ok ([31], [])) :=
  ⟨(C31_addTextForce_terminates "\x1b[31mHi".toList Surface.initial "31m".toList []
      { theme := EscapeCSS.initialTheme, style := .undefined }).2.1,
   rfl, rfl, rfl,
   (C31_addTextForce_terminates "\x1b[31mHi".toList Surface.initial "31m".toList []
      { theme := EscapeCSS.initialTheme, style := .undefined }).2.2.2.1⟩

/-! ## The run of digits -/

/-- The characters with a code from 48 to 57 are the ten ASCII digits. -/
theorem isDigit_iff (c : Char) : IsDigit c ↔ c ∈ "0123456789".toList := by
  constructor
  · intro h
    obtain ⟨h1, h2⟩ := h
    rw [← Char.ofNat_toNat c]
    generalize c.toNat = n at h1 h2
    interval_cases n <;> decide
  · intro h
    simp only [String.toList, List.mem_cons, List.mem_nil_iff, or_false] at h
    rcases h with h | h | h | h | h | h | h | h | h | h <;> subst h <;> decide

theorem endOfDigits_takeWhile (s : JSString) :
    EscapeCSS.endOfDigits s = (s.takeWhile (fun c => decide (IsDigit c))).length := by
  induction s with
  | nil => rfl
  | cons c cs ih =>
    by_cases hc : IsDigit c
    · have hc2 : ¬ (c.toNat < 48 ∨ c.toNat > 57) := by unfold IsDigit at hc; omega
      simp only [EscapeCSS.endOfDigits, if_neg hc2, List.takeWhile_cons, hc, decide_True,
        if_true, List.length_cons, ih]
    · rw [endOfDigits_cons_of_not_digit c cs hc]
      simp [List.takeWhile_cons, hc]

/-- Every prefix of digits is at most as long as `endOfDigits`. -/
theorem le_endOfDigits (s : JSString) : ∀ n : Nat, n ≤ s.length →
    (∀ c ∈ s.take n, IsDigit c) → n ≤ EscapeCSS.endOfDigits s := by
  induction s with
  | nil =>
    intro n hn _
    simp only [List.length_nil] at hn
    omega
  | cons c cs ih =>
    intro n hn h
    cases n with
    | zero => omega
    | succ m =>
      rw [List.take_succ_cons] at h
      have hc : IsDigit c := h c (List.mem_cons_self _ _)
      have hc2 : ¬ (c.toNat < 48 ∨ c.toNat > 57) := by unfold IsDigit at hc; omega
      simp only [EscapeCSS.endOfDigits, if_neg hc2]
      have := ih m (by simpa using hn) (fun d hd => h d (List.mem_cons_of_mem _ hd))
      omega

/-- The character at the index `endOfDigits`, when there is one, is not a
digit. -/
theorem get?_endOfDigits (s : JSString) (h : EscapeCSS.endOfDigits s < s.length) :
    ∃ c, s.get? (EscapeCSS.endOfDigits s) = some c ∧ ¬ IsDigit c := by
  induction s with
  | nil => simp at h
  | cons c cs ih =>
    by_cases hc : IsDigit c
    · have hc2 : ¬ (c.toNat < 48 ∨ c.toNat > 57) := by unfold IsDigit at hc; omega
      simp only [EscapeCSS.endOfDigits, if_neg hc2, List.length_cons] at h ⊢
      obtain ⟨d, hd, hnd⟩ := ih (by omega)
      exact ⟨d, by simpa using hd, hnd⟩
    · rw [endOfDigits_cons_of_not_digit c cs hc]
      exact ⟨c, rfl, hc⟩

theorem endOfDigits_eq_length_iff (s : JSString) :
    EscapeCSS.endOfDigits s = s.length ↔ ∀ c ∈ s, IsDigit c := by
  constructor
  · intro h c hc
    have := take_endOfDigits_digits s c
    rw [h, List.take_length] at this
    exact this hc
  · intro h
    have h1 := le_endOfDigits s s.length (le_refl _) (by rw [List.take_length]; exact h)
    have h2 := endOfDigits_le s
    omega

/-- C32: `endOfDigits(s)` is the length of the longest prefix of `s` made of
the digits `0` to `9`: the characters before that index are digits and no
longer prefix is made of digits.  It is 0 exactly when `s` is empty or starts
with a character that is not a digit, it is the length of `s` exactly when
every character of `s` is a digit, and otherwise the character at that index
is the first that is not a digit. -/
theorem C32_endOfDigits_longest_digit_run (s : JSString) :
    (∀ c : Char, IsDigit c ↔ c ∈ "0123456789".toList) ∧
    EscapeCSS.endOfDigits s = (s.takeWhile (fun c => decide (IsDigit c))).length ∧
    EscapeCSS.endOfDigits s ≤ s.length ∧
    (∀ c ∈ s.take (EscapeCSS.endOfDigits s), IsDigit c) ∧
    (∀ n : Nat, n ≤ s.length → (∀ c ∈ s.take n, IsDigit c) → n ≤ EscapeCSS.endOfDigits s) ∧
    (EscapeCSS.endOfDigits s = 0 ↔ s = [] ∨ ∃ c, s.head? = some c ∧ ¬ IsDigit c) ∧
    (EscapeCSS.endOfDigits s = s.length ↔ ∀ c ∈ s, IsDigit c) ∧
    (EscapeCSS.endOfDigits s = jsLength s ↔ ∀ c ∈ s, IsDigit c) ∧
    (EscapeCSS.endOfDigits s < s.length →
      ∃ c, s.get? (EscapeCSS.endOfDigits s) = some c ∧ ¬ IsDigit c) := by
  refine ⟨isDigit_iff, endOfDigits_takeWhile s, endOfDigits_le s, take_endOfDigits_digits s,
    le_endOfDigits s, ?_, endOfDigits_eq_length_iff s, ?_, get?_endOfDigits s⟩
  · cases s with
    | nil => simp [EscapeCSS.endOfDigits]
    | cons c cs =>
      by_cases hc : IsDigit c
      · have hc2 : ¬ (c.toNat < 48 ∨ c.toNat > 57) := by unfold IsDigit at hc; omega
        simp [EscapeCSS.endOfDigits, if_neg hc2, hc]
      · rw [endOfDigits_cons_of_not_digit c cs hc]
        simp [hc]
  · constructor
    · intro h
      have h1 := endOfDigits_le s
      have h2 := length_le_jsLength s
      exact (endOfDigits_eq_length_iff s).mp (by omega)
    · intro h
      have h1 := (endOfDigits_eq_length_iff s).mpr h
      have h2 : jsLength s = s.length := by
        unfold jsLength
        clear h1
        induction s with
        | nil => rfl
        | cons c cs ih =>
          have hc := h c (List.mem_cons_self _ _)
          have hlt : c.toNat < 65536 := by unfold IsDigit at hc; omega
          simp only [List.map_cons, List.sum_cons, if_pos hlt, List.length_cons]
          rw [ih (fun d hd => h d (List.mem_cons_of_mem _ hd))]
          omega
      omega

/-- C32 on `31;4m` (the run `31`, then `;`), on `m31` (no digit at the
start), on the empty string and on `2024` (all digits). -/
theorem C32_endOfDigits_longest_digit_run_witness :
    EscapeCSS.endOfDigits "31;4m".toList = 2 ∧
    (∃ c, "31;4m".toList.get? (EscapeCSS.endOfDigits "31;4m".toList) = some c ∧ ¬ IsDigit c) ∧
    EscapeCSS.endOfDigits "m31".toList = 0 ∧
    EscapeCSS.endOfDigits [] = 0 ∧
    EscapeCSS.endOfDigits "2024".toList = "2024".toList.length :=
  ⟨rfl,
   (C32_endOfDigits_longest_digit_run "31;4m".toList).2.2.2.2.2.2.2.2 (by decide),
   (C32_endOfDigits_longest_digit_run "m31".toList).2.2.2.2.2.1.mpr
     (Or.inr ⟨'m', rfl, by decide⟩),
   rfl,
   (C32_endOfDigits_longest_digit_run "2024".toList).2.2.2.2.2.2.1.mpr (by decide)⟩

/-! ## The class of a colour code -/

/-- C33: `ansiToCSSClass(c)` on every integer `c`.  In `30..37` and `90..97`
it returns the class `term-fg-` and in `40..47` and `100..107` the class
`term-bg-`, followed by `bright-` in `90..97` and `100..107`, followed by the
colour `COLORS[c mod 10]` in lower case; on every other integer it throws
`Invalid ANSI color`.  The four ranges are pairwise disjoint, and
`isAnsiFg(c)` and `isAnsiBg(c)` are never both true. -/
theorem C33_ansiToCSSClass_table (c : Int) :
    (30 ≤ c ∧ c ≤ 37 → Theme.ansiToCSSClass c =
      .ok ("term-fg-".toList ++ (COLORS.getD (c % 10).toNat []).map Char.toLower)) ∧
    (40 ≤ c ∧ c ≤ 47 → Theme.ansiToCSSClass c =
      .ok ("term-bg-".toList ++ (COLORS.getD (c % 10).toNat []).map Char.toLower)) ∧
    (90 ≤ c ∧ c ≤ 97 → Theme.ansiToCSSClass c =
      .ok ("term-fg-".toList ++ "bright-".toList ++
        (COLORS.getD (c % 10).toNat []).map Char.toLower)) ∧
    (100 ≤ c ∧ c ≤ 107 → Theme.ansiToCSSClass c =
      .ok ("term-bg-".toList ++ "bright-".toList ++
        (COLORS.getD (c % 10).toNat []).map Char.toLower)) ∧
    (¬ ((30 ≤ c ∧ c ≤ 37) ∨ (40 ≤ c ∧ c ≤ 47) ∨ (90 ≤ c ∧ c ≤ 97) ∨ (100 ≤ c ∧ c ≤ 107)) →
      Theme.ansiToCSSClass c = .error (.invalidAnsiColor c)) ∧
    (Theme.isAnsiDarkFg c = decide (30 ≤ c ∧ c ≤ 37) ∧
      Theme.isAnsiDarkBg c = decide (40 ≤ c ∧ c ≤ 47) ∧
      Theme.isAnsiBrightFg c = decide (90 ≤ c ∧ c ≤ 97) ∧
      Theme.isAnsiBrightBg c = decide (100 ≤ c ∧ c ≤ 107)) ∧
    ¬ (Theme.isAnsiDarkFg c = true ∧ Theme.isAnsiDarkBg c = true) ∧
    ¬ (Theme.isAnsiDarkFg c = true ∧ Theme.isAnsiBrightFg c = true) ∧
    ¬ (Theme.isAnsiDarkFg c = true ∧ Theme.isAnsiBrightBg c = true) ∧
    ¬ (Theme.isAnsiDarkBg c = true ∧ Theme.isAnsiBrightFg c = true) ∧
    ¬ (Theme.isAnsiDarkBg c = true ∧ Theme.isAnsiBrightBg c = true) ∧
    ¬ (Theme.isAnsiBrightFg c = true ∧ Theme.isAnsiBrightBg c = true) ∧
    ¬ (Theme.isAnsiFg c = true ∧ Theme.isAnsiBg c = true) := by
  have hcases : ∀ lo hi : Int, lo ≤ c → c ≤ hi → 0 ≤ lo → ∃ n : Nat, c = (n : Int) := by
    intro lo hi h1 _ h0
    exact ⟨c.toNat, (Int.toNat_of_nonneg (by omega)).symm⟩
  refine ⟨?_, ?_, ?_, ?_, ?_, ?_, ?_, ?_, ?_, ?_, ?_, ?_, ?_⟩
  · rintro ⟨h1, h2⟩
    obtain ⟨n, rfl⟩ := hcases 30 37 h1 h2 (by decide)
    have h3 : 30 ≤ n := by omega
    have h4 : n ≤ 37 := by omega
    clear h1 h2
    interval_cases n <;> rfl
  · rintro ⟨h1, h2⟩
    obtain ⟨n, rfl⟩ := hcases 40 47 h1 h2 (by decide)
    have h3 : 40 ≤ n := by omega
    have h4 : n ≤ 47 := by omega
    clear h1 h2
    interval_cases n <;> rfl
  · rintro ⟨h1, h2⟩
    obtain ⟨n, rfl⟩ := hcases 90 97 h1 h2 (by decide)
    have h3 : 90 ≤ n := by omega
    have h4 : n ≤ 97 := by omega
    clear h1 h2
    interval_cases n <;> rfl
  · rintro ⟨h1, h2⟩
    obtain ⟨n, rfl⟩ := hcases 100 107 h1 h2 (by decide)
    have h3 : 100 ≤ n := by omega
    have h4 : n ≤ 107 := by omega
    clear h1 h2
    interval_cases n <;> rfl
  · intro h
    have h1 : Theme.isAnsiDarkFg c = false := by
      simp only [Theme.isAnsiDarkFg, Bool.and_eq_false_iff, decide_eq_false_iff_not]; omega
    have h2 : Theme.isAnsiDarkBg c = false := by
      simp only [Theme.isAnsiDarkBg, Bool.and_eq_false_iff, decide_eq_false_iff_not]; omega
    have h3 : Theme.isAnsiBrightFg c = false := by
      simp only [Theme.isAnsiBrightFg, Bool.and_eq_false_iff, decide_eq_false_iff_not]; omega
    have h4 : Theme.isAnsiBrightBg c = false := by
      simp only [Theme.isAnsiBrightBg, Bool.and_eq_false_iff, decide_eq_false_iff_not]; omega
    simp [Theme.ansiToCSSClass, Theme.ansiToCSSColor, h1, h2, h3, h4]
  · refine ⟨?_, ?_, ?_, ?_⟩ <;>
      simp [Theme.isAnsiDarkFg, Theme.isAnsiDarkBg, Theme.isAnsiBrightFg, Theme.isAnsiBrightBg,
        Bool.decide_and]
  all_goals
    simp only [Theme.isAnsiFg, Theme.isAnsiBg, Theme.isAnsiDarkFg, Theme.isAnsiDarkBg,
      Theme.isAnsiBrightFg, Theme.isAnsiBrightBg, Bool.and_eq_true, Bool.or_eq_true,
      decide_eq_true_eq]
    omega

/-- C33 on the codes 100 (`term-bg-bright-black`), 31, 45 and 96, on 38 and on
a negative number, which throw, and on the two predicates at 100. -/
theorem C33_ansiToCSSClass_table_witness :
    Theme.ansiToCSSClass 100 = .ok "term-bg-bright-black".toList ∧
    Theme.ansiToCSSClass 31 = .ok "term-fg-red".toList ∧
    Theme.ansiToCSSClass 45 = .ok "term-bg-magenta".toList ∧
    Theme.ansiToCSSClass 96 = .ok "term-fg-bright-cyan".toList ∧
    Theme.ansiToCSSClass 38 = .error (.invalidAnsiColor 38) ∧
    Theme.ansiToCSSClass (-5) = .error (.invalidAnsiColor (-5)) ∧
    ¬ (Theme.isAnsiFg 100 = true ∧ Theme.isAnsiBg 100 = true) :=
  ⟨(C33_ansiToCSSClass_table 100).2.2.2.1 (by decide),
   (C33_ansiToCSSClass_table 31).1 (by decide),
   (C33_ansiToCSSClass_table 45).2.1 (by decide),
   (C33_ansiToCSSClass_table 96).2.2.1 (by decide),
   (C33_ansiToCSSClass_table 38).2.2.2.2.1 (by decide),
   (C33_ansiToCSSClass_table (-5)).2.2.2.2.1 (by decide),
   (C33_ansiToCSSClass_table 100).2.2.2.2.2.2.2.2.2.2.2.2⟩
